import Mathlib

/-!
# Big Tandy keyboard adapter: PS/2 receiver, scancode translator, ring buffer, transmit engine

A shallow embedding of `src/IAR/MSP430/TandyKey/main.c`.  The globals of the
program, the locals of `main` that live across loop iterations and the
statics of the two interrupt handlers are the fields of one `State`.  An
8-bit or 16-bit variable is a natural number; a result that could leave the
width is reduced modulo `2^8` or `2^16` at the place the C code stores it.

* `Port1` is the PS/2 clock edge handler; its argument is the value read
  from `P1IN`.
* `main_loop` is one iteration of the `while(1)` loop of `main`.
* `Timer_A1` is the tick handler; its argument is the value read from `P1IN`.
-/

namespace TandyKey

/-! ## Pin assignments and constants -/

def KBD_BSYN : Nat := 0x01
def KBD_CLK : Nat := 0x08
def KBD_DTA : Nat := 0x10
def PS2_DTA : Nat := 0x40
def PS2_CLK : Nat := 0x80
def UART_RX : Nat := 0x02
def UART_TX : Nat := 0x04
def LED1 : Nat := 0x01
def LED0 : Nat := 0x80
def BAUD : Nat := 14400
def KBD_BUF_N : Nat := 16
def F10_IDX : Nat := 73

/-- One row of `ps2_map`: the 9-bit key code and the four output bytes. -/
structure MapEntry where
  code : Nat
  ctrl : Nat
  shft : Nat
  alt : Nat
  none : Nat
  deriving DecidableEq, Repr

/-- The scancode table `ps2_map`, in source order. -/
def ps2_map : List MapEntry :=
  [ MapEntry.mk 0x01c 0x01 0x41 0xc1 0x61, -- A
    MapEntry.mk 0x032 0x02 0x42 0xc2 0x62, -- B
    MapEntry.mk 0x021 0x03 0x43 0xc3 0x63, -- C
    MapEntry.mk 0x023 0x04 0x44 0xc4 0x64, -- D
    MapEntry.mk 0x024 0x05 0x45 0xc5 0x65, -- E
    MapEntry.mk 0x02b 0x06 0x46 0xc6 0x66, -- F
    MapEntry.mk 0x034 0x07 0x47 0xc7 0x67, -- G
    MapEntry.mk 0x033 0x08 0x48 0xc8 0x68, -- H
    MapEntry.mk 0x043 0x09 0x49 0xc9 0x69, -- I
    MapEntry.mk 0x03b 0x0a 0x4a 0xca 0x6a, -- J
    MapEntry.mk 0x042 0x0b 0x4b 0xcb 0x6b, -- K
    MapEntry.mk 0x04b 0x0c 0x4c 0xcc 0x6c, -- L
    MapEntry.mk 0x03a 0x0d 0x4d 0xcd 0x6d, -- M
    MapEntry.mk 0x031 0x0e 0x4e 0xce 0x6e, -- N
    MapEntry.mk 0x044 0x0f 0x4f 0xcf 0x6f, -- O
    MapEntry.mk 0x04d 0x10 0x50 0xd0 0x70, -- P
    MapEntry.mk 0x015 0x11 0x51 0xd1 0x71, -- Q
    MapEntry.mk 0x02d 0x12 0x52 0xd2 0x72, -- R
    MapEntry.mk 0x01b 0x13 0x53 0xd3 0x73, -- S
    MapEntry.mk 0x02c 0x14 0x54 0xd4 0x74, -- T
    MapEntry.mk 0x03c 0x15 0x55 0xd5 0x75, -- U
    MapEntry.mk 0x02a 0x16 0x56 0xd6 0x76, -- V
    MapEntry.mk 0x01d 0x17 0x57 0xd7 0x77, -- W
    MapEntry.mk 0x022 0x18 0x58 0xd8 0x78, -- X
    MapEntry.mk 0x035 0x19 0x59 0xd9 0x79, -- Y
    MapEntry.mk 0x01a 0x1a 0x5a 0xda 0x7a, -- Z
    -- [26..30]
    MapEntry.mk 0x05a 0x0d 0x0d 0x0d 0x0d, -- ENTER
    MapEntry.mk 0x029 0x20 0x20 0x20 0x20, -- SPACE
    MapEntry.mk 0x066 0x08 0x08 0x08 0x08, -- BACKSPACE
    MapEntry.mk 0x00d 0x09 0x09 0x09 0x09, -- TAB
    MapEntry.mk 0x076 0x1b 0x1b 0x1b 0x1b, -- ESC
    -- [31..40]
    MapEntry.mk 0x045 0x7c 0x29 0xb0 0x30, -- 0 )
    MapEntry.mk 0x016 0xa1 0x21 0xb1 0x31, -- 1 !
    MapEntry.mk 0x01e 0xc0 0x40 0xb2 0x32, -- 2 @
    MapEntry.mk 0x026 0xa3 0x23 0xb3 0x33, -- 3 #
    MapEntry.mk 0x025 0xa4 0x24 0xb4 0x34, -- 4 $
    MapEntry.mk 0x02e 0xa5 0x25 0xb5 0x35, -- 5 %
    MapEntry.mk 0x036 0x7e 0x5e 0xb6 0x36, -- 6 ^
    MapEntry.mk 0x03d 0xa6 0x26 0xb7 0x37, -- 7 &
    MapEntry.mk 0x03e 0xaa 0x2a 0xb8 0x38, -- 8 *
    MapEntry.mk 0x046 0x5c 0x28 0xb9 0x39, -- 9 (
    -- [41..47]
    MapEntry.mk 0x052 0xa2 0x22 0xa7 0x27, -- quote
    MapEntry.mk 0x041 0xbc 0x3c 0xac 0x2c, -- , <
    MapEntry.mk 0x04e 0x7f 0x5f 0xad 0x2d, -- - _
    MapEntry.mk 0x049 0xbe 0x3e 0xae 0x2e, -- . >
    MapEntry.mk 0x04a 0xbf 0x3f 0xaf 0x2f, -- / ?
    MapEntry.mk 0x04c 0xba 0x3a 0xbb 0x3b, -- ; :
    MapEntry.mk 0x055 0xab 0x2b 0xbd 0x3d, -- = +
    -- [48..50]
    MapEntry.mk 0x054 0xdb 0x7b 0xfb 0x5b, -- [
    MapEntry.mk 0x05d 0xdc 0x7c 0xfc 0x5c, -- backslash |
    MapEntry.mk 0x05b 0xdd 0x7d 0xfd 0x5d, -- ]
    -- [51..66]
    MapEntry.mk 0x070 0x30 0x30 0x30 0x30, -- kp 0
    MapEntry.mk 0x069 0x31 0x31 0x31 0x31, -- kp 1
    MapEntry.mk 0x072 0x32 0x32 0x32 0x32, -- kp 2
    MapEntry.mk 0x07a 0x33 0x33 0x33 0x33, -- kp 3
    MapEntry.mk 0x06b 0x34 0x34 0x34 0x34, -- kp 4
    MapEntry.mk 0x073 0x35 0x35 0x35 0x35, -- kp 5
    MapEntry.mk 0x074 0x36 0x36 0x36 0x36, -- kp 6
    MapEntry.mk 0x06c 0x37 0x37 0x37 0x37, -- kp 7
    MapEntry.mk 0x075 0x38 0x38 0x38 0x38, -- kp 8
    MapEntry.mk 0x07d 0x39 0x39 0x39 0x39, -- kp 9
    MapEntry.mk 0x07c 0x2a 0x2a 0x2a 0x2a, -- kp *
    MapEntry.mk 0x079 0x2b 0x2b 0x2b 0x2b, -- kp +
    MapEntry.mk 0x07b 0x2d 0x2d 0x2d 0x2d, -- kp -
    MapEntry.mk 0x071 0x2e 0x2e 0x2e 0x2e, -- kp .
    MapEntry.mk 0x14a 0x2f 0x2f 0x2f 0x2f, -- kp /
    MapEntry.mk 0x15a 0x0d 0x0d 0x0d 0x0d, -- kp ENTER
    -- [67..70]
    MapEntry.mk 0x16b 0x1c 0x1c 0x1c 0x1c, -- LEFT ARROW
    MapEntry.mk 0x174 0x1d 0x1d 0x1d 0x1d, -- RIGHT ARROW
    MapEntry.mk 0x175 0x1e 0x1e 0x1e 0x1e, -- UP ARROW
    MapEntry.mk 0x172 0x1f 0x1f 0x1f 0x1f, -- DOWN ARROW
    -- [71..72]
    MapEntry.mk 0x169 0x03 0x03 0x03 0x03, -- END (->BREAK)
    MapEntry.mk 0x07e 0x00 0x00 0x00 0x00, -- SCROLL
    -- [73..82]
    MapEntry.mk 0x009 0x00 0x00 0xfc 0x00, -- F10
    MapEntry.mk 0x005 0x01 0x01 0xfc 0x01, -- F1
    MapEntry.mk 0x006 0x02 0x02 0xfc 0x02, -- F2
    MapEntry.mk 0x004 0x04 0x04 0xfc 0x04, -- F3
    MapEntry.mk 0x00c 0x0c 0x0c 0xfc 0x0c, -- F4
    MapEntry.mk 0x003 0x15 0x15 0xfc 0x15, -- F5
    MapEntry.mk 0x00b 0x10 0x10 0xfc 0x10, -- F6
    MapEntry.mk 0x083 0x0e 0x0e 0xfc 0x0e, -- F7
    MapEntry.mk 0x00a 0x13 0x13 0xfc 0x13, -- F8
    MapEntry.mk 0x001 0x1a 0x1a 0xfc 0x1a ] -- F9

/-! ## Program state -/

/-- All variables of the program that live across handler invocations. -/
structure State where
  /-- mailbox byte (global, volatile) -/
  ps2_hld : Nat
  /-- mailbox ready flag (global, volatile) -/
  ps2_hld_rdy : Nat
  /-- ring buffer storage, indexed `0 .. KBD_BUF_N - 1` -/
  kbd_buf : Nat → Nat
  kbd_buf_in : Nat
  kbd_buf_out : Nat
  ps2_caps : Nat
  /-- locals of `main` -/
  ps2_dta : Nat
  prev_ps2_dta : Nat
  prev_prev_ps2_dta : Nat
  ps2_shft : Nat
  ps2_ctrl : Nat
  ps2_alt : Nat
  /-- statics of `Timer_A1` -/
  kbd_state : Nat
  kbd_shr : Nat
  div : Nat
  /-- static of `Port1` -/
  ps2_shr : Nat
  /-- output port registers -/
  P1OUT : Nat
  P2OUT : Nat

/-- Store `v` in slot `i` of an array: `a[i] = v`. -/
def store (a : Nat → Nat) (i v : Nat) : Nat → Nat :=
  fun j => if j = i then v else a j

/-- The state after the initialisation code of `main`, before the first
loop iteration (buffer contents and the never-initialised bytes are 0). -/
def power_on : State :=
  { ps2_hld := 0, ps2_hld_rdy := 0, kbd_buf := fun _ => 0, kbd_buf_in := 0, kbd_buf_out := 0,
    ps2_caps := 0, ps2_dta := 0, prev_ps2_dta := 0, prev_prev_ps2_dta := 0,
    ps2_shft := 0, ps2_ctrl := 0, ps2_alt := 0,
    kbd_state := 0, kbd_shr := 0, div := BAUD * 2 - 1, ps2_shr := 0,
    P1OUT := PS2_CLK ||| PS2_DTA ||| KBD_BSYN ||| KBD_DTA ||| UART_TX ||| UART_RX,
    P2OUT := LED1 }

/-! ## PS/2 receiver: `Port1` -/

/-- The interrupt handler `Port1`, run on a falling PS/2 clock edge with the
port input value `P1IN`. -/
def Port1 (s : State) (P1IN : Nat) : State :=
  let ps2_shr := (s.ps2_shr >>> 1) ||| (if P1IN &&& PS2_DTA ≠ 0 then 0 else 0x400)
  if ps2_shr &&& 0x1 ≠ 0 then
    if ¬ (ps2_shr &&& 0x400 ≠ 0) then
      { s with ps2_hld := ((0xFFFF ^^^ ps2_shr) >>> 1) % 256, ps2_hld_rdy := 1, ps2_shr := 0 }
    else
      { s with ps2_shr := 0 }
  else
    { s with ps2_shr := ps2_shr }

/-! ## Scancode translator: the loop body of `main` -/

/-- The table search `for(i = 0; i < 83; i++) if(ps2_esc_dta == ps2_map[i].code) ... break;`
over the rows still to visit, `i` being the index of the first of them.
Gives the index and row where the loop breaks, or nothing when it runs out. -/
def ps2_scan (ps2_esc_dta : Nat) : List MapEntry → Nat → Option (Nat × MapEntry)
  | [], _ => Option.none
  | e :: es, i => if ps2_esc_dta = e.code then some (i, e) else ps2_scan ps2_esc_dta es (i + 1)

/-- The output byte chosen for row `e` at index `i`:
`ps2_ctrl ? ctrl : ps2_alt ? alt : ps2_shft ? (letter and caps ? none : shft)
                                            : (letter and caps ? shft : none)`. -/
def ps2_select (i : Nat) (e : MapEntry) (ps2_ctrl ps2_alt ps2_shft ps2_caps : Nat) : Nat :=
  if ps2_ctrl ≠ 0 then e.ctrl
  else if ps2_alt ≠ 0 then e.alt
  else if ps2_shft ≠ 0 then (if i < 26 ∧ ps2_caps &&& 1 ≠ 0 then e.none else e.shft)
  else (if i < 26 ∧ ps2_caps &&& 1 ≠ 0 then e.shft else e.none)

/-- The block `if(ps2_code_rdy) { ... }`: store the byte, and the digit for
alt + function key, and commit `kbd_buf_in` when the buffer has room. -/
def kbd_put (s : State) (i ps2_code : Nat) : State :=
  let tmp_buf_in := s.kbd_buf_in
  let buf1 := store s.kbd_buf tmp_buf_in ps2_code
  let tmp_buf_in := (tmp_buf_in + 1) &&& (KBD_BUF_N - 1)
  if tmp_buf_in ≠ s.kbd_buf_out then
    if i ≥ F10_IDX ∧ i < F10_IDX + 10 ∧ ps2_code = 0xfc then
      let buf2 := store buf1 tmp_buf_in ((0x30 + (i - F10_IDX)) % 256)
      let tmp_buf_in := (tmp_buf_in + 1) &&& (KBD_BUF_N - 1)
      if tmp_buf_in ≠ s.kbd_buf_out then
        { s with kbd_buf := buf2, kbd_buf_in := tmp_buf_in }
      else
        { s with kbd_buf := buf2 }
    else
      { s with kbd_buf := buf1, kbd_buf_in := tmp_buf_in }
  else
    { s with kbd_buf := buf1 }

/-- The press branch for a key that is not in the table. -/
def ps2_press_mod (s : State) (ps2_esc_dta : Nat) : State :=
  if ps2_esc_dta = 0x012 then { s with ps2_shft := s.ps2_shft ||| 1 }
  else if ps2_esc_dta = 0x059 then { s with ps2_shft := s.ps2_shft ||| 2 }
  else if ps2_esc_dta = 0x014 then { s with ps2_ctrl := s.ps2_ctrl ||| 1 }
  else if ps2_esc_dta = 0x114 then { s with ps2_ctrl := s.ps2_ctrl ||| 2 }
  else if ps2_esc_dta = 0x011 then { s with ps2_alt := s.ps2_alt ||| 1 }
  else if ps2_esc_dta = 0x111 then { s with ps2_alt := s.ps2_alt ||| 2 }
  else if ps2_esc_dta = 0x058 then
    { s with ps2_caps := (2 ||| ((s.ps2_caps >>> 1) ^^^ 1 ^^^ s.ps2_caps)) % 256 }
  else s

/-- The release branch. -/
def ps2_release_mod (s : State) (ps2_esc_dta : Nat) : State :=
  if ps2_esc_dta = 0x012 then { s with ps2_shft := s.ps2_shft &&& 2 }
  else if ps2_esc_dta = 0x059 then { s with ps2_shft := s.ps2_shft &&& 1 }
  else if ps2_esc_dta = 0x014 then { s with ps2_ctrl := s.ps2_ctrl &&& 2 }
  else if ps2_esc_dta = 0x114 then { s with ps2_ctrl := s.ps2_ctrl &&& 1 }
  else if ps2_esc_dta = 0x011 then { s with ps2_alt := s.ps2_alt &&& 2 }
  else if ps2_esc_dta = 0x111 then { s with ps2_alt := s.ps2_alt &&& 1 }
  else if ps2_esc_dta = 0x058 then { s with ps2_caps := s.ps2_caps &&& 1 }
  else s

/-- The four assignments that take the byte out of the mailbox:
`prev_prev_ps2_dta = prev_ps2_dta; prev_ps2_dta = ps2_dta; ps2_dta = ps2_hld; ps2_hld_rdy = 0;`. -/
def ps2_fetch (s : State) : State :=
  { s with prev_prev_ps2_dta := s.prev_ps2_dta, prev_ps2_dta := s.ps2_dta,
           ps2_dta := s.ps2_hld, ps2_hld_rdy := 0 }

/-- One iteration of the `while(1)` loop of `main` (the watchdog write left out). -/
def main_loop (s : State) : State :=
  if s.ps2_hld_rdy ≠ 0 then
    let s1 := ps2_fetch s
    if ¬ (s1.ps2_dta = 0xf0 ∨ s1.ps2_dta = 0xe0) then
      let ps2_esc : Nat :=
        if s1.prev_ps2_dta = 0xf0 then (if s1.prev_prev_ps2_dta = 0xe0 then 1 else 0)
        else (if s1.prev_ps2_dta = 0xe0 then 1 else 0)
      let ps2_esc_dta := ((ps2_esc <<< 8) ||| s1.ps2_dta) % 65536
      let ps2_release : Nat := if s1.prev_ps2_dta = 0xf0 then 1 else 0
      if ¬ (ps2_release ≠ 0) then
        match ps2_scan ps2_esc_dta ps2_map 0 with
        | some (i, e) =>
          kbd_put s1 i (ps2_select i e s1.ps2_ctrl s1.ps2_alt s1.ps2_shft s1.ps2_caps)
        | Option.none => ps2_press_mod s1 ps2_esc_dta
      else
        ps2_release_mod s1 ps2_esc_dta
    else s1
  else s

/-! ## Transmit engine: `Timer_A1` -/

/-- The block `switch(kbd_state & 3) { ... }`: the output lines for this tick
of an active state 4..39. -/
def kbd_phase (s : State) : State :=
  match s.kbd_state &&& 3 with
  | 0 =>
    if s.kbd_state < 36 then
      { s with P1OUT := (if s.kbd_shr &&& 1 ≠ 0 then s.P1OUT ||| (KBD_DTA ||| UART_TX)
                         else s.P1OUT &&& (0xFF ^^^ (KBD_DTA ||| UART_TX))),
               kbd_shr := s.kbd_shr >>> 1 }
    else
      { s with P1OUT := (s.P1OUT &&& (0xFF ^^^ KBD_DTA)) ||| UART_TX }
  | 1 => if s.kbd_state < 36 then { s with P1OUT := s.P1OUT ||| KBD_CLK } else s
  | 2 => { s with P1OUT := s.P1OUT ||| KBD_DTA }
  | _ => { s with P1OUT := s.P1OUT &&& (0xFF ^^^ KBD_CLK) }

/-- The block `if(!(++kbd_state < 40)) { P2OUT &= ~LED1; kbd_state = 0; }`. -/
def kbd_advance (s : State) : State :=
  let kbd_state := (s.kbd_state + 1) % 256
  if ¬ (kbd_state < 40) then
    { s with P2OUT := s.P2OUT &&& (0xFF ^^^ LED1), kbd_state := 0 }
  else
    { s with kbd_state := kbd_state }

/-- The block `if(div-- == 0) { ... }` that blinks LED0. -/
def led_blink (s : State) : State :=
  if s.div = 0 then
    { s with P2OUT := s.P2OUT ^^^ LED0,
             div := if s.ps2_caps &&& 1 ≠ 0 then BAUD - 1 else BAUD * 2 - 1 }
  else
    { s with div := s.div - 1 }

/-- The interrupt handler `Timer_A1`, run on a timer tick with the port input
value `P1IN`. -/
def Timer_A1 (s : State) (P1IN : Nat) : State :=
  led_blink
    (if s.kbd_state = 0 then
      if s.kbd_buf_out ≠ s.kbd_buf_in ∧ P1IN &&& KBD_BSYN ≠ 0 then
        { s with kbd_shr := s.kbd_buf s.kbd_buf_out,
                 kbd_buf_out := (s.kbd_buf_out + 1) &&& (KBD_BUF_N - 1),
                 P1OUT := s.P1OUT &&& (0xFF ^^^ UART_TX),
                 P2OUT := s.P2OUT ||| LED1,
                 kbd_state := (s.kbd_state + 1) % 256 }
      else s
    else if s.kbd_state < 4 then
      { s with kbd_state := (s.kbd_state + 1) % 256 }
    else
      kbd_advance (kbd_phase s))

/-! ## Receiver input: sample streams and frames -/

/-- The level of the PS/2 data line in a port input value, as `Port1` tests it. -/
def ps2_level (P1IN : Nat) : Bool := decide (P1IN &&& PS2_DTA ≠ 0)

/-- A port input value whose PS/2 data line has the given level. -/
def ps2_pin (level : Bool) : Nat := if level then PS2_DTA else 0

/-- The 11 line levels of a PS/2 frame on successive clock edges: start bit,
the 8 bits of `d` least-significant first, parity bit, stop bit
(`true` = line high).  A valid frame has `start = false` and `stop = true`. -/
def ps2_frame (start : Bool) (d : Nat) (p stop : Bool) : List Bool :=
  start :: ((List.range 8).map (fun k => d.testBit k) ++ [p, stop])

/-- `Port1` run on successive clock edges, one port input value per edge. -/
def Port1_run (s : State) (xs : List Nat) : State := xs.foldl Port1 s

/-- The window computation of `Port1` alone: new window, and the byte
delivered on this edge if any. -/
def rx (w : Nat) (lvl : Bool) : Nat × Option Nat :=
  let w1 := (w >>> 1) ||| (if lvl then 0 else 0x400)
  if w1 &&& 0x1 ≠ 0 then
    (0, if ¬ (w1 &&& 0x400 ≠ 0) then some (((0xFFFF ^^^ w1) >>> 1) % 256) else Option.none)
  else (w1, Option.none)

/-- The window after a list of levels, and the last byte delivered if any. -/
def rxs (w : Nat) : List Bool → Nat × Option Nat
  | [] => (w, Option.none)
  | l :: ls =>
    let r1 := rx w l
    let r2 := rxs r1.1 ls
    (r2.1, r2.2.orElse (fun _ => r1.2))

/-- Write a window and a delivery, if any, back into the state. -/
def deliver (s : State) (r : Nat × Option Nat) : State :=
  match r.2 with
  | some b => { s with ps2_hld := b, ps2_hld_rdy := 1, ps2_shr := r.1 }
  | Option.none => { s with ps2_shr := r.1 }

/-! ## Translator input and the ring buffer read as a queue -/

/-- The number of bytes held by the ring buffer. -/
def kbd_count (s : State) : Nat := (s.kbd_buf_in + KBD_BUF_N - s.kbd_buf_out) % KBD_BUF_N

/-- The bytes held by the ring buffer, oldest first: the slots from
`kbd_buf_out` up to, not including, `kbd_buf_in`. -/
def kbd_queue (s : State) : List Nat :=
  (List.range (kbd_count s)).map (fun j => s.kbd_buf ((s.kbd_buf_out + j) % KBD_BUF_N))

/-- The receiver delivers byte `b` to the mailbox and the main loop polls once. -/
def feed (s : State) (b : Nat) : State :=
  main_loop { s with ps2_hld := b, ps2_hld_rdy := 1 }

/-- A sequence of raw bytes, each consumed by one pass. -/
def feeds (s : State) (bs : List Nat) : State := bs.foldl feed s

/-- The mailbox holds the byte of a press of the key of row `e`: the byte is
the low 8 bits of the row's code, the byte consumed before it is not the
release prefix, and it is the escape prefix exactly when the code has the
escape bit `0x100`. -/
def press_of (s : State) (e : MapEntry) : Prop :=
  s.ps2_hld_rdy ≠ 0 ∧ s.ps2_hld = e.code % 256 ∧ s.ps2_dta ≠ 0xf0 ∧
    (s.ps2_dta = 0xe0 ↔ e.code &&& 0x100 ≠ 0)

instance (s : State) (e : MapEntry) : Decidable (press_of s e) := by
  unfold press_of; infer_instance

/-- The row used where an index is outside the table. -/
def no_entry : MapEntry := MapEntry.mk 0 0 0 0 0

/-- The `n` bytes stored from slot `out` on, wrapping at `KBD_BUF_N`. -/
def slots (buf : Nat → Nat) (out n : Nat) : List Nat :=
  (List.range n).map (fun j => buf ((out + j) % KBD_BUF_N))

/-- The condition under which `kbd_put` stores a digit after the byte. -/
def two_bytes (i ps2_code : Nat) : Prop :=
  i ≥ F10_IDX ∧ i < F10_IDX + 10 ∧ ps2_code = 0xfc

instance (i c : Nat) : Decidable (two_bytes i c) := by
  unfold two_bytes; infer_instance

/-- The number of passes, over the raw bytes `bs` consumed from state `s`,
that change the caps-lock active bit (bit 0 of `ps2_caps`). -/
def caps_changes (s : State) : List Nat → Nat
  | [] => 0
  | b :: bs =>
    (if (feed s b).ps2_caps &&& 1 ≠ s.ps2_caps &&& 1 then 1 else 0) + caps_changes (feed s b) bs

/-- No byte of `bs` completes a caps-lock release, where `p` is the byte
before `bs` and `pp` the byte before that: a caps-lock release is 0x58
directly after 0xF0, the 0xF0 not directly after 0xE0. -/
def caps_release_free (pp p : Nat) : List Nat → Bool
  | [] => true
  | b :: bs => !(p == 0xf0 && b == 0x58 && pp != 0xe0) && caps_release_free p b bs

/-- The sequence `bs` contains no caps-lock release; the two bytes taken to
stand before the sequence are 0, which is no prefix. -/
def no_caps_release (bs : List Nat) : Bool := caps_release_free 0 0 bs

/-! ## Transmit engine input -/

/-- One timer tick in its environment: between two ticks the main loop may
have moved `kbd_buf_in` to `ev.2`; the tick then reads the port value `ev.1`. -/
def tick (s : State) (ev : Nat × Nat) : State :=
  Timer_A1 { s with kbd_buf_in := ev.2 } ev.1

/-- Successive ticks, one environment event per tick. -/
def ticks (s : State) (evs : List (Nat × Nat)) : State := evs.foldl tick s

/-! ## Translator: key of a pass, history advance, bit operations -/

/-- The 9-bit key `ps2_esc_dta` that the pass consuming the mailbox byte of
`s` computes: the escape flag, from the two bytes consumed before, shifted
left by 8, or-ed with the byte. -/
def ps2_key (s : State) : Nat :=
  let ps2_esc : Nat :=
    if s.ps2_dta = 0xf0 then (if s.prev_ps2_dta = 0xe0 then 1 else 0)
    else (if s.ps2_dta = 0xe0 then 1 else 0)
  ((ps2_esc <<< 8) ||| s.ps2_hld) % 65536

/-- Byte `b` is taken from the mailbox and only the raw-byte history
advances: `ps2_fetch` on the mailbox holding `b`. -/
def absorb (s : State) (b : Nat) : State :=
  ps2_fetch { s with ps2_hld := b, ps2_hld_rdy := 1 }

/-- The value `x` with bit `i` set. -/
def set_bit (x i : Nat) : Nat := x ||| (1 <<< i)

/-- The 8-bit value `x` with bit `i` cleared. -/
def clear_bit (x i : Nat) : Nat := x &&& (0xFF ^^^ (1 <<< i))

/-- The codes of the six modifier keys and of caps-lock, as the press and
release branches compare them. -/
def modifier_codes : List Nat := [0x012, 0x059, 0x014, 0x114, 0x011, 0x111, 0x058]

/-! ## Transmit engine: output lines and their view -/

/-- The level of the legacy clock line `KBD_CLK` in the output register. -/
def kbd_clk (s : State) : Bool := decide (s.P1OUT &&& KBD_CLK ≠ 0)

/-- The level of the legacy data line `KBD_DTA`. -/
def kbd_dta (s : State) : Bool := decide (s.P1OUT &&& KBD_DTA ≠ 0)

/-- The level of the asynchronous serial line `UART_TX`. -/
def uart_tx (s : State) : Bool := decide (s.P1OUT &&& UART_TX ≠ 0)

/-- What the transmit engine's behaviour depends on and drives: tick count,
shift register and the three output lines. -/
structure TxView where
  kbd_state : Nat
  kbd_shr : Nat
  clk : Bool
  dta : Bool
  tx : Bool
  deriving DecidableEq

/-- The view of a state. -/
def tx_view (s : State) : TxView :=
  { kbd_state := s.kbd_state, kbd_shr := s.kbd_shr, clk := kbd_clk s, dta := kbd_dta s,
    tx := uart_tx s }

/-- The `switch(kbd_state & 3)` block of `Timer_A1` on the view. -/
def tx_phase (v : TxView) : TxView :=
  match v.kbd_state &&& 3 with
  | 0 =>
    if v.kbd_state < 36 then
      { v with dta := v.kbd_shr.testBit 0, tx := v.kbd_shr.testBit 0, kbd_shr := v.kbd_shr >>> 1 }
    else
      { v with dta := false, tx := true }
  | 1 => if v.kbd_state < 36 then { v with clk := true } else v
  | 2 => { v with dta := true }
  | _ => { v with clk := false }

/-- One tick of `Timer_A1` on the view, for a tick that does not start a byte
(in Idle nothing moves). -/
def tx_step (v : TxView) : TxView :=
  if v.kbd_state = 0 then v
  else if v.kbd_state < 4 then { v with kbd_state := v.kbd_state + 1 }
  else
    { tx_phase v with kbd_state := if v.kbd_state + 1 < 40 then v.kbd_state + 1 else 0 }

/-- The view after `n` such ticks. -/
def tx_run : Nat → TxView → TxView
  | 0, v => v
  | n + 1, v => tx_run n (tx_step v)

/-- The state after `n` ticks, the first with event `ev0`, the later ones with
the events of `rest`. -/
def after_ticks (s : State) (ev0 : Nat × Nat) (rest : List (Nat × Nat)) (n : Nat) : State :=
  ticks s ((ev0 :: rest).take n)

/-- Tick count and line levels `(kbd_state, KBD_CLK, KBD_DTA, UART_TX)` after
tick `n` (1..40) of the transmission of byte `b`, the clock and data lines
being at `c` and `d` before the first tick: start bit, eight groups of four
ticks, end-of-data and stop bit. -/
def wave (b : Nat) (c d : Bool) (n : Nat) : Nat × Bool × Bool × Bool :=
  if n ≤ 4 then (n, c, d, false)
  else if n ≤ 36 then
    (n,
     if n = 5 then c else decide ((n - 5) % 4 = 1 ∨ (n - 5) % 4 = 2),
     if 2 ≤ (n - 5) % 4 then true else b.testBit ((n - 5) / 4),
     b.testBit ((n - 5) / 4))
  else (n % 40, false, decide (39 ≤ n), true)

/-- Tick count and line levels of a view. -/
def tx_lines (v : TxView) : Nat × Bool × Bool × Bool := (v.kbd_state, v.clk, v.dta, v.tx)

/-- The view after tick `n` (1..40) of the transmission of byte `b`: the tick
count and lines of `wave`, and the shift register shifted once per data bit
sent. -/
def view_at (b : Nat) (c d : Bool) (n : Nat) : TxView :=
  { kbd_state := (wave b c d n).1, kbd_shr := b >>> (min 8 ((n - 1) / 4)),
    clk := (wave b c d n).2.1, dta := (wave b c d n).2.2.1, tx := (wave b c d n).2.2.2 }

/-! ## The whole program as a transition system; the FIFO of the specification -/

/-- What can happen next: a PS/2 clock edge with a port value, one iteration
of the main loop, or a timer tick with a port value. -/
inductive Event where
  | edge (P1IN : Nat)
  | poll
  | timer (P1IN : Nat)

/-- One event: the handler or the loop iteration runs to completion. -/
def step (s : State) : Event → State
  | Event.edge x => Port1 s x
  | Event.poll => main_loop s
  | Event.timer x => Timer_A1 s x

/-- A sequence of events. -/
def run (s : State) (es : List Event) : State := es.foldl step s

/-- The bytes the main loop has enqueued along a run, in order: for each
poll, what the queue gained at its end. -/
def pushed (s : State) : List Event → List Nat
  | [] => []
  | e :: es =>
    (match e with
     | Event.poll => (kbd_queue (main_loop s)).drop (kbd_queue s).length
     | _ => []) ++ pushed (step s e) es

/-- The bytes the timer handler has loaded into the shift register along a
run, in order: for each tick that moves `kbd_buf_out`, the new `kbd_shr`. -/
def popped (s : State) : List Event → List Nat
  | [] => []
  | e :: es =>
    (match e with
     | Event.timer x =>
       if (Timer_A1 s x).kbd_buf_out ≠ s.kbd_buf_out then [(Timer_A1 s x).kbd_shr] else []
     | _ => []) ++ popped (step s e) es

/-- The bounded FIFO queue as the specification words it (Output Ring
Buffer): `try_push` appends at the end and fails once the queue holds
capacity - 1 items. -/
def spec_try_push (q : List Nat) (b : Nat) : Option (List Nat) :=
  if q.length < KBD_BUF_N - 1 then some (q ++ [b]) else Option.none

/-- The bounded FIFO queue as the specification words it: `try_pop` removes
the oldest item and returns no value on an empty queue. -/
def spec_try_pop (q : List Nat) : Option (Nat × List Nat) :=
  match q with
  | [] => Option.none
  | b :: r => some (b, r)

/-! ## Receiver lemmas -/

theorem Port1_eq_rx (s : State) (x : Nat) :
    Port1 s x = deliver s (rx s.ps2_shr (ps2_level x)) := by
  unfold Port1 rx deliver ps2_level
  by_cases hx : x &&& PS2_DTA ≠ 0 <;> simp only [hx, decide_True, decide_False, if_true, if_false] <;>
    split_ifs <;> simp_all

theorem deliver_deliver (s : State) (r1 r2 : Nat × Option Nat) :
    deliver (deliver s r1) r2 = deliver s (r2.1, r2.2.orElse (fun _ => r1.2)) := by
  obtain ⟨w1, o1⟩ := r1
  obtain ⟨w2, o2⟩ := r2
  cases o1 <;> cases o2 <;> simp [deliver, Option.orElse]

theorem deliver_shr (s : State) (r : Nat × Option Nat) : (deliver s r).ps2_shr = r.1 := by
  obtain ⟨w, o⟩ := r
  cases o <;> simp [deliver]

theorem Port1_run_eq_rxs (xs : List Nat) (s : State) :
    Port1_run s xs = deliver s (rxs s.ps2_shr (xs.map ps2_level)) := by
  induction xs generalizing s with
  | nil => simp [Port1_run, rxs, deliver]
  | cons x xs ih =>
    have h : Port1_run s (x :: xs) = Port1_run (Port1 s x) xs := by simp [Port1_run]
    rw [h, ih, Port1_eq_rx, deliver_shr, deliver_deliver]
    simp [rxs]
theorem Port1_run_append (s : State) (xs ys : List Nat) :
    Port1_run s (xs ++ ys) = Port1_run (Port1_run s xs) ys := by
  simp [Port1_run, List.foldl_append]

theorem Port1_idle (s : State) (x : Nat) (hw : s.ps2_shr = 0) (hx : ps2_level x = true) :
    Port1 s x = s := by
  rw [Port1_eq_rx, hw, hx]
  have h : rx 0 true = (0, Option.none) := by decide
  rw [h]
  simp [deliver, ← hw]

theorem Port1_run_idle (idle : List Nat) (s : State) (hw : s.ps2_shr = 0)
    (hidle : ∀ x ∈ idle, ps2_level x = true) : Port1_run s idle = s := by
  induction idle with
  | nil => rfl
  | cons x xs ih =>
    have h : Port1_run s (x :: xs) = Port1_run (Port1 s x) xs := by simp [Port1_run]
    rw [h, Port1_idle s x hw (hidle x (List.mem_cons_self x xs))]
    exact ih (fun y hy => hidle y (List.mem_cons_of_mem x hy))

theorem rxs_none_take (ls : List Bool) (w : Nat) (h : (rxs w ls).2 = Option.none) (n : Nat) :
    (rxs w (ls.take n)).2 = Option.none := by
  induction ls generalizing w n with
  | nil => simp [rxs]
  | cons l ls ih =>
    cases n with
    | zero => simp [rxs]
    | succ n =>
      simp only [rxs] at h
      have h2 : (rxs (rx w l).1 ls).2 = Option.none := by
        cases hh : (rxs (rx w l).1 ls).2 with
        | none => rfl
        | some b => rw [hh] at h; simp [Option.orElse] at h
      have h1 : (rx w l).2 = Option.none := by
        rw [h2] at h; simpa [Option.orElse] using h
      simp only [List.take_succ_cons, rxs, ih _ h2 n, h1]
      rfl

theorem deliver_none (s : State) (r : Nat × Option Nat) (h : r.2 = Option.none) :
    (deliver s r).ps2_hld = s.ps2_hld ∧ (deliver s r).ps2_hld_rdy = s.ps2_hld_rdy := by
  obtain ⟨w, o⟩ := r
  simp only at h
  subst h
  simp [deliver]

set_option maxRecDepth 100000 in
theorem rxs_valid_frame :
    ∀ d < 256, ∀ p : Bool, rxs 0 (ps2_frame false d p true) = (0, some d) := by
  decide

set_option maxRecDepth 100000 in
theorem rxs_malformed_none :
    ∀ d < 256, ∀ start p stop : Bool, (start = true ∨ stop = false) →
      (rxs 0 (ps2_frame start d p stop)).2 = Option.none := by
  decide

set_option maxRecDepth 100000 in
theorem rxs_malformed_resync :
    ∀ d < 256, ∀ start p stop : Bool, (start = true ∨ stop = false) →
      (start = false ∨ (d = 255 ∧ p = true ∧ stop = true)) →
        (rxs 0 (ps2_frame start d p stop)).1 = 0 := by
  decide

set_option synthInstance.maxSize 1024 in
set_option maxRecDepth 100000 in
theorem rxs_malformed_stuck :
    ∀ d < 256, ∀ start p stop : Bool, (start = true ∨ stop = false) →
      ¬ (start = false ∨ (d = 255 ∧ p = true ∧ stop = true)) →
        (rxs 0 (ps2_frame start d p stop)).1 ≠ 0 := by
  decide

set_option synthInstance.maxSize 1024 in
set_option maxRecDepth 100000 in
theorem rxs_malformed_next :
    ∀ d < 256, ∀ start p stop : Bool, (start = true ∨ stop = false) →
      ¬ (start = false ∨ (d = 255 ∧ p = true ∧ stop = true)) →
        (rxs (rxs 0 (ps2_frame start d p stop)).1 (ps2_frame false 0 false true)).2
          = Option.none := by
  decide

theorem rxs_malformed_frame (d : Nat) (hd : d < 256) (start p stop : Bool)
    (hbad : start = true ∨ stop = false) :
      (rxs 0 (ps2_frame start d p stop)).2 = Option.none ∧
      ((start = false ∨ (d = 255 ∧ p = true ∧ stop = true)) →
        (rxs 0 (ps2_frame start d p stop)).1 = 0) ∧
      (¬ (start = false ∨ (d = 255 ∧ p = true ∧ stop = true)) →
        (rxs 0 (ps2_frame start d p stop)).1 ≠ 0 ∧
        (rxs (rxs 0 (ps2_frame start d p stop)).1 (ps2_frame false 0 false true)).2
          = Option.none) :=
  ⟨rxs_malformed_none d hd start p stop hbad, rxs_malformed_resync d hd start p stop hbad,
   fun h => ⟨rxs_malformed_stuck d hd start p stop hbad h,
     rxs_malformed_next d hd start p stop hbad h⟩⟩

theorem Port1_run_valid (s : State) (xs : List Nat) (d : Nat) (p : Bool)
    (hw : s.ps2_shr = 0) (hd : d < 256)
    (hxs : xs.map ps2_level = ps2_frame false d p true) :
    Port1_run s xs = { s with ps2_hld := d, ps2_hld_rdy := 1, ps2_shr := 0 } := by
  rw [Port1_run_eq_rxs, hxs, hw, rxs_valid_frame d hd p]
  rfl

/-! ## Receiver: claims -/

/-- C1: from an empty window, after any number of idle (high) samples, the 11
samples of a valid frame (start low, the 8 bits of `d` least-significant
first, any parity bit `p`, stop high) leave `ps2_hld = d`, `ps2_hld_rdy = 1`
and the window 0, every other variable unchanged; `p` does not occur in the
resulting state. -/
theorem Port1_valid_frame (s : State) (idle xs : List Nat) (d : Nat) (p : Bool)
    (hw : s.ps2_shr = 0) (hd : d < 256)
    (hidle : ∀ x ∈ idle, ps2_level x = true)
    (hxs : xs.map ps2_level = ps2_frame false d p true) :
    Port1_run s (idle ++ xs) = { s with ps2_hld := d, ps2_hld_rdy := 1, ps2_shr := 0 } := by
  rw [Port1_run_append, Port1_run_idle idle s hw hidle]
  exact Port1_run_valid s xs d p hw hd hxs

theorem Port1_valid_frame_witness :
    Port1_run power_on
        ([ps2_pin true, ps2_pin true] ++ (ps2_frame false 0x1c false true).map ps2_pin)
      = { power_on with ps2_hld := 0x1c, ps2_hld_rdy := 1, ps2_shr := 0 } :=
  Port1_valid_frame power_on _ _ 0x1c false rfl (by decide) (by decide) (by decide)

set_option maxRecDepth 100000 in
/-- C2 (as stated, refuted): the malformed frame with a high start bit and
data byte 0x00, fed from an empty window, is followed by the valid frame
carrying 0x41; afterwards the mailbox does not hold 0x41 with the ready flag
set. -/
theorem Port1_no_resync_after_high_start :
    ¬ ((Port1_run power_on ((ps2_frame true 0x00 true true).map ps2_pin
            ++ (ps2_frame false 0x41 true true).map ps2_pin)).ps2_hld = 0x41 ∧
       (Port1_run power_on ((ps2_frame true 0x00 true true).map ps2_pin
            ++ (ps2_frame false 0x41 true true).map ps2_pin)).ps2_hld_rdy = 1) := by
  decide

/-- C2 (amended): for every malformed 11-sample frame (start high or stop low)
fed from an empty window, the mailbox is not written at any point of the
frame.  When the start bit is low, or all 11 samples are high, the window is
empty afterwards and a valid frame fed next is delivered with its data byte.
Otherwise (start high and some later sample low) the window is not empty
afterwards, and the valid frame with data 0x00 and parity low fed next is
not delivered. -/
theorem Port1_malformed_frame (s : State) (xs ys zs : List Nat)
    (start : Bool) (d : Nat) (p stop : Bool) (d2 : Nat) (p2 : Bool)
    (hw : s.ps2_shr = 0) (hd : d < 256) (hd2 : d2 < 256)
    (hbad : start = true ∨ stop = false)
    (hxs : xs.map ps2_level = ps2_frame start d p stop)
    (hys : ys.map ps2_level = ps2_frame false d2 p2 true)
    (hzs : zs.map ps2_level = ps2_frame false 0 false true) :
    (∀ n, (Port1_run s (xs.take n)).ps2_hld = s.ps2_hld ∧
          (Port1_run s (xs.take n)).ps2_hld_rdy = s.ps2_hld_rdy) ∧
    ((start = false ∨ (d = 255 ∧ p = true ∧ stop = true)) →
      (Port1_run s xs).ps2_shr = 0 ∧
      Port1_run s (xs ++ ys) = { s with ps2_hld := d2, ps2_hld_rdy := 1, ps2_shr := 0 }) ∧
    (¬ (start = false ∨ (d = 255 ∧ p = true ∧ stop = true)) →
      (Port1_run s xs).ps2_shr ≠ 0 ∧
      (Port1_run s (xs ++ zs)).ps2_hld = s.ps2_hld ∧
      (Port1_run s (xs ++ zs)).ps2_hld_rdy = s.ps2_hld_rdy) := by
  obtain ⟨hnone, hres, hnot⟩ := rxs_malformed_frame d hd start p stop hbad
  refine ⟨?_, ?_, ?_⟩
  · intro n
    rw [Port1_run_eq_rxs, hw, List.map_take, hxs]
    exact deliver_none s _ (rxs_none_take _ 0 hnone n)
  · intro hc
    have h0 : (Port1_run s xs).ps2_shr = 0 := by
      rw [Port1_run_eq_rxs, deliver_shr, hxs, hw]
      exact hres hc
    refine ⟨h0, ?_⟩
    rw [Port1_run_append, Port1_run_valid (Port1_run s xs) ys d2 p2 h0 hd2 hys]
    have hh := deliver_none s _ (hw ▸ hxs ▸ hnone : (rxs s.ps2_shr (xs.map ps2_level)).2 = Option.none)
    rw [Port1_run_eq_rxs]
    generalize rxs s.ps2_shr (xs.map ps2_level) = r at hh ⊢
    obtain ⟨w, o⟩ := r
    cases o <;> simp [deliver]
  · intro hc
    obtain ⟨hne, hz⟩ := hnot hc
    have hsh : (Port1_run s xs).ps2_shr = (rxs 0 (ps2_frame start d p stop)).1 := by
      rw [Port1_run_eq_rxs, deliver_shr, hxs, hw]
    refine ⟨by rw [hsh]; exact hne, ?_⟩
    have h1 := deliver_none s (rxs s.ps2_shr (xs.map ps2_level)) (by rw [hw, hxs]; exact hnone)
    rw [← Port1_run_eq_rxs] at h1
    have h2 := deliver_none (Port1_run s xs)
      (rxs (Port1_run s xs).ps2_shr (zs.map ps2_level)) (by rw [hsh, hzs]; exact hz)
    rw [← Port1_run_eq_rxs, ← Port1_run_append] at h2
    exact ⟨h2.1.trans h1.1, h2.2.trans h1.2⟩

theorem Port1_malformed_frame_witness :
    Port1_run power_on ((ps2_frame false 0x1c false false).map ps2_pin
        ++ (ps2_frame false 0x41 true true).map ps2_pin)
      = { power_on with ps2_hld := 0x41, ps2_hld_rdy := 1, ps2_shr := 0 } :=
  ((Port1_malformed_frame power_on _ _ ((ps2_frame false 0 false true).map ps2_pin)
      false 0x1c false false 0x41 true rfl (by decide) (by decide) (by decide)
      (by decide) (by decide) (by decide)).2.1 (Or.inl rfl)).2

/-! ## Table lemmas -/

theorem ps2_map_getD {i : Nat} {e : MapEntry} (h : ps2_map[i]? = some e) :
    i < 83 ∧ ps2_map.getD i no_entry = e := by
  obtain ⟨hi, he⟩ := List.getElem?_eq_some_iff.mp h
  refine ⟨hi, ?_⟩
  rw [List.getD_eq_getElem?_getD, h]
  rfl

set_option maxRecDepth 100000 in
theorem ps2_map_scan_self : ∀ i < 83,
    ps2_scan (ps2_map.getD i no_entry).code ps2_map 0 = some (i, ps2_map.getD i no_entry) := by
  decide

set_option maxRecDepth 100000 in
theorem ps2_map_key : ∀ i < 83,
    (ps2_map.getD i no_entry).code % 256 ≠ 0xf0 ∧ (ps2_map.getD i no_entry).code % 256 ≠ 0xe0 ∧
    (((if (ps2_map.getD i no_entry).code &&& 0x100 ≠ 0 then 1 else 0) <<< 8) |||
        (ps2_map.getD i no_entry).code % 256) % 65536 = (ps2_map.getD i no_entry).code := by
  decide

theorem ps2_scan_sound (key : Nat) (l : List MapEntry) (n i : Nat) (e : MapEntry)
    (h : ps2_scan key l n = some (i, e)) :
    n ≤ i ∧ l[i - n]? = some e ∧ e.code = key := by
  induction l generalizing n with
  | nil => simp [ps2_scan] at h
  | cons a as ih =>
    simp only [ps2_scan] at h
    split_ifs at h with hk
    · simp only [Option.some.injEq, Prod.mk.injEq] at h
      obtain ⟨rfl, rfl⟩ := h
      simp [hk]
    · obtain ⟨h1, h2, h3⟩ := ih (n + 1) h
      refine ⟨by omega, ?_, h3⟩
      have : i - n = (i - (n + 1)) + 1 := by omega
      rw [this, List.getElem?_cons_succ]
      exact h2

/-! ## Translator lemmas -/

/-- A press of a table key is looked up to its own row and handed to `kbd_put`. -/
theorem main_loop_press (s : State) (i : Nat) (e : MapEntry)
    (he : ps2_map[i]? = some e) (hp : press_of s e) :
    main_loop s =
      kbd_put (ps2_fetch s) i (ps2_select i e s.ps2_ctrl s.ps2_alt s.ps2_shft s.ps2_caps) := by
  obtain ⟨hi, hd⟩ := ps2_map_getD he
  obtain ⟨hrdy, hbyte, hrel, hesc⟩ := hp
  have hscan := ps2_map_scan_self i hi
  obtain ⟨hk1, hk2, hk3⟩ := ps2_map_key i hi
  rw [hd] at hscan hk1 hk2 hk3
  unfold main_loop
  simp only [hrdy, ne_eq, not_false_eq_true, if_true, ps2_fetch, hbyte, hk1, hk2, or_self, hrel,
    if_false]
  by_cases hc : e.code &&& 0x100 ≠ 0
  · simp only [hesc.mpr hc, if_true]
    simp only [hc, ne_eq, not_false_eq_true, if_true] at hk3
    rw [hk3, hscan]
    simp
  · have : ¬ s.ps2_dta = 0xe0 := fun h => hc (hesc.mp h)
    simp only [this, if_false]
    simp only [hc, if_false] at hk3
    rw [hk3, hscan]
    simp

/-! ## Ring buffer lemmas -/

theorem kbd_queue_eq_slots (s : State) :
    kbd_queue s = slots s.kbd_buf s.kbd_buf_out (kbd_count s) := rfl

theorem slots_succ (buf : Nat → Nat) (out n : Nat) :
    slots buf out (n + 1) = slots buf out n ++ [buf ((out + n) % KBD_BUF_N)] := by
  simp [slots, List.range_succ]

theorem slots_store (buf : Nat → Nat) (out n k v : Nat)
    (h : ∀ j < n, (out + j) % KBD_BUF_N ≠ k) :
    slots (store buf k v) out n = slots buf out n := by
  unfold slots
  apply List.map_congr_left
  intro j hj
  have := h j (List.mem_range.mp hj)
  simp [store, this]

theorem kbd_mask (x : Nat) : x &&& (KBD_BUF_N - 1) = x % 16 :=
  Nat.and_pow_two_sub_one_eq_mod x 4

/-- `kbd_put` writes only the buffer storage and `kbd_buf_in`. -/
theorem kbd_put_frame (t : State) (i c : Nat) :
    kbd_put t i c = { t with kbd_buf := (kbd_put t i c).kbd_buf,
                             kbd_buf_in := (kbd_put t i c).kbd_buf_in } := by
  unfold kbd_put
  simp only
  split_ifs <;> rfl

/-- One free slot and no digit to follow: the byte is appended. -/
theorem kbd_put_one (t : State) (i c : Nat) (hin : t.kbd_buf_in < 16) (hout : t.kbd_buf_out < 16)
    (h2 : ¬ two_bytes i c) (hroom : kbd_count t + 1 ≤ 15) :
    kbd_queue (kbd_put t i c) = kbd_queue t ++ [c] ∧
    (kbd_put t i c).kbd_buf_in = (t.kbd_buf_in + 1) % 16 := by
  unfold two_bytes at h2
  have hne : (t.kbd_buf_in + 1) % 16 ≠ t.kbd_buf_out := by
    unfold kbd_count KBD_BUF_N at hroom; omega
  unfold kbd_put
  simp only [kbd_mask, hne, ne_eq, not_false_eq_true, if_true, h2, if_false]
  refine ⟨?_, trivial⟩
  have hc : kbd_count { t with kbd_buf := store t.kbd_buf t.kbd_buf_in c,
                               kbd_buf_in := (t.kbd_buf_in + 1) % 16 } = kbd_count t + 1 := by
    unfold kbd_count KBD_BUF_N at hroom ⊢; simp only; omega
  rw [kbd_queue_eq_slots, hc, slots_succ, kbd_queue_eq_slots]
  simp only
  have hlast : (t.kbd_buf_out + kbd_count t) % KBD_BUF_N = t.kbd_buf_in := by
    unfold kbd_count KBD_BUF_N; omega
  rw [hlast, slots_store]
  · simp [store]
  · intro j hj
    unfold kbd_count KBD_BUF_N at hj
    unfold KBD_BUF_N
    omega

/-- Two free slots and the digit case: the byte and the digit are appended. -/
theorem kbd_put_two (t : State) (i c : Nat) (hin : t.kbd_buf_in < 16) (hout : t.kbd_buf_out < 16)
    (h2 : two_bytes i c) (hroom : kbd_count t + 2 ≤ 15) :
    kbd_queue (kbd_put t i c) = kbd_queue t ++ [c, 0x30 + (i - F10_IDX)] ∧
    (kbd_put t i c).kbd_buf_in = (t.kbd_buf_in + 2) % 16 := by
  obtain ⟨ha, hb, rfl⟩ := h2
  have hne : (t.kbd_buf_in + 1) % 16 ≠ t.kbd_buf_out := by
    unfold kbd_count KBD_BUF_N at hroom; omega
  have hne2 : ((t.kbd_buf_in + 1) % 16 + 1) % 16 ≠ t.kbd_buf_out := by
    unfold kbd_count KBD_BUF_N at hroom; omega
  have hdig : (0x30 + (i - F10_IDX)) % 256 = 0x30 + (i - F10_IDX) := by
    unfold F10_IDX at ha hb ⊢; omega
  unfold kbd_put
  simp only [kbd_mask, hne, hne2, ne_eq, not_false_eq_true, if_true, ha, hb, and_self, hdig]
  refine ⟨?_, by omega⟩
  have hc : kbd_count { t with
      kbd_buf := store (store t.kbd_buf t.kbd_buf_in 0xfc) ((t.kbd_buf_in + 1) % 16)
        (0x30 + (i - F10_IDX)),
      kbd_buf_in := ((t.kbd_buf_in + 1) % 16 + 1) % 16 } = kbd_count t + 1 + 1 := by
    unfold kbd_count KBD_BUF_N at hroom ⊢; simp only; omega
  rw [kbd_queue_eq_slots, hc, slots_succ, slots_succ, kbd_queue_eq_slots]
  simp only
  have hlast : (t.kbd_buf_out + kbd_count t) % KBD_BUF_N = t.kbd_buf_in := by
    unfold kbd_count KBD_BUF_N; omega
  have hlast2 : (t.kbd_buf_out + (kbd_count t + 1)) % KBD_BUF_N = (t.kbd_buf_in + 1) % 16 := by
    unfold kbd_count KBD_BUF_N; omega
  have hd : t.kbd_buf_in ≠ (t.kbd_buf_in + 1) % 16 := by omega
  rw [hlast, hlast2, slots_store, slots_store]
  · simp [store, hd]
  · intro j hj
    unfold kbd_count KBD_BUF_N at hj
    unfold KBD_BUF_N
    omega
  · intro j hj
    unfold kbd_count KBD_BUF_N at hj
    unfold KBD_BUF_N
    omega

/-- No room for what the press produces: nothing is enqueued. -/
theorem kbd_put_drop (t : State) (i c : Nat) (hout : t.kbd_buf_out < 16)
    (hfull : kbd_count t = 15 ∨ (two_bytes i c ∧ kbd_count t = 14)) :
    kbd_queue (kbd_put t i c) = kbd_queue t ∧
    (kbd_put t i c).kbd_buf_in = t.kbd_buf_in := by
  have hs1 : ∀ v, slots (store t.kbd_buf t.kbd_buf_in v) t.kbd_buf_out (kbd_count t)
      = slots t.kbd_buf t.kbd_buf_out (kbd_count t) := by
    intro v
    apply slots_store
    intro j hj
    unfold kbd_count KBD_BUF_N at hj
    unfold KBD_BUF_N
    omega
  rcases hfull with h | ⟨h2, h⟩
  · have he : (t.kbd_buf_in + 1) % 16 = t.kbd_buf_out := by
      unfold kbd_count KBD_BUF_N at h; omega
    have hp : kbd_put t i c = { t with kbd_buf := store t.kbd_buf t.kbd_buf_in c } := by
      unfold kbd_put
      simp [kbd_mask, he]
    rw [hp]
    refine ⟨?_, rfl⟩
    rw [kbd_queue_eq_slots, kbd_queue_eq_slots]
    exact hs1 c
  · have hne : (t.kbd_buf_in + 1) % 16 ≠ t.kbd_buf_out := by
      unfold kbd_count KBD_BUF_N at h; omega
    have he2 : ((t.kbd_buf_in + 1) % 16 + 1) % 16 = t.kbd_buf_out := by
      unfold kbd_count KBD_BUF_N at h; omega
    obtain ⟨ha, hb, rfl⟩ := h2
    have hp : kbd_put t i 0xfc =
        { t with
          kbd_buf := store (store t.kbd_buf t.kbd_buf_in 0xfc) ((t.kbd_buf_in + 1) % 16)
            ((0x30 + (i - F10_IDX)) % 256) } := by
      unfold kbd_put
      simp [kbd_mask, hne, he2, ha, hb]
    rw [hp]
    refine ⟨?_, rfl⟩
    rw [kbd_queue_eq_slots, kbd_queue_eq_slots]
    show slots (store (store t.kbd_buf t.kbd_buf_in 0xfc) ((t.kbd_buf_in + 1) % 16)
          ((0x30 + (i - F10_IDX)) % 256)) t.kbd_buf_out (kbd_count t) = _
    rw [slots_store, hs1]
    intro j hj
    unfold kbd_count KBD_BUF_N at hj h
    unfold KBD_BUF_N
    omega

/-! ## Press of a table key -/

set_option maxRecDepth 100000 in
theorem ps2_map_sentinel : ∀ i < 83,
    (ps2_map.getD i no_entry).ctrl ≠ 0xfc ∧ (ps2_map.getD i no_entry).shft ≠ 0xfc ∧
    (ps2_map.getD i no_entry).none ≠ 0xfc ∧
    ((ps2_map.getD i no_entry).alt = 0xfc ↔ (i = 49 ∨ F10_IDX ≤ i)) := by
  decide

set_option maxRecDepth 100000 in
theorem ps2_map_letters : ∀ i < 26,
    (ps2_map.getD i no_entry).shft ≠ (ps2_map.getD i no_entry).none := by
  decide

theorem ps2_select_sentinel (i : Nat) (e : MapEntry) (he : ps2_map[i]? = some e)
    (ctrl alt shft caps : Nat) :
    ps2_select i e ctrl alt shft caps = 0xfc ↔ ((i = 49 ∨ F10_IDX ≤ i) ∧ ctrl = 0 ∧ alt ≠ 0) := by
  obtain ⟨hi, hd⟩ := ps2_map_getD he
  obtain ⟨h1, h2, h3, h4⟩ := ps2_map_sentinel i hi
  rw [hd] at h1 h2 h3 h4
  unfold ps2_select
  split_ifs <;> simp_all

theorem select_two_bytes (i : Nat) (e : MapEntry) (he : ps2_map[i]? = some e)
    (ctrl alt shft caps : Nat) :
    two_bytes i (ps2_select i e ctrl alt shft caps) ↔ (F10_IDX ≤ i ∧ ctrl = 0 ∧ alt ≠ 0) := by
  obtain ⟨hi, _⟩ := ps2_map_getD he
  unfold two_bytes
  rw [ps2_select_sentinel i e he]
  unfold F10_IDX
  constructor
  · rintro ⟨h1, _, _, h3, h4⟩
    exact ⟨h1, h3, h4⟩
  · rintro ⟨h1, h3, h4⟩
    exact ⟨h1, by omega, Or.inr h1, h3, h4⟩

theorem ps2_select_no_caps (i : Nat) (e : MapEntry) (ctrl alt shft caps : Nat)
    (hcaps : caps &&& 1 = 0) :
    ps2_select i e ctrl alt shft caps =
      if ctrl ≠ 0 then e.ctrl else if alt ≠ 0 then e.alt
      else if shft ≠ 0 then e.shft else e.none := by
  unfold ps2_select
  simp [hcaps]

/-- What a press of a table key enqueues when there is room for it. -/
theorem press_enqueues (s : State) (i : Nat) (e : MapEntry)
    (he : ps2_map[i]? = some e) (hp : press_of s e)
    (hin : s.kbd_buf_in < 16) (hout : s.kbd_buf_out < 16)
    (hroom : kbd_count s + (if F10_IDX ≤ i ∧ s.ps2_ctrl = 0 ∧ s.ps2_alt ≠ 0 then 2 else 1) ≤ 15) :
    kbd_queue (main_loop s) = kbd_queue s ++
      (ps2_select i e s.ps2_ctrl s.ps2_alt s.ps2_shft s.ps2_caps ::
        (if F10_IDX ≤ i ∧ s.ps2_ctrl = 0 ∧ s.ps2_alt ≠ 0 then [0x30 + (i - F10_IDX)] else [])) := by
  rw [main_loop_press s i e he hp]
  have h2 := select_two_bytes i e he s.ps2_ctrl s.ps2_alt s.ps2_shft s.ps2_caps
  by_cases hc : F10_IDX ≤ i ∧ s.ps2_ctrl = 0 ∧ s.ps2_alt ≠ 0
  · rw [if_pos hc] at hroom ⊢
    exact (kbd_put_two (ps2_fetch s) i _ hin hout (h2.mpr hc) hroom).1
  · rw [if_neg hc] at hroom ⊢
    exact (kbd_put_one (ps2_fetch s) i _ hin hout (fun h => hc (h2.mp h)) hroom).1

/-- A press that produces one byte, with a free slot. -/
theorem press_enqueues_one (s : State) (i : Nat) (e : MapEntry)
    (he : ps2_map[i]? = some e) (hp : press_of s e)
    (hin : s.kbd_buf_in < 16) (hout : s.kbd_buf_out < 16)
    (hone : ¬ (F10_IDX ≤ i ∧ s.ps2_ctrl = 0 ∧ s.ps2_alt ≠ 0))
    (hroom : kbd_count s + 1 ≤ 15) :
    kbd_queue (main_loop s) = kbd_queue s ++
      [ps2_select i e s.ps2_ctrl s.ps2_alt s.ps2_shft s.ps2_caps] := by
  have h := press_enqueues s i e he hp hin hout (by rw [if_neg hone]; exact hroom)
  rw [if_neg hone] at h
  exact h

/-- What a press of a table key does when there is no room for it. -/
theorem press_dropped (s : State) (i : Nat) (e : MapEntry)
    (he : ps2_map[i]? = some e) (hp : press_of s e) (hout : s.kbd_buf_out < 16)
    (hfull : kbd_count s = 15 ∨
      ((F10_IDX ≤ i ∧ s.ps2_ctrl = 0 ∧ s.ps2_alt ≠ 0) ∧ kbd_count s = 14)) :
    kbd_queue (main_loop s) = kbd_queue s ∧ (main_loop s).kbd_buf_in = s.kbd_buf_in ∧
    (main_loop s).kbd_buf_out = s.kbd_buf_out := by
  rw [main_loop_press s i e he hp]
  have h2 := select_two_bytes i e he s.ps2_ctrl s.ps2_alt s.ps2_shft s.ps2_caps
  have hd := kbd_put_drop (ps2_fetch s) i
    (ps2_select i e s.ps2_ctrl s.ps2_alt s.ps2_shft s.ps2_caps) hout
    (hfull.imp id (fun h => ⟨h2.mpr h.1, h.2⟩))
  refine ⟨hd.1, hd.2, ?_⟩
  rw [kbd_put_frame]
  rfl

/-! ## Translator: claims -/

/-- C3: with caps-lock inactive, a press of the key of any table row (preceded
by 0xE0 exactly when the row's code has the escape bit), with room in the ring
buffer for what the press produces, enqueues as its first byte the ctrl column
if a ctrl bit is set, else the alt column if an alt bit is set, else the shft
column if a shift bit is set, else the none column; with no modifier set it
enqueues exactly one byte, the none column. -/
theorem press_column (s : State) (i : Nat) (e : MapEntry)
    (he : ps2_map[i]? = some e) (hp : press_of s e)
    (hin : s.kbd_buf_in < 16) (hout : s.kbd_buf_out < 16)
    (hcaps : s.ps2_caps &&& 1 = 0)
    (hroom : kbd_count s + (if F10_IDX ≤ i ∧ s.ps2_ctrl = 0 ∧ s.ps2_alt ≠ 0 then 2 else 1) ≤ 15) :
    kbd_queue (main_loop s) = kbd_queue s ++
      ((if s.ps2_ctrl ≠ 0 then e.ctrl else if s.ps2_alt ≠ 0 then e.alt
        else if s.ps2_shft ≠ 0 then e.shft else e.none) ::
        (if F10_IDX ≤ i ∧ s.ps2_ctrl = 0 ∧ s.ps2_alt ≠ 0 then [0x30 + (i - F10_IDX)] else [])) ∧
    (s.ps2_ctrl = 0 → s.ps2_alt = 0 → s.ps2_shft = 0 →
      kbd_queue (main_loop s) = kbd_queue s ++ [e.none]) := by
  have h := press_enqueues s i e he hp hin hout hroom
  rw [ps2_select_no_caps i e _ _ _ _ hcaps] at h
  refine ⟨h, ?_⟩
  intro h1 h2 h3
  rw [h]
  simp [h1, h2, h3]

set_option maxRecDepth 100000 in
theorem press_column_witness :
    kbd_queue (feed power_on 0x1c) = [0x61] ∧
    kbd_queue (feed (feed power_on 0x14) 0x21) = [0x03] :=
  ⟨(press_column { power_on with ps2_hld := 0x1c, ps2_hld_rdy := 1 } 0
      (MapEntry.mk 0x01c 0x01 0x41 0xc1 0x61) (by decide) (by decide) (by decide) (by decide)
      (by decide) (by decide)).2 rfl rfl rfl,
   (press_column { feed power_on 0x14 with ps2_hld := 0x21, ps2_hld_rdy := 1 } 2
      (MapEntry.mk 0x021 0x03 0x43 0xc3 0x63) (by decide) (by decide) (by decide) (by decide)
      (by decide) (by decide)).1.trans (by decide)⟩

/-- C4: caps-lock swaps the shft and none columns of the 26 letter rows and
changes nothing else.  For a press of a table key, `c0` a caps-lock value
with the active bit clear and `c1` one with it set: unless the row is a
letter with neither ctrl nor alt set, the pass under `c1` differs from the
pass under `c0` in `ps2_caps` only; for a letter with neither ctrl nor alt
set and a free slot, a plain press enqueues the shft column under `c1` and
the none column under `c0`, a shifted press the none column under `c1` and
the shft column under `c0`, and the two columns differ. -/
theorem caps_swaps_letters (s : State) (i : Nat) (e : MapEntry) (c0 c1 : Nat)
    (he : ps2_map[i]? = some e) (hp : press_of s e)
    (hin : s.kbd_buf_in < 16) (hout : s.kbd_buf_out < 16)
    (h0 : c0 &&& 1 = 0) (h1 : c1 &&& 1 ≠ 0) :
    (¬ (i < 26 ∧ s.ps2_ctrl = 0 ∧ s.ps2_alt = 0) →
      main_loop { s with ps2_caps := c1 }
        = { main_loop { s with ps2_caps := c0 } with ps2_caps := c1 }) ∧
    (i < 26 → s.ps2_ctrl = 0 → s.ps2_alt = 0 → kbd_count s + 1 ≤ 15 →
      e.shft ≠ e.none ∧
      (s.ps2_shft = 0 →
        kbd_queue (main_loop { s with ps2_caps := c1 }) = kbd_queue s ++ [e.shft] ∧
        kbd_queue (main_loop { s with ps2_caps := c0 }) = kbd_queue s ++ [e.none]) ∧
      (s.ps2_shft ≠ 0 →
        kbd_queue (main_loop { s with ps2_caps := c1 }) = kbd_queue s ++ [e.none] ∧
        kbd_queue (main_loop { s with ps2_caps := c0 }) = kbd_queue s ++ [e.shft])) := by
  have hp0 : press_of { s with ps2_caps := c0 } e := hp
  have hp1 : press_of { s with ps2_caps := c1 } e := hp
  constructor
  · intro hn
    rw [main_loop_press _ i e he hp0, main_loop_press _ i e he hp1]
    have hsel : ps2_select i e s.ps2_ctrl s.ps2_alt s.ps2_shft c1
        = ps2_select i e s.ps2_ctrl s.ps2_alt s.ps2_shft c0 := by
      unfold ps2_select
      by_cases hc : s.ps2_ctrl = 0
      · by_cases ha : s.ps2_alt = 0
        · have hi : ¬ i < 26 := fun h => hn ⟨h, hc, ha⟩
          simp [hi]
        · simp [ha]
      · simp [hc]
    simp only [hsel]
    unfold kbd_put ps2_fetch
    simp only
    split_ifs <;> rfl
  · intro hi hc ha hroom
    obtain ⟨hi83, hd⟩ := ps2_map_getD he
    have hne := ps2_map_letters i hi
    rw [hd] at hne
    have hone : ¬ (F10_IDX ≤ i ∧ s.ps2_ctrl = 0 ∧ s.ps2_alt ≠ 0) := fun h => h.2.2 ha
    have e0 : kbd_queue (main_loop { s with ps2_caps := c0 }) = kbd_queue s ++
        [ps2_select i e s.ps2_ctrl s.ps2_alt s.ps2_shft c0] :=
      press_enqueues_one { s with ps2_caps := c0 } i e he hp0 hin hout hone hroom
    have e1 : kbd_queue (main_loop { s with ps2_caps := c1 }) = kbd_queue s ++
        [ps2_select i e s.ps2_ctrl s.ps2_alt s.ps2_shft c1] :=
      press_enqueues_one { s with ps2_caps := c1 } i e he hp1 hin hout hone hroom
    rw [Nat.and_one_is_mod] at h0 h1
    refine ⟨hne, ?_, ?_⟩
    · intro hs
      rw [e0, e1]
      simp [ps2_select, hc, ha, hs, hi, h0, h1]
    · intro hs
      rw [e0, e1]
      simp [ps2_select, hc, ha, hs, hi, h0, h1]

set_option maxRecDepth 100000 in
theorem caps_swaps_letters_witness :
    kbd_queue (main_loop { power_on with ps2_hld := 0x1c, ps2_hld_rdy := 1, ps2_caps := 1 })
      = [0x41] ∧
    kbd_queue (main_loop { power_on with ps2_hld := 0x1c, ps2_hld_rdy := 1, ps2_caps := 0 })
      = [0x61] :=
  ((caps_swaps_letters { power_on with ps2_hld := 0x1c, ps2_hld_rdy := 1 } 0
      (MapEntry.mk 0x01c 0x01 0x41 0xc1 0x61) 0 1 (by decide) (by decide) (by decide) (by decide)
      (by decide) (by decide)).2 (by decide) rfl rfl (by decide)).2.1 rfl

/-- C5: for `j` in 0..9, a press of table row `73 + j` (the codes of F10, F1,
..., F9 in that order) with alt set, ctrl clear and at least two free slots
enqueues exactly two bytes, 0xFC and then the ASCII digit `'0' + j`. -/
theorem alt_function_key (s : State) (j : Nat) (e : MapEntry)
    (hj : j < 10) (he : ps2_map[F10_IDX + j]? = some e) (hp : press_of s e)
    (hin : s.kbd_buf_in < 16) (hout : s.kbd_buf_out < 16)
    (hctrl : s.ps2_ctrl = 0) (halt : s.ps2_alt ≠ 0)
    (hroom : kbd_count s + 2 ≤ 15) :
    kbd_queue (main_loop s) = kbd_queue s ++ [0xfc, 0x30 + j] ∧
    e.code = ([0x09, 0x05, 0x06, 0x04, 0x0c, 0x03, 0x0b, 0x83, 0x0a, 0x01] : List Nat).getD j 0 := by
  have hc : F10_IDX ≤ F10_IDX + j ∧ s.ps2_ctrl = 0 ∧ s.ps2_alt ≠ 0 :=
    ⟨Nat.le_add_right _ _, hctrl, halt⟩
  have h := press_enqueues s (F10_IDX + j) e he hp hin hout (by rw [if_pos hc]; exact hroom)
  rw [if_pos hc, Nat.add_sub_cancel_left] at h
  have hsel : ps2_select (F10_IDX + j) e s.ps2_ctrl s.ps2_alt s.ps2_shft s.ps2_caps = 0xfc :=
    (ps2_select_sentinel _ e he _ _ _ _).mpr ⟨Or.inr hc.1, hctrl, halt⟩
  rw [hsel] at h
  refine ⟨h, ?_⟩
  have hcodes : ∀ k < 10, (ps2_map.getD (F10_IDX + k) no_entry).code
      = ([0x09, 0x05, 0x06, 0x04, 0x0c, 0x03, 0x0b, 0x83, 0x0a, 0x01] : List Nat).getD k 0 := by
    decide
  have := hcodes j hj
  rw [(ps2_map_getD he).2] at this
  exact this

set_option maxRecDepth 100000 in
theorem alt_function_key_witness :
    kbd_queue (feed (feed power_on 0x11) 0x09) = [0xfc, 0x30] ∧
    kbd_queue (feed (feed power_on 0x11) 0x05) = [0xfc, 0x31] :=
  ⟨(alt_function_key { feed power_on 0x11 with ps2_hld := 0x09, ps2_hld_rdy := 1 } 0
      (MapEntry.mk 0x009 0x00 0x00 0xfc 0x00) (by decide) (by decide) (by decide) (by decide)
      (by decide) (by decide) (by decide) (by decide)).1,
   (alt_function_key { feed power_on 0x11 with ps2_hld := 0x05, ps2_hld_rdy := 1 } 1
      (MapEntry.mk 0x005 0x01 0x01 0xfc 0x01) (by decide) (by decide) (by decide) (by decide)
      (by decide) (by decide) (by decide) (by decide)).1⟩

/-- C6: a press of a function-key row with alt set and ctrl clear, when the
ring buffer has fewer than two free slots (it holds 14 or 15 bytes), enqueues
neither the sentinel nor the digit: `kbd_buf_in`, `kbd_buf_out` and the queued
bytes are unchanged. -/
theorem alt_function_key_atomic (s : State) (j : Nat) (e : MapEntry)
    (he : ps2_map[F10_IDX + j]? = some e) (hp : press_of s e)
    (hout : s.kbd_buf_out < 16)
    (hctrl : s.ps2_ctrl = 0) (halt : s.ps2_alt ≠ 0)
    (hfull : kbd_count s = 14 ∨ kbd_count s = 15) :
    (main_loop s).kbd_buf_in = s.kbd_buf_in ∧ (main_loop s).kbd_buf_out = s.kbd_buf_out ∧
    kbd_queue (main_loop s) = kbd_queue s := by
  have h := press_dropped s (F10_IDX + j) e he hp hout
    (hfull.symm.imp id (fun h => ⟨⟨Nat.le_add_right _ _, hctrl, halt⟩, h⟩))
  exact ⟨h.2.1, h.2.2, h.1⟩

set_option maxRecDepth 100000 in
theorem alt_function_key_atomic_witness :
    kbd_queue (main_loop { power_on with ps2_hld := 0x05, ps2_hld_rdy := 1, ps2_alt := 1,
                                         kbd_buf_in := 14, kbd_buf_out := 0 })
      = kbd_queue { power_on with ps2_hld := 0x05, ps2_hld_rdy := 1, ps2_alt := 1,
                                  kbd_buf_in := 14, kbd_buf_out := 0 } :=
  (alt_function_key_atomic { power_on with ps2_hld := 0x05, ps2_hld_rdy := 1, ps2_alt := 1,
                                            kbd_buf_in := 14, kbd_buf_out := 0 } 1
      (MapEntry.mk 0x005 0x01 0x01 0xfc 0x01) (by decide) (by decide) (by decide) (by decide)
      (by decide) (by decide)).2.2

/-! ## Every pass, seen from the ring buffer -/

theorem kbd_queue_congr (a b : State) (h1 : a.kbd_buf = b.kbd_buf)
    (h2 : a.kbd_buf_in = b.kbd_buf_in) (h3 : a.kbd_buf_out = b.kbd_buf_out) :
    kbd_queue a = kbd_queue b := by
  unfold kbd_queue kbd_count
  rw [h1, h2, h3]

theorem ps2_press_mod_buf (t : State) (k : Nat) :
    (ps2_press_mod t k).kbd_buf = t.kbd_buf ∧ (ps2_press_mod t k).kbd_buf_in = t.kbd_buf_in ∧
    (ps2_press_mod t k).kbd_buf_out = t.kbd_buf_out := by
  unfold ps2_press_mod
  split_ifs <;> exact ⟨rfl, rfl, rfl⟩

theorem ps2_release_mod_buf (t : State) (k : Nat) :
    (ps2_release_mod t k).kbd_buf = t.kbd_buf ∧
    (ps2_release_mod t k).kbd_buf_in = t.kbd_buf_in ∧
    (ps2_release_mod t k).kbd_buf_out = t.kbd_buf_out := by
  unfold ps2_release_mod
  split_ifs <;> exact ⟨rfl, rfl, rfl⟩

/-- What `kbd_put` does to the queue, in every case. -/
theorem kbd_put_cases (t : State) (i c : Nat) (hin : t.kbd_buf_in < 16)
    (hout : t.kbd_buf_out < 16) :
    (kbd_queue (kbd_put t i c) = kbd_queue t ∧ (kbd_put t i c).kbd_buf_in = t.kbd_buf_in) ∨
    (¬ two_bytes i c ∧ kbd_queue (kbd_put t i c) = kbd_queue t ++ [c]) ∨
    (two_bytes i c ∧ kbd_queue (kbd_put t i c) = kbd_queue t ++ [c, 0x30 + (i - F10_IDX)]) := by
  have hlt : kbd_count t < 16 := Nat.mod_lt _ (by decide)
  by_cases h2 : two_bytes i c
  · by_cases hr : kbd_count t + 2 ≤ 15
    · exact Or.inr (Or.inr ⟨h2, (kbd_put_two t i c hin hout h2 hr).1⟩)
    · refine Or.inl (kbd_put_drop t i c hout ?_)
      by_cases h15 : kbd_count t = 15
      · exact Or.inl h15
      · exact Or.inr ⟨h2, by omega⟩
  · by_cases hr : kbd_count t + 1 ≤ 15
    · exact Or.inr (Or.inl ⟨h2, (kbd_put_one t i c hin hout h2 hr).1⟩)
    · exact Or.inl (kbd_put_drop t i c hout (Or.inl (by omega)))

/-- Every pass leaves `kbd_buf_out` alone, and either leaves the queue and
`kbd_buf_in` alone or is a press of a table row that appends the selected
byte, followed by the digit in the two-byte case. -/
theorem main_loop_cases (s : State) (hin : s.kbd_buf_in < 16) (hout : s.kbd_buf_out < 16) :
    (main_loop s).kbd_buf_out = s.kbd_buf_out ∧
    ((kbd_queue (main_loop s) = kbd_queue s ∧ (main_loop s).kbd_buf_in = s.kbd_buf_in) ∨
     (∃ i e, ps2_map[i]? = some e ∧ s.ps2_hld_rdy ≠ 0 ∧ s.ps2_dta ≠ 0xf0 ∧
        e.code = (((if s.ps2_dta = 0xe0 then 1 else 0) <<< 8) ||| s.ps2_hld) % 65536 ∧
        ((¬ two_bytes i (ps2_select i e s.ps2_ctrl s.ps2_alt s.ps2_shft s.ps2_caps) ∧
          kbd_queue (main_loop s) = kbd_queue s ++
            [ps2_select i e s.ps2_ctrl s.ps2_alt s.ps2_shft s.ps2_caps]) ∨
         (two_bytes i (ps2_select i e s.ps2_ctrl s.ps2_alt s.ps2_shft s.ps2_caps) ∧
          kbd_queue (main_loop s) = kbd_queue s ++
            [ps2_select i e s.ps2_ctrl s.ps2_alt s.ps2_shft s.ps2_caps,
             0x30 + (i - F10_IDX)])))) := by
  unfold main_loop
  by_cases hr : s.ps2_hld_rdy ≠ 0
  swap
  · rw [if_neg hr]
    exact ⟨rfl, Or.inl ⟨rfl, rfl⟩⟩
  rw [if_pos hr]
  simp only []
  by_cases hpre : ¬ ((ps2_fetch s).ps2_dta = 0xf0 ∨ (ps2_fetch s).ps2_dta = 0xe0)
  swap
  · rw [if_neg hpre]
    exact ⟨rfl, Or.inl ⟨rfl, rfl⟩⟩
  rw [if_pos hpre]
  by_cases hrel : s.ps2_dta = 0xf0
  · have h1 : (ps2_fetch s).prev_ps2_dta = 0xf0 := hrel
    simp only [h1, if_true, ne_eq, one_ne_zero, not_false_eq_true, not_true_eq_false, if_false]
    obtain ⟨a, b, c⟩ := ps2_release_mod_buf (ps2_fetch s)
      ((((if (ps2_fetch s).prev_prev_ps2_dta = 0xe0 then 1 else 0) <<< 8) |||
        (ps2_fetch s).ps2_dta) % 65536)
    exact ⟨c, Or.inl ⟨kbd_queue_congr _ _ a b c, b⟩⟩
  · have h1 : ¬ (ps2_fetch s).prev_ps2_dta = 0xf0 := hrel
    simp only [h1, if_false, ne_eq, not_true_eq_false, not_false_eq_true, if_true]
    split
    · rename_i i e hscan
      obtain ⟨_, hget, hcode⟩ := ps2_scan_sound _ _ _ _ _ hscan
      rw [Nat.sub_zero] at hget
      refine ⟨by rw [kbd_put_frame]; rfl, ?_⟩
      rcases kbd_put_cases (ps2_fetch s) i
        (ps2_select i e (ps2_fetch s).ps2_ctrl (ps2_fetch s).ps2_alt (ps2_fetch s).ps2_shft
          (ps2_fetch s).ps2_caps) hin hout with h | h | h
      · exact Or.inl h
      · exact Or.inr ⟨i, e, hget, hr, hrel, hcode, Or.inl h⟩
      · exact Or.inr ⟨i, e, hget, hr, hrel, hcode, Or.inr h⟩
    · obtain ⟨a, b, c⟩ := ps2_press_mod_buf (ps2_fetch s)
        ((((if (ps2_fetch s).prev_ps2_dta = 0xe0 then 1 else 0) <<< 8) |||
          (ps2_fetch s).ps2_dta) % 65536)
      exact ⟨c, Or.inl ⟨kbd_queue_congr _ _ a b c, b⟩⟩

theorem kbd_queue_length (s : State) : (kbd_queue s).length = kbd_count s := by
  simp [kbd_queue]

set_option maxRecDepth 100000 in
theorem ps2_key_byte : ∀ b < 256,
    ((1 <<< 8) ||| b) % 65536 ≠ 0x5d ∧ ((0 <<< 8) ||| b) % 65536 = b := by
  decide

/-! ## Translator: claims on the sentinel and on the full buffer -/

set_option maxRecDepth 100000 in
/-- C7 (as stated, refuted): from power-on, left alt is pressed (0x11) and
then the backslash key (0x5D); the second pass enqueues 0xFC and no digit
after it. -/
theorem sentinel_without_digit :
    kbd_queue (feeds power_on [0x11]) = [] ∧
    kbd_queue (feeds power_on [0x11, 0x5d]) = [0xfc] := by
  decide

/-- C7 (amended): a pass either enqueues nothing, or one byte, or 0xFC
followed by an ASCII digit `'0'..'9'`; it enqueues 0xFC as a single byte only
for an unescaped press of 0x5D (backslash, table row 49, alt column 0xFC)
with alt set and ctrl clear. -/
theorem sentinel_digit_or_backslash (s : State)
    (hin : s.kbd_buf_in < 16) (hout : s.kbd_buf_out < 16) (hbyte : s.ps2_hld < 256) :
    kbd_queue (main_loop s) = kbd_queue s ∨
    (∃ c, kbd_queue (main_loop s) = kbd_queue s ++ [c] ∧
      (c = 0xfc → s.ps2_hld = 0x5d ∧ s.ps2_dta ≠ 0xe0 ∧ s.ps2_dta ≠ 0xf0 ∧
        s.ps2_ctrl = 0 ∧ s.ps2_alt ≠ 0)) ∨
    (∃ j < 10, kbd_queue (main_loop s) = kbd_queue s ++ [0xfc, 0x30 + j]) := by
  rcases (main_loop_cases s hin hout).2 with h | ⟨i, e, he, _, hrel, hcode, h | h⟩
  · exact Or.inl h.1
  · refine Or.inr (Or.inl ⟨_, h.2, ?_⟩)
    intro hc
    obtain ⟨hi, hctrl, halt⟩ := (ps2_select_sentinel i e he _ _ _ _).mp hc
    have h49 : i = 49 := by
      rcases hi with h49 | h73
      · exact h49
      · exact absurd ((select_two_bytes i e he _ _ _ _).mpr ⟨h73, hctrl, halt⟩) h.1
    subst h49
    have hcode49 : e.code = 0x5d := by
      have : ps2_map[49]? = some (MapEntry.mk 0x05d 0xdc 0x7c 0xfc 0x5c) := by decide
      rw [this] at he
      cases he
      rfl
    rw [hcode49] at hcode
    obtain ⟨k1, k0⟩ := ps2_key_byte s.ps2_hld hbyte
    by_cases hesc : s.ps2_dta = 0xe0
    · rw [if_pos hesc] at hcode
      exact absurd hcode.symm k1
    · rw [if_neg hesc, k0] at hcode
      exact ⟨hcode.symm, hesc, hrel, hctrl, halt⟩
  · obtain ⟨h2, hq⟩ := h
    have hsel := h2.2.2
    rw [hsel] at hq
    refine Or.inr (Or.inr ⟨i - F10_IDX, ?_, hq⟩)
    have := h2.2.1
    have := h2.1
    unfold F10_IDX at *
    omega

set_option maxRecDepth 100000 in
theorem sentinel_digit_or_backslash_witness :
    kbd_queue (feed (feed power_on 0x11) 0x09) = kbd_queue (feed power_on 0x11) ∨
    (∃ c, kbd_queue (feed (feed power_on 0x11) 0x09) = kbd_queue (feed power_on 0x11) ++ [c] ∧
      (c = 0xfc → 0x09 = 0x5d ∧ (feed power_on 0x11).ps2_dta ≠ 0xe0 ∧
        (feed power_on 0x11).ps2_dta ≠ 0xf0 ∧
        (feed power_on 0x11).ps2_ctrl = 0 ∧ (feed power_on 0x11).ps2_alt ≠ 0)) ∨
    (∃ j < 10, kbd_queue (feed (feed power_on 0x11) 0x09)
      = kbd_queue (feed power_on 0x11) ++ [0xfc, 0x30 + j]) :=
  sentinel_digit_or_backslash { feed power_on 0x11 with ps2_hld := 0x09, ps2_hld_rdy := 1 }
    (by decide) (by decide) (by decide)

/-- C9: when the ring buffer holds 15 bytes, a press of any table key enqueues
nothing: `kbd_buf_in` and `kbd_buf_out` keep their values and the 15 queued
bytes are unchanged.  In every pass the queue before is an initial segment of
the queue after, which holds at most 15 bytes. -/
theorem ring_buffer_full (s : State) (hin : s.kbd_buf_in < 16) (hout : s.kbd_buf_out < 16) :
    (∀ (i : Nat) (e : MapEntry), ps2_map[i]? = some e → press_of s e → kbd_count s = 15 →
      (main_loop s).kbd_buf_in = s.kbd_buf_in ∧ (main_loop s).kbd_buf_out = s.kbd_buf_out ∧
      kbd_queue (main_loop s) = kbd_queue s ∧ (kbd_queue (main_loop s)).length = 15) ∧
    (kbd_queue s <+: kbd_queue (main_loop s) ∧ (kbd_queue (main_loop s)).length ≤ 15) := by
  constructor
  · intro i e he hp hfull
    obtain ⟨h1, h2, h3⟩ := press_dropped s i e he hp hout (Or.inl hfull)
    refine ⟨h2, h3, h1, ?_⟩
    rw [h1, kbd_queue_length, hfull]
  · constructor
    · rcases (main_loop_cases s hin hout).2 with h | ⟨i, e, _, _, _, _, h | h⟩
      · rw [h.1]
      · rw [h.2]; exact List.prefix_append _ _
      · rw [h.2]; exact List.prefix_append _ _
    · rw [kbd_queue_length]
      have : kbd_count (main_loop s) < 16 := Nat.mod_lt _ (by decide)
      omega

set_option maxRecDepth 100000 in
theorem ring_buffer_full_witness :
    kbd_count { power_on with kbd_buf_in := 15, ps2_hld := 0x1c, ps2_hld_rdy := 1 } = 15 ∧
    (main_loop { power_on with kbd_buf_in := 15, ps2_hld := 0x1c, ps2_hld_rdy := 1 }).kbd_buf_in
      = 15 ∧
    (kbd_queue (main_loop { power_on with kbd_buf_in := 15, ps2_hld := 0x1c, ps2_hld_rdy := 1 })).length
      = 15 :=
  ⟨by decide,
   ((ring_buffer_full { power_on with kbd_buf_in := 15, ps2_hld := 0x1c, ps2_hld_rdy := 1 }
      (by decide) (by decide)).1 0 (MapEntry.mk 0x01c 0x01 0x41 0xc1 0x61) (by decide) (by decide)
      (by decide)).1,
   ((ring_buffer_full { power_on with kbd_buf_in := 15, ps2_hld := 0x1c, ps2_hld_rdy := 1 }
      (by decide) (by decide)).1 0 (MapEntry.mk 0x01c 0x01 0x41 0xc1 0x61) (by decide) (by decide)
      (by decide)).2.2.2⟩

/-! ## Caps-lock -/

set_option maxRecDepth 100000 in
theorem ps2_key_of_byte : ∀ b < 256,
    256 ≤ ((1 <<< 8) ||| b) % 65536 ∧ ((0 <<< 8) ||| b) % 65536 = b := by
  decide

theorem caps_press_bits (c : Nat) :
    ((2 ||| ((c >>> 1) ^^^ 1 ^^^ c)) % 256).testBit 1 = true ∧
    (c.testBit 1 = true → ((2 ||| ((c >>> 1) ^^^ 1 ^^^ c)) % 256) &&& 1 = c &&& 1) := by
  have h256 : (256 : Nat) = 2 ^ 8 := by norm_num
  constructor
  · rw [h256, Nat.testBit_mod_two_pow, Nat.testBit_or]
    have : Nat.testBit 2 1 = true := by decide
    simp [this]
  · intro h
    have h0 : ((2 ||| ((c >>> 1) ^^^ 1 ^^^ c)) % 256).testBit 0 = c.testBit 0 := by
      rw [h256, Nat.testBit_mod_two_pow, Nat.testBit_or, Nat.testBit_xor, Nat.testBit_xor,
        Nat.testBit_shiftRight]
      have h2 : Nat.testBit 2 0 = false := by decide
      have h1 : Nat.testBit 1 0 = true := by decide
      rw [h2, h1, h]
      simp
    rw [Nat.testBit_zero, Nat.testBit_zero] at h0
    rw [Nat.and_one_is_mod, Nat.and_one_is_mod]
    have := Nat.mod_two_eq_zero_or_one c
    have := Nat.mod_two_eq_zero_or_one ((2 ||| ((c >>> 1) ^^^ 1 ^^^ c)) % 256)
    simp only [decide_eq_decide] at h0
    omega

theorem caps_release_bits (c : Nat) : (c &&& 1) &&& 1 = c &&& 1 := by
  rw [Nat.and_assoc, Nat.and_self]

theorem ps2_press_mod_caps (t : State) (k : Nat) :
    (ps2_press_mod t k).ps2_caps = t.ps2_caps ∨
    (ps2_press_mod t k).ps2_caps = (2 ||| ((t.ps2_caps >>> 1) ^^^ 1 ^^^ t.ps2_caps)) % 256 := by
  unfold ps2_press_mod
  split_ifs
  all_goals first | exact Or.inl rfl | exact Or.inr rfl

theorem ps2_press_mod_hist (t : State) (k : Nat) :
    (ps2_press_mod t k).ps2_dta = t.ps2_dta ∧
    (ps2_press_mod t k).prev_ps2_dta = t.prev_ps2_dta := by
  unfold ps2_press_mod
  split_ifs <;> exact ⟨rfl, rfl⟩

theorem ps2_release_mod_caps (t : State) (k : Nat) :
    (k = 0x58 → (ps2_release_mod t k).ps2_caps = t.ps2_caps &&& 1) ∧
    (k ≠ 0x58 → (ps2_release_mod t k).ps2_caps = t.ps2_caps) := by
  unfold ps2_release_mod
  constructor
  · intro h
    subst h
    simp
  · intro h
    split_ifs <;> rfl

theorem ps2_release_mod_hist (t : State) (k : Nat) :
    (ps2_release_mod t k).ps2_dta = t.ps2_dta ∧
    (ps2_release_mod t k).prev_ps2_dta = t.prev_ps2_dta := by
  unfold ps2_release_mod
  split_ifs <;> exact ⟨rfl, rfl⟩

/-- One pass, seen from the caps-lock state and the raw-byte history. -/
theorem feed_caps (s : State) (b : Nat) (hb : b < 256) :
    (feed s b).ps2_dta = b ∧ (feed s b).prev_ps2_dta = s.ps2_dta ∧
    ((s.ps2_dta = 0xf0 ∧ b = 0x58 ∧ s.prev_ps2_dta ≠ 0xe0) →
      (feed s b).ps2_caps = s.ps2_caps &&& 1) ∧
    (¬ (s.ps2_dta = 0xf0 ∧ b = 0x58 ∧ s.prev_ps2_dta ≠ 0xe0) →
      ((feed s b).ps2_caps = s.ps2_caps ∨
       (feed s b).ps2_caps = (2 ||| ((s.ps2_caps >>> 1) ^^^ 1 ^^^ s.ps2_caps)) % 256)) := by
  obtain ⟨k1, k0⟩ := ps2_key_of_byte b hb
  unfold feed main_loop
  simp only [ps2_fetch, ne_eq, one_ne_zero, not_false_eq_true, if_true]
  by_cases hpre : b = 0xf0 ∨ b = 0xe0
  · rw [if_neg (not_not.mpr hpre)]
    refine ⟨rfl, rfl, ?_, fun _ => Or.inl rfl⟩
    rintro ⟨_, h58, _⟩
    subst h58
    exact absurd hpre (by decide)
  rw [if_pos hpre]
  by_cases hrel : s.ps2_dta = 0xf0
  · simp only [hrel, if_true, one_ne_zero, not_false_eq_true, not_true_eq_false, if_false]
    obtain ⟨c1, c2⟩ := ps2_release_mod_caps
      { s with prev_prev_ps2_dta := s.prev_ps2_dta, prev_ps2_dta := 0xf0,
               ps2_dta := b, ps2_hld := b, ps2_hld_rdy := 0 }
      ((((if s.prev_ps2_dta = 0xe0 then 1 else 0) <<< 8) ||| b) % 65536)
    obtain ⟨d1, d2⟩ := ps2_release_mod_hist
      { s with prev_prev_ps2_dta := s.prev_ps2_dta, prev_ps2_dta := 0xf0,
               ps2_dta := b, ps2_hld := b, ps2_hld_rdy := 0 }
      ((((if s.prev_ps2_dta = 0xe0 then 1 else 0) <<< 8) ||| b) % 65536)
    refine ⟨d1, d2, ?_, ?_⟩
    · rintro ⟨_, h58, hne⟩
      apply c1
      rw [if_neg hne, k0, h58]
    · intro hn
      refine Or.inl (c2 ?_)
      by_cases he : s.prev_ps2_dta = 0xe0
      · rw [if_pos he]; omega
      · rw [if_neg he, k0]
        intro h58
        exact hn ⟨trivial, h58, he⟩
  · simp only [hrel, if_false, not_true_eq_false, not_false_eq_true, if_true]
    refine ⟨?_, ?_, fun h => h.1.elim, fun _ => ?_⟩
    · split
      · rw [kbd_put_frame]
      · exact (ps2_press_mod_hist _ _).1
    · split
      · rw [kbd_put_frame]
      · exact (ps2_press_mod_hist _ _).2
    · split
      · left; rw [kbd_put_frame]
      · exact ps2_press_mod_caps _ _

theorem caps_release_free_cons (pp p b : Nat) (bs : List Nat) :
    caps_release_free pp p (b :: bs) = true ↔
      (¬ (p = 0xf0 ∧ b = 0x58 ∧ pp ≠ 0xe0) ∧ caps_release_free p b bs = true) := by
  simp only [caps_release_free, Bool.and_eq_true, Bool.not_eq_true', Bool.and_eq_false_imp,
    beq_iff_eq, bne_iff_ne, ne_eq]
  constructor
  · rintro ⟨h1, h2⟩
    refine ⟨?_, h2⟩
    rintro ⟨a, b, c⟩
    have := h1 ⟨a, b⟩
    simp [c] at this
  · rintro ⟨h1, h2⟩
    refine ⟨?_, h2⟩
    rintro ⟨a, b⟩
    by_contra hc
    apply h1
    refine ⟨a, b, ?_⟩
    intro he
    apply hc
    simp [he]

theorem caps_release_free_mono (pp p : Nat) (bs : List Nat)
    (h : caps_release_free 0 p bs = true) : caps_release_free pp p bs = true := by
  cases bs with
  | nil => rfl
  | cons b bs =>
    rw [caps_release_free_cons] at h ⊢
    refine ⟨?_, h.2⟩
    rintro ⟨h1, h2, _⟩
    exact h.1 ⟨h1, h2, by decide⟩

/-- With the latch bit set and no release ahead, the active bit never changes. -/
theorem caps_changes_latched (bs : List Nat) (s : State)
    (hbs : ∀ b ∈ bs, b < 256)
    (hfree : caps_release_free s.prev_ps2_dta s.ps2_dta bs = true)
    (hlatch : s.ps2_caps.testBit 1 = true) : caps_changes s bs = 0 := by
  induction bs generalizing s with
  | nil => rfl
  | cons b bs ih =>
    obtain ⟨hd, hpd, _, hstep⟩ := feed_caps s b (hbs b (List.mem_cons_self b bs))
    rw [caps_release_free_cons] at hfree
    have hnr := hfree.1
    have hbits := caps_press_bits s.ps2_caps
    have hkeep : (feed s b).ps2_caps &&& 1 = s.ps2_caps &&& 1 ∧
        (feed s b).ps2_caps.testBit 1 = true := by
      rcases hstep hnr with h | h
      · rw [h]; exact ⟨rfl, hlatch⟩
      · rw [h]; exact ⟨hbits.2 hlatch, hbits.1⟩
    simp only [caps_changes, hkeep.1, ne_eq, not_true_eq_false, if_false, Nat.zero_add]
    apply ih _ (fun x hx => hbs x (List.mem_cons_of_mem b hx))
    · rw [hd, hpd]; exact hfree.2
    · exact hkeep.2

/-- With no release ahead, the active bit changes at most once. -/
theorem caps_changes_free (bs : List Nat) (s : State)
    (hbs : ∀ b ∈ bs, b < 256)
    (hfree : caps_release_free s.prev_ps2_dta s.ps2_dta bs = true) :
    caps_changes s bs ≤ 1 := by
  induction bs generalizing s with
  | nil => exact Nat.zero_le 1
  | cons b bs ih =>
    obtain ⟨hd, hpd, _, hstep⟩ := feed_caps s b (hbs b (List.mem_cons_self b bs))
    rw [caps_release_free_cons] at hfree
    have hnr := hfree.1
    have hrest : caps_release_free (feed s b).prev_ps2_dta (feed s b).ps2_dta bs = true := by
      rw [hd, hpd]; exact hfree.2
    have hbs' : ∀ x ∈ bs, x < 256 := fun x hx => hbs x (List.mem_cons_of_mem b hx)
    rcases hstep hnr with h | h
    · simp only [caps_changes, h, ne_eq, not_true_eq_false, if_false, Nat.zero_add]
      exact ih _ hbs' hrest
    · have hl : (feed s b).ps2_caps.testBit 1 = true := by
        rw [h]; exact (caps_press_bits s.ps2_caps).1
      have h0 := caps_changes_latched bs (feed s b) hbs' hrest hl
      simp only [caps_changes, h0, Nat.add_zero]
      split_ifs <;> omega

/-! ## Caps-lock: claim -/

/-- C8: for every state and every sequence of raw bytes that contains no
caps-lock release (0xF0 then 0x58, the 0xF0 not after 0xE0), the caps-lock
active bit changes value in at most one of the passes that consume the
sequence, however many caps-lock press bytes it contains. -/
theorem caps_toggles_at_most_once (s : State) (bs : List Nat)
    (hbs : ∀ b ∈ bs, b < 256) (hfree : no_caps_release bs = true) :
    caps_changes s bs ≤ 1 := by
  cases bs with
  | nil => exact Nat.zero_le 1
  | cons b bs =>
    obtain ⟨hd, hpd, hrel, _⟩ := feed_caps s b (hbs b (List.mem_cons_self b bs))
    have hbs' : ∀ x ∈ bs, x < 256 := fun x hx => hbs x (List.mem_cons_of_mem b hx)
    have htail : caps_release_free 0 b bs = true := by
      unfold no_caps_release at hfree
      rw [caps_release_free_cons] at hfree
      exact hfree.2
    have hrest : caps_release_free s.ps2_dta b bs = true :=
      caps_release_free_mono _ _ _ htail
    by_cases hr : s.ps2_dta = 0xf0 ∧ b = 0x58 ∧ s.prev_ps2_dta ≠ 0xe0
    · have h0 : (feed s b).ps2_caps &&& 1 = s.ps2_caps &&& 1 := by
        rw [hrel hr]; exact caps_release_bits _
      simp only [caps_changes, h0, ne_eq, not_true_eq_false, if_false, Nat.zero_add]
      exact caps_changes_free bs _ hbs' (by rw [hd, hpd]; exact hrest)
    · apply caps_changes_free (b :: bs) s hbs
      rw [caps_release_free_cons]
      exact ⟨hr, hrest⟩

set_option maxRecDepth 100000 in
theorem caps_toggles_at_most_once_witness :
    no_caps_release [0x58, 0x58, 0x1c, 0x58] = true ∧
    caps_changes power_on [0x58, 0x58, 0x1c, 0x58] ≤ 1 :=
  ⟨by decide, caps_toggles_at_most_once power_on [0x58, 0x58, 0x1c, 0x58] (by decide) (by decide)⟩

set_option maxRecDepth 100000 in
/-- With a release between two presses the active bit does change twice: the
hypothesis of `caps_toggles_at_most_once` cannot be dropped. -/
theorem caps_changes_with_release :
    no_caps_release [0x58, 0xf0, 0x58, 0x58] = false ∧
    caps_changes power_on [0x58, 0xf0, 0x58, 0x58] = 2 := by
  decide

/-! ## Transmit engine lemmas -/

theorem led_blink_keeps (s : State) :
    (led_blink s).kbd_state = s.kbd_state ∧ (led_blink s).kbd_shr = s.kbd_shr ∧
    (led_blink s).kbd_buf_out = s.kbd_buf_out ∧ (led_blink s).kbd_buf = s.kbd_buf ∧
    (led_blink s).kbd_buf_in = s.kbd_buf_in ∧ (led_blink s).P1OUT = s.P1OUT := by
  unfold led_blink
  split_ifs <;> exact ⟨rfl, rfl, rfl, rfl, rfl, rfl⟩

theorem kbd_phase_keeps (s : State) :
    (kbd_phase s).kbd_state = s.kbd_state ∧ (kbd_phase s).kbd_buf_out = s.kbd_buf_out ∧
    (kbd_phase s).kbd_buf = s.kbd_buf ∧ (kbd_phase s).kbd_buf_in = s.kbd_buf_in := by
  unfold kbd_phase
  split <;> (try split_ifs) <;> exact ⟨rfl, rfl, rfl, rfl⟩

theorem kbd_advance_keeps (s : State) :
    (kbd_advance s).kbd_state = (if (s.kbd_state + 1) % 256 < 40 then (s.kbd_state + 1) % 256
      else 0) ∧
    (kbd_advance s).kbd_buf_out = s.kbd_buf_out ∧ (kbd_advance s).kbd_buf = s.kbd_buf ∧
    (kbd_advance s).kbd_buf_in = s.kbd_buf_in ∧ (kbd_advance s).kbd_shr = s.kbd_shr ∧
    (kbd_advance s).P1OUT = s.P1OUT := by
  unfold kbd_advance
  simp only []
  split_ifs <;> exact ⟨rfl, rfl, rfl, rfl, rfl, rfl⟩

/-- A tick in Idle with a byte queued and the ready line asserted starts it. -/
theorem Timer_A1_start (t : State) (p : Nat) (h0 : t.kbd_state = 0)
    (hne : t.kbd_buf_out ≠ t.kbd_buf_in) (hrdy : p &&& KBD_BSYN ≠ 0) :
    (Timer_A1 t p).kbd_state = 1 ∧ (Timer_A1 t p).kbd_shr = t.kbd_buf t.kbd_buf_out ∧
    (Timer_A1 t p).kbd_buf_out = (t.kbd_buf_out + 1) % 16 ∧
    (Timer_A1 t p).kbd_buf = t.kbd_buf := by
  unfold Timer_A1
  obtain ⟨a, b, c, d, _, _⟩ := led_blink_keeps
    (if t.kbd_state = 0 then
      if t.kbd_buf_out ≠ t.kbd_buf_in ∧ p &&& KBD_BSYN ≠ 0 then
        { t with kbd_shr := t.kbd_buf t.kbd_buf_out,
                 kbd_buf_out := (t.kbd_buf_out + 1) &&& (KBD_BUF_N - 1),
                 P1OUT := t.P1OUT &&& (0xFF ^^^ UART_TX),
                 P2OUT := t.P2OUT ||| LED1,
                 kbd_state := (t.kbd_state + 1) % 256 }
      else t
    else if t.kbd_state < 4 then
      { t with kbd_state := (t.kbd_state + 1) % 256 }
    else
      kbd_advance (kbd_phase t))
  rw [a, b, c, d, if_pos h0, if_pos ⟨hne, hrdy⟩]
  simp [h0, kbd_mask]

/-- A tick in an active state advances the tick count, wrapping to Idle after
state 39, whatever the inputs; it leaves the queue alone. -/
theorem Timer_A1_active (t : State) (p : Nat) (h1 : 1 ≤ t.kbd_state) (h2 : t.kbd_state ≤ 39) :
    (Timer_A1 t p).kbd_state = (t.kbd_state + 1) % 40 ∧
    (Timer_A1 t p).kbd_buf_out = t.kbd_buf_out ∧ (Timer_A1 t p).kbd_buf = t.kbd_buf := by
  have hz : ¬ t.kbd_state = 0 := by omega
  have hk : (t.kbd_state + 1) % 256 = t.kbd_state + 1 := by omega
  unfold Timer_A1
  obtain ⟨a, _, c, d, _, _⟩ := led_blink_keeps
    (if t.kbd_state = 0 then
      if t.kbd_buf_out ≠ t.kbd_buf_in ∧ p &&& KBD_BSYN ≠ 0 then
        { t with kbd_shr := t.kbd_buf t.kbd_buf_out,
                 kbd_buf_out := (t.kbd_buf_out + 1) &&& (KBD_BUF_N - 1),
                 P1OUT := t.P1OUT &&& (0xFF ^^^ UART_TX),
                 P2OUT := t.P2OUT ||| LED1,
                 kbd_state := (t.kbd_state + 1) % 256 }
      else t
    else if t.kbd_state < 4 then
      { t with kbd_state := (t.kbd_state + 1) % 256 }
    else
      kbd_advance (kbd_phase t))
  rw [a, c, d, if_neg hz]
  by_cases hlt : t.kbd_state < 4
  · rw [if_pos hlt]
    refine ⟨?_, rfl, rfl⟩
    simp only [hk]
    omega
  · rw [if_neg hlt]
    obtain ⟨e1, e2, e3, _⟩ := kbd_advance_keeps (kbd_phase t)
    obtain ⟨f1, f2, f3, _⟩ := kbd_phase_keeps t
    rw [e1, e2, e3, f1, f2, f3, hk]
    refine ⟨?_, rfl, rfl⟩
    split_ifs <;> omega

/-- Ticks from an active state: the tick count advances by one per tick and
is back at 0 on the fortieth. -/
theorem ticks_active (evs : List (Nat × Nat)) (t : State)
    (h1 : 1 ≤ t.kbd_state) (h39 : t.kbd_state ≤ 39) (h2 : t.kbd_state + evs.length ≤ 40) :
    (ticks t evs).kbd_state = (t.kbd_state + evs.length) % 40 ∧
    (ticks t evs).kbd_buf_out = t.kbd_buf_out ∧ (ticks t evs).kbd_buf = t.kbd_buf := by
  induction evs generalizing t with
  | nil =>
    refine ⟨?_, rfl, rfl⟩
    show t.kbd_state = (t.kbd_state + 0) % 40
    omega
  | cons ev evs ih =>
    simp only [List.length_cons] at h2
    have hstep := Timer_A1_active { t with kbd_buf_in := ev.2 } ev.1 h1 h39
    have hfold : ticks t (ev :: evs) = ticks (tick t ev) evs := rfl
    rw [hfold]
    cases evs with
    | nil =>
      exact hstep
    | cons ev2 evs2 =>
      simp only [List.length_cons] at h2 ih ⊢
      have hs1 : (tick t ev).kbd_state = t.kbd_state + 1 := by
        have h := hstep.1
        have e : (tick t ev).kbd_state = (t.kbd_state + 1) % 40 := h
        rw [e]
        omega
      obtain ⟨i1, i2, i3⟩ := ih (tick t ev) (by omega) (by omega) (by omega)
      rw [i1, i2, i3, hs1]
      refine ⟨?_, hstep.2.1, hstep.2.2⟩
      congr 1
      omega

/-! ## Transmit engine: claim -/

/-- C10: from Idle with a byte queued and the ready line asserted on the first
tick, whatever the ready line and `kbd_buf_in` are on the 39 following ticks,
`kbd_state` is 1, 2, ..., 39 (so non-zero) after ticks 1..39 and 0 after tick
40; the first tick takes the byte at `kbd_buf_out` into the shift register and
advances `kbd_buf_out` by one modulo 16, and no later tick of the 40 moves it;
tick 41 starts the next byte when one is queued and the ready line is
asserted. -/
theorem transmit_forty_ticks (s : State) (P1IN : Nat) (evs : List (Nat × Nat))
    (hidle : s.kbd_state = 0) (hne : s.kbd_buf_out ≠ s.kbd_buf_in)
    (hrdy : P1IN &&& KBD_BSYN ≠ 0) (hlen : evs.length = 39) :
    (∀ n < 39, (ticks (Timer_A1 s P1IN) (evs.take n)).kbd_state = n + 1) ∧
    (ticks (Timer_A1 s P1IN) evs).kbd_state = 0 ∧
    (Timer_A1 s P1IN).kbd_shr = s.kbd_buf s.kbd_buf_out ∧
    (∀ n, (ticks (Timer_A1 s P1IN) (evs.take n)).kbd_buf_out = (s.kbd_buf_out + 1) % 16) ∧
    (∀ ev : Nat × Nat, (s.kbd_buf_out + 1) % 16 ≠ ev.2 → ev.1 &&& KBD_BSYN ≠ 0 →
      (tick (ticks (Timer_A1 s P1IN) evs) ev).kbd_state = 1 ∧
      (tick (ticks (Timer_A1 s P1IN) evs) ev).kbd_shr = s.kbd_buf ((s.kbd_buf_out + 1) % 16) ∧
      (tick (ticks (Timer_A1 s P1IN) evs) ev).kbd_buf_out
        = ((s.kbd_buf_out + 1) % 16 + 1) % 16) := by
  obtain ⟨a1, a2, a3, a4⟩ := Timer_A1_start s P1IN hidle hne hrdy
  have hrun : ∀ n, n ≤ 39 →
      (ticks (Timer_A1 s P1IN) (evs.take n)).kbd_state = (1 + n) % 40 ∧
      (ticks (Timer_A1 s P1IN) (evs.take n)).kbd_buf_out = (s.kbd_buf_out + 1) % 16 ∧
      (ticks (Timer_A1 s P1IN) (evs.take n)).kbd_buf = s.kbd_buf := by
    intro n hn
    have hl : (evs.take n).length = n := by
      rw [List.length_take, hlen]; omega
    have := ticks_active (evs.take n) (Timer_A1 s P1IN) (by omega) (by omega)
      (by rw [a1, hl]; omega)
    rw [a1, a3, a4, hl] at this
    exact this
  have hall : evs.take 39 = evs := by
    rw [← hlen]; exact List.take_length evs
  obtain ⟨b1, b2, b3⟩ := hrun 39 (le_refl _)
  rw [hall] at b1 b2 b3
  refine ⟨?_, ?_, a2, ?_, ?_⟩
  · intro n hn
    rw [(hrun n (by omega)).1]
    omega
  · rw [b1]
  · intro n
    by_cases hn : n ≤ 39
    · exact (hrun n hn).2.1
    · have : evs.take n = evs := by
        apply List.take_of_length_le; omega
      rw [this]; exact b2
  · intro ev hq hr
    obtain ⟨c1, c2, c3, _⟩ :=
      Timer_A1_start { ticks (Timer_A1 s P1IN) evs with kbd_buf_in := ev.2 } ev.1
        b1 (by rw [b2]; exact hq) hr
    refine ⟨c1, ?_, ?_⟩
    · refine c2.trans ?_
      show (ticks (Timer_A1 s P1IN) evs).kbd_buf (ticks (Timer_A1 s P1IN) evs).kbd_buf_out = _
      rw [b3, b2]
    · refine c3.trans ?_
      show ((ticks (Timer_A1 s P1IN) evs).kbd_buf_out + 1) % 16 = _
      rw [b2]

set_option maxRecDepth 100000 in
theorem transmit_forty_ticks_witness :
    (ticks (Timer_A1 (feeds power_on [0x12, 0x1c]) KBD_BSYN)
        (List.replicate 39 (KBD_BSYN, 1))).kbd_state = 0 ∧
    (Timer_A1 (feeds power_on [0x12, 0x1c]) KBD_BSYN).kbd_shr = 0x41 :=
  ⟨(transmit_forty_ticks (feeds power_on [0x12, 0x1c]) KBD_BSYN
      (List.replicate 39 (KBD_BSYN, 1)) (by decide) (by decide) (by decide) (by decide)).2.1,
   (transmit_forty_ticks (feeds power_on [0x12, 0x1c]) KBD_BSYN
      (List.replicate 39 (KBD_BSYN, 1)) (by decide) (by decide) (by decide)
      (by decide)).2.2.1.trans (by decide)⟩

/-! ## A pass, by cases on byte, history and key -/

/-- The pass that consumes a byte, written with the key `ps2_key`. -/
theorem main_loop_eq (s : State) (hr : s.ps2_hld_rdy ≠ 0) :
    main_loop s =
      if s.ps2_hld = 0xf0 ∨ s.ps2_hld = 0xe0 then ps2_fetch s
      else if s.ps2_dta = 0xf0 then ps2_release_mod (ps2_fetch s) (ps2_key s)
      else match ps2_scan (ps2_key s) ps2_map 0 with
        | some (i, e) =>
          kbd_put (ps2_fetch s) i (ps2_select i e s.ps2_ctrl s.ps2_alt s.ps2_shft s.ps2_caps)
        | Option.none => ps2_press_mod (ps2_fetch s) (ps2_key s) := by
  unfold main_loop ps2_key
  rw [if_pos hr]
  simp only []
  by_cases hpre : s.ps2_hld = 0xf0 ∨ s.ps2_hld = 0xe0
  · have h1 : ¬ ¬ ((ps2_fetch s).ps2_dta = 0xf0 ∨ (ps2_fetch s).ps2_dta = 0xe0) :=
      not_not.mpr hpre
    rw [if_neg h1, if_pos hpre]
  · have h1 : ¬ ((ps2_fetch s).ps2_dta = 0xf0 ∨ (ps2_fetch s).ps2_dta = 0xe0) := hpre
    rw [if_pos h1, if_neg hpre]
    by_cases hrel : s.ps2_dta = 0xf0
    · have h2 : (ps2_fetch s).prev_ps2_dta = 0xf0 := hrel
      simp only [h2, hrel, if_true, ne_eq, one_ne_zero, not_false_eq_true, not_true_eq_false,
        if_false]
      rfl
    · have h2 : ¬ (ps2_fetch s).prev_ps2_dta = 0xf0 := hrel
      simp only [h2, hrel, if_false, ne_eq, not_true_eq_false, not_false_eq_true, if_true]
      rfl

theorem ps2_fetch_hist (s : State) :
    (ps2_fetch s).ps2_hld_rdy = 0 ∧ (ps2_fetch s).ps2_dta = s.ps2_hld ∧
    (ps2_fetch s).prev_ps2_dta = s.ps2_dta ∧
    (ps2_fetch s).prev_prev_ps2_dta = s.prev_ps2_dta := ⟨rfl, rfl, rfl, rfl⟩

theorem main_loop_clears_flag (s : State) (hr : s.ps2_hld_rdy ≠ 0) :
    (main_loop s).ps2_hld_rdy = 0 ∧ (main_loop s).ps2_dta = s.ps2_hld ∧
    (main_loop s).prev_ps2_dta = s.ps2_dta ∧
    (main_loop s).prev_prev_ps2_dta = s.prev_ps2_dta := by
  rw [main_loop_eq s hr]
  split_ifs
  · exact ps2_fetch_hist s
  · unfold ps2_release_mod
    split_ifs <;> exact ps2_fetch_hist s
  · split
    · rw [kbd_put_frame]; exact ps2_fetch_hist s
    · unfold ps2_press_mod
      split_ifs <;> exact ps2_fetch_hist s

theorem main_loop_no_byte (s : State) (hr : s.ps2_hld_rdy = 0) : main_loop s = s := by
  unfold main_loop
  rw [if_neg (not_not.mpr hr)]

/-! ## Mailbox and framing errors: claims -/

/-- C15: two valid frames carrying `d1` then `d2`, delivered from an empty
window with no poll in between, leave the mailbox holding `d2` with the ready
flag set; the state is the one reached by delivering the second frame alone,
so `d1` has left no trace.  The next poll consumes `d2` and clears the flag,
the raw-byte history behind `d2` being the one from before the frames, and
the poll after that changes nothing. -/
theorem mailbox_overwrite (s : State) (xs1 xs2 : List Nat) (d1 d2 : Nat) (p1 p2 : Bool)
    (hw : s.ps2_shr = 0) (hd1 : d1 < 256) (hd2 : d2 < 256)
    (h1 : xs1.map ps2_level = ps2_frame false d1 p1 true)
    (h2 : xs2.map ps2_level = ps2_frame false d2 p2 true) :
    (Port1_run s (xs1 ++ xs2)).ps2_hld = d2 ∧
    (Port1_run s (xs1 ++ xs2)).ps2_hld_rdy = 1 ∧
    Port1_run s (xs1 ++ xs2) = Port1_run s xs2 ∧
    (main_loop (Port1_run s (xs1 ++ xs2))).ps2_dta = d2 ∧
    (main_loop (Port1_run s (xs1 ++ xs2))).ps2_hld_rdy = 0 ∧
    (main_loop (Port1_run s (xs1 ++ xs2))).prev_ps2_dta = s.ps2_dta ∧
    (main_loop (Port1_run s (xs1 ++ xs2))).prev_prev_ps2_dta = s.prev_ps2_dta ∧
    main_loop (main_loop (Port1_run s (xs1 ++ xs2))) = main_loop (Port1_run s (xs1 ++ xs2)) := by
  have e1 := Port1_run_valid s xs1 d1 p1 hw hd1 h1
  have e2 := Port1_run_valid s xs2 d2 p2 hw hd2 h2
  have e12 : Port1_run s (xs1 ++ xs2)
      = { s with ps2_hld := d2, ps2_hld_rdy := 1, ps2_shr := 0 } := by
    rw [Port1_run_append, e1]
    exact Port1_run_valid _ xs2 d2 p2 rfl hd2 h2
  have hm := main_loop_clears_flag { s with ps2_hld := d2, ps2_hld_rdy := 1, ps2_shr := 0 }
    (by show (1 : Nat) ≠ 0; decide)
  rw [e12]
  exact ⟨rfl, rfl, e2.symm, hm.2.1, hm.1, hm.2.2.1, hm.2.2.2, main_loop_no_byte _ hm.1⟩

set_option maxRecDepth 100000 in
theorem mailbox_overwrite_witness :
    (Port1_run power_on ((ps2_frame false 0x1c false true).map ps2_pin
        ++ (ps2_frame false 0x32 false true).map ps2_pin)).ps2_hld = 0x32 ∧
    (main_loop (Port1_run power_on ((ps2_frame false 0x1c false true).map ps2_pin
        ++ (ps2_frame false 0x32 false true).map ps2_pin))).ps2_dta = 0x32 :=
  ⟨(mailbox_overwrite power_on _ _ 0x1c 0x32 false false rfl (by decide) (by decide)
      (by decide) (by decide)).1,
   (mailbox_overwrite power_on _ _ 0x1c 0x32 false false rfl (by decide) (by decide)
      (by decide) (by decide)).2.2.2.1⟩

/-- C16: an 11-sample frame with a low start bit and a low stop bit, any data
and parity bits, fed from an empty window, leaves the whole state as it was:
the mailbox byte and flag are not written and the window is 0 after the
eleventh sample, as after a validated frame.  In general a sample that leaves
bit 0 of the shifted window set is followed by a window of 0, whether or not
the frame validated. -/
theorem framing_error_reset (s : State) (xs : List Nat) (d : Nat) (p : Bool)
    (hw : s.ps2_shr = 0) (hd : d < 256)
    (hxs : xs.map ps2_level = ps2_frame false d p false) :
    (Port1_run s xs).ps2_hld = s.ps2_hld ∧ (Port1_run s xs).ps2_hld_rdy = s.ps2_hld_rdy ∧
    (Port1_run s xs).ps2_shr = 0 ∧ Port1_run s xs = s ∧
    (∀ (t : State) (x : Nat),
      ((t.ps2_shr >>> 1) ||| (if x &&& PS2_DTA ≠ 0 then 0 else 0x400)) &&& 0x1 ≠ 0 →
        (Port1 t x).ps2_shr = 0) := by
  obtain ⟨hnone, hres, _⟩ := rxs_malformed_frame d hd false p false (Or.inr rfl)
  have h0 := hres (Or.inl rfl)
  have hrun : Port1_run s xs = s := by
    rw [Port1_run_eq_rxs, hxs, hw]
    generalize rxs 0 (ps2_frame false d p false) = r at hnone h0
    obtain ⟨w, o⟩ := r
    simp only at hnone h0
    subst hnone h0
    simp [deliver, ← hw]
  refine ⟨by rw [hrun], by rw [hrun], by rw [hrun]; exact hw, hrun, ?_⟩
  intro t x hbit
  unfold Port1
  simp only []
  rw [if_pos hbit]
  split_ifs <;> rfl

set_option maxRecDepth 100000 in
theorem framing_error_reset_witness :
    Port1_run { power_on with ps2_hld := 0x5a } ((ps2_frame false 0x1c true false).map ps2_pin)
      = { power_on with ps2_hld := 0x5a } :=
  (framing_error_reset { power_on with ps2_hld := 0x5a } _ 0x1c true rfl (by decide)
    (by decide)).2.2.2.1

/-! ## Passes without output, modifier keys -/

theorem ps2_scan_none (key : Nat) (l : List MapEntry) (n : Nat)
    (h : ∀ e ∈ l, e.code ≠ key) : ps2_scan key l n = Option.none := by
  induction l generalizing n with
  | nil => rfl
  | cons a as ih =>
    have ha : ¬ key = a.code := fun hk => h a (List.mem_cons_self a as) hk.symm
    simp only [ps2_scan, ha, if_false]
    exact ih (n + 1) (fun e he => h e (List.mem_cons_of_mem a he))

theorem ps2_press_mod_other (t : State) (k : Nat) (hk : k ∉ modifier_codes) :
    ps2_press_mod t k = t := by
  simp only [modifier_codes, List.mem_cons, List.mem_singleton, not_or, List.not_mem_nil,
    not_false_eq_true, and_true] at hk
  obtain ⟨h1, h2, h3, h4, h5, h6, h7⟩ := hk
  unfold ps2_press_mod
  rw [if_neg h1, if_neg h2, if_neg h3, if_neg h4, if_neg h5, if_neg h6, if_neg h7]

theorem ps2_release_mod_other (t : State) (k : Nat) (hk : k ∉ modifier_codes) :
    ps2_release_mod t k = t := by
  simp only [modifier_codes, List.mem_cons, List.mem_singleton, not_or, List.not_mem_nil,
    not_false_eq_true, and_true] at hk
  obtain ⟨h1, h2, h3, h4, h5, h6, h7⟩ := hk
  unfold ps2_release_mod
  rw [if_neg h1, if_neg h2, if_neg h3, if_neg h4, if_neg h5, if_neg h6, if_neg h7]

/-- C19: a pass that consumes a prefix byte (0xE0 or 0xF0), or a release
(the byte before was 0xF0), or a byte whose key is no code of `ps2_map`,
leaves the ring buffer as it was: storage, `kbd_buf_in`, `kbd_buf_out` and the
queued bytes.  If moreover the byte is a prefix or the key is none of the
seven modifier and caps-lock codes, the pass is `ps2_fetch` alone: the
raw-byte history advances, the mailbox flag is cleared, and the shift, ctrl,
alt and caps-lock state and everything else are unchanged. -/
theorem pass_without_output (s : State) (hr : s.ps2_hld_rdy ≠ 0)
    (hcase : (s.ps2_hld = 0xf0 ∨ s.ps2_hld = 0xe0) ∨ s.ps2_dta = 0xf0 ∨
      (∀ e ∈ ps2_map, e.code ≠ ps2_key s)) :
    ((main_loop s).kbd_buf = s.kbd_buf ∧ (main_loop s).kbd_buf_in = s.kbd_buf_in ∧
      (main_loop s).kbd_buf_out = s.kbd_buf_out ∧ kbd_queue (main_loop s) = kbd_queue s) ∧
    (((s.ps2_hld = 0xf0 ∨ s.ps2_hld = 0xe0) ∨ ps2_key s ∉ modifier_codes) →
      main_loop s = ps2_fetch s ∧ (main_loop s).ps2_shft = s.ps2_shft ∧
      (main_loop s).ps2_ctrl = s.ps2_ctrl ∧ (main_loop s).ps2_alt = s.ps2_alt ∧
      (main_loop s).ps2_caps = s.ps2_caps) := by
  have hshape : main_loop s = ps2_fetch s ∨
      main_loop s = ps2_release_mod (ps2_fetch s) (ps2_key s) ∨
      main_loop s = ps2_press_mod (ps2_fetch s) (ps2_key s) := by
    rw [main_loop_eq s hr]
    by_cases hpre : s.ps2_hld = 0xf0 ∨ s.ps2_hld = 0xe0
    · rw [if_pos hpre]; exact Or.inl rfl
    · rw [if_neg hpre]
      by_cases hrel : s.ps2_dta = 0xf0
      · rw [if_pos hrel]; exact Or.inr (Or.inl rfl)
      · rw [if_neg hrel]
        have hnot : ∀ e ∈ ps2_map, e.code ≠ ps2_key s := by
          rcases hcase with h | h | h
          · exact absurd h hpre
          · exact absurd h hrel
          · exact h
        rw [ps2_scan_none _ _ _ hnot]
        exact Or.inr (Or.inr rfl)
  constructor
  · rcases hshape with h | h | h
    · rw [h]; exact ⟨rfl, rfl, rfl, rfl⟩
    · rw [h]
      obtain ⟨a, b, c⟩ := ps2_release_mod_buf (ps2_fetch s) (ps2_key s)
      exact ⟨a, b, c, kbd_queue_congr _ _ a b c⟩
    · rw [h]
      obtain ⟨a, b, c⟩ := ps2_press_mod_buf (ps2_fetch s) (ps2_key s)
      exact ⟨a, b, c, kbd_queue_congr _ _ a b c⟩
  · intro hq
    have hf : main_loop s = ps2_fetch s := by
      rcases hq with hpre | hk
      · rw [main_loop_eq s hr, if_pos hpre]
      · rcases hshape with h | h | h
        · exact h
        · rw [h, ps2_release_mod_other _ _ hk]
        · rw [h, ps2_press_mod_other _ _ hk]
    rw [hf]
    exact ⟨rfl, rfl, rfl, rfl, rfl⟩

set_option maxRecDepth 100000 in
theorem pass_without_output_witness :
    main_loop { feed power_on 0x12 with ps2_hld := 0xf0, ps2_hld_rdy := 1 }
      = ps2_fetch { feed power_on 0x12 with ps2_hld := 0xf0, ps2_hld_rdy := 1 } ∧
    (main_loop { feed power_on 0x12 with ps2_hld := 0xf0, ps2_hld_rdy := 1 }).ps2_shft = 1 :=
  ⟨((pass_without_output { feed power_on 0x12 with ps2_hld := 0xf0, ps2_hld_rdy := 1 }
      (by decide) (Or.inl (Or.inl rfl))).2 (Or.inl (Or.inl rfl))).1,
   ((pass_without_output { feed power_on 0x12 with ps2_hld := 0xf0, ps2_hld_rdy := 1 }
      (by decide) (Or.inl (Or.inl rfl))).2 (Or.inl (Or.inl rfl))).2.1.trans (by decide)⟩

/-! ## Modifier keys -/

theorem feed_prefix (s : State) (b : Nat) (hb : b = 0xf0 ∨ b = 0xe0) :
    feed s b = absorb s b := by
  unfold feed
  rw [main_loop_eq _ (by show (1 : Nat) ≠ 0; decide)]
  exact if_pos hb

theorem feed_release (s : State) (b : Nat) (hb : ¬ (b = 0xf0 ∨ b = 0xe0))
    (hrel : s.ps2_dta = 0xf0) :
    feed s b = ps2_release_mod (absorb s b)
      ((((if s.prev_ps2_dta = 0xe0 then 1 else 0) <<< 8) ||| b) % 65536) := by
  unfold feed
  rw [main_loop_eq _ (by show (1 : Nat) ≠ 0; decide)]
  have h1 : ¬ (({ s with ps2_hld := b, ps2_hld_rdy := 1 } : State).ps2_hld = 0xf0 ∨
      ({ s with ps2_hld := b, ps2_hld_rdy := 1 } : State).ps2_hld = 0xe0) := hb
  have h2 : ({ s with ps2_hld := b, ps2_hld_rdy := 1 } : State).ps2_dta = 0xf0 := hrel
  rw [if_neg h1, if_pos h2]
  unfold ps2_key absorb
  simp only [hrel, if_true]

theorem feed_press_mod (s : State) (b : Nat) (hb : ¬ (b = 0xf0 ∨ b = 0xe0))
    (hrel : s.ps2_dta ≠ 0xf0)
    (hscan : ps2_scan ((((if s.ps2_dta = 0xe0 then 1 else 0) <<< 8) ||| b) % 65536) ps2_map 0
      = Option.none) :
    feed s b = ps2_press_mod (absorb s b)
      ((((if s.ps2_dta = 0xe0 then 1 else 0) <<< 8) ||| b) % 65536) := by
  unfold feed
  rw [main_loop_eq _ (by show (1 : Nat) ≠ 0; decide)]
  have h1 : ¬ (({ s with ps2_hld := b, ps2_hld_rdy := 1 } : State).ps2_hld = 0xf0 ∨
      ({ s with ps2_hld := b, ps2_hld_rdy := 1 } : State).ps2_hld = 0xe0) := hb
  have h2 : ¬ ({ s with ps2_hld := b, ps2_hld_rdy := 1 } : State).ps2_dta = 0xf0 := hrel
  rw [if_neg h1, if_neg h2]
  have hk : ps2_key { s with ps2_hld := b, ps2_hld_rdy := 1 }
      = (((if s.ps2_dta = 0xe0 then 1 else 0) <<< 8) ||| b) % 65536 := by
    unfold ps2_key
    simp only [hrel, if_false]
  rw [hk, hscan]
  rfl

set_option maxRecDepth 100000 in
theorem modifier_codes_not_in_table : ∀ k ∈ modifier_codes, ps2_scan k ps2_map 0 = Option.none := by
  decide

set_option maxRecDepth 100000 in
theorem two_bit_fields : ∀ x < 4,
    x &&& 2 = clear_bit x 0 ∧ x &&& 1 = clear_bit x 1 ∧
    set_bit x 0 < 4 ∧ set_bit x 1 < 4 ∧ clear_bit x 0 < 4 ∧ clear_bit x 1 < 4 ∧
    clear_bit x 1 &&& 1 = x &&& 1 := by
  decide

theorem press_plain (s : State) (b : Nat) (hprev : s.ps2_dta ≠ 0xe0 ∧ s.ps2_dta ≠ 0xf0)
    (hb : ¬ (b = 0xf0 ∨ b = 0xe0)) (hk : ((0 <<< 8) ||| b) % 65536 = b)
    (hscan : ps2_scan b ps2_map 0 = Option.none) :
    feeds s [b] = ps2_press_mod (absorb s b) b := by
  have h := feed_press_mod s b hb hprev.2 (by rw [if_neg hprev.1, hk]; exact hscan)
  rw [if_neg hprev.1, hk] at h
  exact h

theorem press_escaped (s : State) (b k : Nat)
    (hb : ¬ (b = 0xf0 ∨ b = 0xe0)) (hk : ((1 <<< 8) ||| b) % 65536 = k)
    (hscan : ps2_scan k ps2_map 0 = Option.none) :
    feeds s [0xe0, b] = ps2_press_mod (absorb (absorb s 0xe0) b) k := by
  have h0 : feeds s [0xe0, b] = feed (feed s 0xe0) b := rfl
  have hd : (absorb s 0xe0).ps2_dta = 0xe0 := rfl
  have h := feed_press_mod (absorb s 0xe0) b hb (by rw [hd]; decide)
    (by rw [if_pos hd, hk]; exact hscan)
  rw [if_pos hd, hk] at h
  rw [h0, feed_prefix s 0xe0 (Or.inr rfl), h]

theorem release_plain (s : State) (b : Nat) (hprev : s.ps2_dta ≠ 0xe0)
    (hb : ¬ (b = 0xf0 ∨ b = 0xe0)) (hk : ((0 <<< 8) ||| b) % 65536 = b) :
    feeds s [0xf0, b] = ps2_release_mod (absorb (absorb s 0xf0) b) b := by
  have h0 : feeds s [0xf0, b] = feed (feed s 0xf0) b := rfl
  have hd : (absorb s 0xf0).ps2_dta = 0xf0 := rfl
  have hp : ¬ (absorb s 0xf0).prev_ps2_dta = 0xe0 := hprev
  have h := feed_release (absorb s 0xf0) b hb hd
  rw [if_neg hp, hk] at h
  rw [h0, feed_prefix s 0xf0 (Or.inl rfl), h]

theorem release_escaped (s : State) (b k : Nat)
    (hb : ¬ (b = 0xf0 ∨ b = 0xe0)) (hk : ((1 <<< 8) ||| b) % 65536 = k) :
    feeds s [0xe0, 0xf0, b]
      = ps2_release_mod (absorb (absorb (absorb s 0xe0) 0xf0) b) k := by
  have h0 : feeds s [0xe0, 0xf0, b] = feed (feed (feed s 0xe0) 0xf0) b := rfl
  have hd : (absorb (absorb s 0xe0) 0xf0).ps2_dta = 0xf0 := rfl
  have hp : (absorb (absorb s 0xe0) 0xf0).prev_ps2_dta = 0xe0 := rfl
  have h := feed_release (absorb (absorb s 0xe0) 0xf0) b hb hd
  rw [if_pos hp, hk] at h
  rw [h0, feed_prefix s 0xe0 (Or.inr rfl), feed_prefix _ 0xf0 (Or.inl rfl), h]

/-! ## Modifier keys: claim -/

/-- C13: with the byte consumed before not a prefix and the modifier fields
holding two bits each, the press sequence of left shift (0x12), right shift
(0x59), left ctrl (0x14), right ctrl (0xE0 0x14), left alt (0x11) or right
alt (0xE0 0x11) sets that key's bit (0 for left, 1 for right) in its own
field; the release sequence (0xF0 code, or 0xE0 0xF0 code for the escaped
keys) clears that bit; a caps-lock release (0xF0 0x58) clears the latch bit
(bit 1) of `ps2_caps` and keeps the active bit.  In each case the rest of the
state is the one reached by advancing the raw-byte history alone: the other
modifier fields and the ring buffer are unchanged. -/
theorem modifier_own_bit (s : State) (hprev : s.ps2_dta ≠ 0xe0 ∧ s.ps2_dta ≠ 0xf0)
    (hs : s.ps2_shft < 4) (hc : s.ps2_ctrl < 4) (ha : s.ps2_alt < 4) (hcaps : s.ps2_caps < 4) :
    (feeds s [0x12] = { absorb s 0x12 with ps2_shft := set_bit s.ps2_shft 0 } ∧
     feeds s [0x59] = { absorb s 0x59 with ps2_shft := set_bit s.ps2_shft 1 } ∧
     feeds s [0x14] = { absorb s 0x14 with ps2_ctrl := set_bit s.ps2_ctrl 0 } ∧
     feeds s [0xe0, 0x14]
       = { absorb (absorb s 0xe0) 0x14 with ps2_ctrl := set_bit s.ps2_ctrl 1 } ∧
     feeds s [0x11] = { absorb s 0x11 with ps2_alt := set_bit s.ps2_alt 0 } ∧
     feeds s [0xe0, 0x11]
       = { absorb (absorb s 0xe0) 0x11 with ps2_alt := set_bit s.ps2_alt 1 }) ∧
    (feeds s [0xf0, 0x12]
       = { absorb (absorb s 0xf0) 0x12 with ps2_shft := clear_bit s.ps2_shft 0 } ∧
     feeds s [0xf0, 0x59]
       = { absorb (absorb s 0xf0) 0x59 with ps2_shft := clear_bit s.ps2_shft 1 } ∧
     feeds s [0xf0, 0x14]
       = { absorb (absorb s 0xf0) 0x14 with ps2_ctrl := clear_bit s.ps2_ctrl 0 } ∧
     feeds s [0xe0, 0xf0, 0x14]
       = { absorb (absorb (absorb s 0xe0) 0xf0) 0x14 with
           ps2_ctrl := clear_bit s.ps2_ctrl 1 } ∧
     feeds s [0xf0, 0x11]
       = { absorb (absorb s 0xf0) 0x11 with ps2_alt := clear_bit s.ps2_alt 0 } ∧
     feeds s [0xe0, 0xf0, 0x11]
       = { absorb (absorb (absorb s 0xe0) 0xf0) 0x11 with
           ps2_alt := clear_bit s.ps2_alt 1 }) ∧
    (feeds s [0xf0, 0x58]
       = { absorb (absorb s 0xf0) 0x58 with ps2_caps := clear_bit s.ps2_caps 1 } ∧
     clear_bit s.ps2_caps 1 &&& 1 = s.ps2_caps &&& 1) := by
  have ts := two_bit_fields s.ps2_shft hs
  have tc := two_bit_fields s.ps2_ctrl hc
  have ta := two_bit_fields s.ps2_alt ha
  have tk := two_bit_fields s.ps2_caps hcaps
  refine ⟨⟨?_, ?_, ?_, ?_, ?_, ?_⟩, ⟨?_, ?_, ?_, ?_, ?_, ?_⟩, ?_, tk.2.2.2.2.2.2⟩
  · rw [press_plain s 0x12 hprev (by decide) (by decide) (by decide)]; rfl
  · rw [press_plain s 0x59 hprev (by decide) (by decide) (by decide)]; rfl
  · rw [press_plain s 0x14 hprev (by decide) (by decide) (by decide)]; rfl
  · rw [press_escaped s 0x14 0x114 (by decide) (by decide) (by decide)]; rfl
  · rw [press_plain s 0x11 hprev (by decide) (by decide) (by decide)]; rfl
  · rw [press_escaped s 0x11 0x111 (by decide) (by decide) (by decide)]; rfl
  · rw [release_plain s 0x12 hprev.1 (by decide) (by decide), ← ts.1]; rfl
  · rw [release_plain s 0x59 hprev.1 (by decide) (by decide), ← ts.2.1]; rfl
  · rw [release_plain s 0x14 hprev.1 (by decide) (by decide), ← tc.1]; rfl
  · rw [release_escaped s 0x14 0x114 (by decide) (by decide), ← tc.2.1]; rfl
  · rw [release_plain s 0x11 hprev.1 (by decide) (by decide), ← ta.1]; rfl
  · rw [release_escaped s 0x11 0x111 (by decide) (by decide), ← ta.2.1]; rfl
  · rw [release_plain s 0x58 hprev.1 (by decide) (by decide), ← tk.2.1]; rfl

set_option maxRecDepth 100000 in
theorem modifier_own_bit_witness :
    (feeds power_on [0xe0, 0x14]).ps2_ctrl = 2 ∧
    (feeds (feeds power_on [0x12, 0x59]) [0xf0, 0x12]).ps2_shft = 2 :=
  ⟨(congrArg State.ps2_ctrl (modifier_own_bit power_on (by decide) (by decide) (by decide)
      (by decide) (by decide)).1.2.2.2.1).trans (by decide),
   (congrArg State.ps2_shft (modifier_own_bit (feeds power_on [0x12, 0x59]) (by decide)
      (by decide) (by decide) (by decide) (by decide)).2.1.1).trans (by decide)⟩

/-- From power-on every pass keeps the four modifier fields below 4, the
hypothesis of `modifier_own_bit`. -/
theorem modifier_fields_two_bits (bs : List Nat) :
    (feeds power_on bs).ps2_shft < 4 ∧ (feeds power_on bs).ps2_ctrl < 4 ∧
    (feeds power_on bs).ps2_alt < 4 ∧ (feeds power_on bs).ps2_caps < 4 := by
  have hstep : ∀ (s : State) (b : Nat),
      (s.ps2_shft < 4 ∧ s.ps2_ctrl < 4 ∧ s.ps2_alt < 4 ∧ s.ps2_caps < 4) →
      ((feed s b).ps2_shft < 4 ∧ (feed s b).ps2_ctrl < 4 ∧ (feed s b).ps2_alt < 4 ∧
        (feed s b).ps2_caps < 4) := by
    intro s b h
    have hbits : ∀ x < 4, x ||| 1 < 4 ∧ x ||| 2 < 4 ∧ x &&& 2 < 4 ∧ x &&& 1 < 4 ∧
        (2 ||| ((x >>> 1) ^^^ 1 ^^^ x)) % 256 < 4 := by decide
    obtain ⟨h1, h2, h3, h4⟩ := h
    unfold feed
    rw [main_loop_eq _ (by show (1 : Nat) ≠ 0; decide)]
    split_ifs
    · exact ⟨h1, h2, h3, h4⟩
    · unfold ps2_release_mod
      split_ifs
      all_goals first
        | exact ⟨h1, h2, h3, h4⟩
        | exact ⟨(hbits _ h1).2.2.1, h2, h3, h4⟩
        | exact ⟨(hbits _ h1).2.2.2.1, h2, h3, h4⟩
        | exact ⟨h1, (hbits _ h2).2.2.1, h3, h4⟩
        | exact ⟨h1, (hbits _ h2).2.2.2.1, h3, h4⟩
        | exact ⟨h1, h2, (hbits _ h3).2.2.1, h4⟩
        | exact ⟨h1, h2, (hbits _ h3).2.2.2.1, h4⟩
        | exact ⟨h1, h2, h3, (hbits _ h4).2.2.2.1⟩
    · split
      · rw [kbd_put_frame]; exact ⟨h1, h2, h3, h4⟩
      · unfold ps2_press_mod
        split_ifs
        all_goals first
          | exact ⟨h1, h2, h3, h4⟩
          | exact ⟨(hbits _ h1).1, h2, h3, h4⟩
          | exact ⟨(hbits _ h1).2.1, h2, h3, h4⟩
          | exact ⟨h1, (hbits _ h2).1, h3, h4⟩
          | exact ⟨h1, (hbits _ h2).2.1, h3, h4⟩
          | exact ⟨h1, h2, (hbits _ h3).1, h4⟩
          | exact ⟨h1, h2, (hbits _ h3).2.1, h4⟩
          | exact ⟨h1, h2, h3, (hbits _ h4).2.2.2.2⟩
  have hgen : ∀ (l : List Nat) (s : State),
      (s.ps2_shft < 4 ∧ s.ps2_ctrl < 4 ∧ s.ps2_alt < 4 ∧ s.ps2_caps < 4) →
      ((feeds s l).ps2_shft < 4 ∧ (feeds s l).ps2_ctrl < 4 ∧ (feeds s l).ps2_alt < 4 ∧
        (feeds s l).ps2_caps < 4) := by
    intro l
    induction l with
    | nil => intro s h; exact h
    | cons b l ih => intro s h; exact ih (feed s b) (hstep s b h)
  exact hgen bs power_on (by decide)

/-! ## Transmit engine: the waveform of a byte -/

set_option maxRecDepth 100000 in
/-- One tick takes the view after tick `n` to the view after tick `n + 1`. -/
theorem view_at_step (b : Nat) (c d : Bool) :
    ∀ n, 1 ≤ n → n < 40 → tx_step (view_at b c d n) = view_at b c d (n + 1) := by
  intro n h1 h2
  interval_cases n <;>
    simp [view_at, wave, tx_step, tx_phase, Nat.testBit_shiftRight, ← Nat.shiftRight_add]

theorem tx_run_succ (n : Nat) (v : TxView) : tx_run (n + 1) v = tx_step (tx_run n v) := by
  induction n generalizing v with
  | zero => rfl
  | succ n ih => exact ih (tx_step v)

theorem tx_run_view_at (b : Nat) (c d : Bool) (n : Nat) (hn : n < 40) :
    tx_run n ⟨1, b, c, d, false⟩ = view_at b c d (n + 1) := by
  induction n with
  | zero => simp [tx_run, view_at, wave]
  | succ n ih =>
    rw [tx_run_succ, ih (by omega)]
    exact view_at_step b c d (n + 1) (by omega) (by omega)

theorem tx_lines_view_at (b : Nat) (c d : Bool) (n : Nat) :
    tx_lines (view_at b c d n) = wave b c d n := rfl

/-! ## Transmit engine: the handler and the view -/

theorem mask_bit (P i : Nat) : decide (P &&& 2 ^ i ≠ 0) = P.testBit i := by
  rw [Nat.and_comm, Nat.two_pow_and]
  cases P.testBit i <;> simp

theorem kbd_clk_bit (s : State) : kbd_clk s = s.P1OUT.testBit 3 := mask_bit s.P1OUT 3

theorem kbd_dta_bit (s : State) : kbd_dta s = s.P1OUT.testBit 4 := mask_bit s.P1OUT 4

theorem uart_tx_bit (s : State) : uart_tx s = s.P1OUT.testBit 2 := mask_bit s.P1OUT 2

theorem shr_bit (x : Nat) : decide (x &&& 1 ≠ 0) = x.testBit 0 := mask_bit x 0

set_option maxRecDepth 100000 in
theorem pin_bits :
    (Nat.testBit KBD_CLK 2 = false ∧ Nat.testBit KBD_CLK 3 = true ∧ Nat.testBit KBD_CLK 4 = false) ∧
    (Nat.testBit KBD_DTA 2 = false ∧ Nat.testBit KBD_DTA 3 = false ∧ Nat.testBit KBD_DTA 4 = true) ∧
    (Nat.testBit UART_TX 2 = true ∧ Nat.testBit UART_TX 3 = false ∧ Nat.testBit UART_TX 4 = false) ∧
    (Nat.testBit 0xFF 2 = true ∧ Nat.testBit 0xFF 3 = true ∧ Nat.testBit 0xFF 4 = true) := by
  decide

theorem tx_view_phase (t : State) : tx_view (kbd_phase t) = tx_phase (tx_view t) := by
  obtain ⟨⟨c2, c3, c4⟩, ⟨d2, d3, d4⟩, ⟨u2, u3, u4⟩, ⟨f2, f3, f4⟩⟩ := pin_bits
  unfold kbd_phase tx_phase
  have hk : (tx_view t).kbd_state = t.kbd_state := rfl
  rw [hk]
  split
  · split_ifs with hlt hb
    · have hb' : t.kbd_shr.testBit 0 = true := by rw [← shr_bit]; exact decide_eq_true hb
      simp [tx_view, kbd_clk_bit, kbd_dta_bit, uart_tx_bit, hb', Nat.testBit_or,
        c2, c3, c4, d2, d3, d4, u2, u3, u4]
    · have hb' : t.kbd_shr.testBit 0 = false := by rw [← shr_bit]; exact decide_eq_false hb
      simp [tx_view, kbd_clk_bit, kbd_dta_bit, uart_tx_bit, hb', Nat.testBit_or,
        Nat.testBit_and, Nat.testBit_xor, c2, c3, c4, d2, d3, d4, u2, u3, u4, f2, f3, f4]
    · simp [tx_view, kbd_clk_bit, kbd_dta_bit, uart_tx_bit, Nat.testBit_or,
        Nat.testBit_and, Nat.testBit_xor, c2, c3, c4, d2, d3, d4, u2, u3, u4, f2, f3, f4]
  · split_ifs
    · simp [tx_view, kbd_clk_bit, kbd_dta_bit, uart_tx_bit, Nat.testBit_or,
        c2, c3, c4, d2, d3, d4, u2, u3, u4]
    · rfl
  · simp [tx_view, kbd_clk_bit, kbd_dta_bit, uart_tx_bit, Nat.testBit_or,
      c2, c3, c4, d2, d3, d4, u2, u3, u4]
  · simp [tx_view, kbd_clk_bit, kbd_dta_bit, uart_tx_bit, Nat.testBit_and, Nat.testBit_xor,
      c2, c3, c4, d2, d3, d4, u2, u3, u4, f2, f3, f4]

theorem tx_view_advance (t : State) :
    tx_view (kbd_advance t) =
      { tx_view t with
        kbd_state := if (t.kbd_state + 1) % 256 < 40 then (t.kbd_state + 1) % 256 else 0 } := by
  unfold kbd_advance
  simp only []
  split_ifs <;> rfl

theorem tx_view_led (t : State) : tx_view (led_blink t) = tx_view t := by
  unfold led_blink
  split_ifs <;> rfl

/-- A tick in an active state acts on the view as `tx_step`. -/
theorem tx_view_active (t : State) (p : Nat) (h1 : 1 ≤ t.kbd_state) (h2 : t.kbd_state ≤ 39) :
    tx_view (Timer_A1 t p) = tx_step (tx_view t) := by
  have hz : ¬ t.kbd_state = 0 := by omega
  have hk : (t.kbd_state + 1) % 256 = t.kbd_state + 1 := by omega
  have hv : (tx_view t).kbd_state = t.kbd_state := rfl
  unfold Timer_A1 tx_step
  rw [tx_view_led, if_neg hz, hv, if_neg hz]
  by_cases hlt : t.kbd_state < 4
  · rw [if_pos hlt, if_pos hlt, hk]
    rfl
  · rw [if_neg hlt, if_neg hlt, tx_view_advance, tx_view_phase]
    have hp : (kbd_phase t).kbd_state = t.kbd_state := (kbd_phase_keeps t).1
    rw [hp, hk]

/-- The tick that starts a byte: the byte is in the shift register, the serial
line is low, the legacy lines are untouched. -/
theorem tx_view_start (t : State) (p : Nat) (h0 : t.kbd_state = 0)
    (hne : t.kbd_buf_out ≠ t.kbd_buf_in) (hrdy : p &&& KBD_BSYN ≠ 0) :
    tx_view (Timer_A1 t p) = ⟨1, t.kbd_buf t.kbd_buf_out, kbd_clk t, kbd_dta t, false⟩ := by
  obtain ⟨_, _, ⟨u2, u3, u4⟩, ⟨f2, f3, f4⟩⟩ := pin_bits
  unfold Timer_A1
  rw [tx_view_led, if_pos h0, if_pos ⟨hne, hrdy⟩]
  simp [tx_view, kbd_clk_bit, kbd_dta_bit, uart_tx_bit, Nat.testBit_and, Nat.testBit_xor,
    u2, u3, u4, f2, f3, f4, h0]

/-- Ticks from an active state act on the view as `tx_run`. -/
theorem tx_view_ticks (evs : List (Nat × Nat)) (t : State)
    (h1 : 1 ≤ t.kbd_state) (h39 : t.kbd_state ≤ 39) (h2 : t.kbd_state + evs.length ≤ 40) :
    tx_view (ticks t evs) = tx_run evs.length (tx_view t) := by
  induction evs generalizing t with
  | nil => rfl
  | cons ev evs ih =>
    simp only [List.length_cons] at h2
    have hstep : tx_view (tick t ev) = tx_step (tx_view t) :=
      tx_view_active { t with kbd_buf_in := ev.2 } ev.1 h1 h39
    have hfold : ticks t (ev :: evs) = ticks (tick t ev) evs := rfl
    rw [hfold, List.length_cons]
    show _ = tx_run evs.length (tx_step (tx_view t))
    rw [← hstep]
    cases evs with
    | nil => rfl
    | cons ev2 evs2 =>
      simp only [List.length_cons] at h2
      have hs := (Timer_A1_active { t with kbd_buf_in := ev.2 } ev.1 h1 h39).1
      have hs1 : (tick t ev).kbd_state = t.kbd_state + 1 := by
        have e : (tick t ev).kbd_state = (t.kbd_state + 1) % 40 := hs
        rw [e]; omega
      exact ih (tick t ev) (by omega) (by omega) (by simp only [List.length_cons]; omega)

/-- The view after each of the 40 ticks of a byte. -/
theorem byte_view (s : State) (ev0 : Nat × Nat) (rest : List (Nat × Nat))
    (hidle : s.kbd_state = 0) (hne : s.kbd_buf_out ≠ ev0.2) (hrdy : ev0.1 &&& KBD_BSYN ≠ 0)
    (hlen : rest.length = 39) (n : Nat) (h1 : 1 ≤ n) (h40 : n ≤ 40) :
    tx_view (after_ticks s ev0 rest n)
      = view_at (s.kbd_buf s.kbd_buf_out) (kbd_clk s) (kbd_dta s) n := by
  obtain ⟨m, rfl⟩ : ∃ m, n = m + 1 := ⟨n - 1, by omega⟩
  have hshape : after_ticks s ev0 rest (m + 1) = ticks (tick s ev0) (rest.take m) := rfl
  have hstart : tx_view (tick s ev0)
      = ⟨1, s.kbd_buf s.kbd_buf_out, kbd_clk s, kbd_dta s, false⟩ :=
    tx_view_start { s with kbd_buf_in := ev0.2 } ev0.1 hidle hne hrdy
  have hk : (tick s ev0).kbd_state = 1 := congrArg TxView.kbd_state hstart
  have hl : (rest.take m).length = m := by rw [List.length_take, hlen]; omega
  rw [hshape, tx_view_ticks _ _ (by omega) (by omega) (by rw [hk, hl]; omega), hl, hstart]
  exact tx_run_view_at _ _ _ m (by omega)

/-- Tick count and line levels after each of the 40 ticks of a byte. -/
theorem byte_wave (s : State) (ev0 : Nat × Nat) (rest : List (Nat × Nat))
    (hidle : s.kbd_state = 0) (hne : s.kbd_buf_out ≠ ev0.2) (hrdy : ev0.1 &&& KBD_BSYN ≠ 0)
    (hlen : rest.length = 39) (n : Nat) (h1 : 1 ≤ n) (h40 : n ≤ 40) :
    ((after_ticks s ev0 rest n).kbd_state, kbd_clk (after_ticks s ev0 rest n),
      kbd_dta (after_ticks s ev0 rest n), uart_tx (after_ticks s ev0 rest n))
      = wave (s.kbd_buf s.kbd_buf_out) (kbd_clk s) (kbd_dta s) n := by
  have h := congrArg tx_lines (byte_view s ev0 rest hidle hne hrdy hlen n h1 h40)
  exact h

/-! ## Transmit engine: claims on the waveform -/

theorem byte_wave_parts (s : State) (ev0 : Nat × Nat) (rest : List (Nat × Nat))
    (hidle : s.kbd_state = 0) (hne : s.kbd_buf_out ≠ ev0.2) (hrdy : ev0.1 &&& KBD_BSYN ≠ 0)
    (hlen : rest.length = 39) (n : Nat) (h1 : 1 ≤ n) (h40 : n ≤ 40) :
    (after_ticks s ev0 rest n).kbd_state
      = (wave (s.kbd_buf s.kbd_buf_out) (kbd_clk s) (kbd_dta s) n).1 ∧
    kbd_clk (after_ticks s ev0 rest n)
      = (wave (s.kbd_buf s.kbd_buf_out) (kbd_clk s) (kbd_dta s) n).2.1 ∧
    kbd_dta (after_ticks s ev0 rest n)
      = (wave (s.kbd_buf s.kbd_buf_out) (kbd_clk s) (kbd_dta s) n).2.2.1 ∧
    uart_tx (after_ticks s ev0 rest n)
      = (wave (s.kbd_buf s.kbd_buf_out) (kbd_clk s) (kbd_dta s) n).2.2.2 := by
  have h := byte_wave s ev0 rest hidle hne hrdy hlen n h1 h40
  exact ⟨congrArg Prod.fst h, congrArg (fun x => x.2.1) h, congrArg (fun x => x.2.2.1) h,
    congrArg (fun x => x.2.2.2) h⟩

theorem wave_start (b : Nat) (c d : Bool) (n : Nat) (h : n ≤ 4) :
    wave b c d n = (n, c, d, false) := by
  unfold wave
  rw [if_pos h]

theorem wave_data (b : Nat) (c d : Bool) (n : Nat) (h4 : 4 < n) (h36 : n ≤ 36) :
    wave b c d n = (n,
      if n = 5 then c else decide ((n - 5) % 4 = 1 ∨ (n - 5) % 4 = 2),
      if 2 ≤ (n - 5) % 4 then true else b.testBit ((n - 5) / 4),
      b.testBit ((n - 5) / 4)) := by
  unfold wave
  rw [if_neg (by omega), if_pos h36]

theorem wave_stop (b : Nat) (c d : Bool) (n : Nat) (h36 : 36 < n) :
    wave b c d n = (n % 40, false, decide (39 ≤ n), true) := by
  unfold wave
  rw [if_neg (by omega), if_neg (by omega)]

/-- C11: for the byte `b` taken from the ring buffer by the first tick, the
`UART_TX` line after tick `t` of its 40 ticks is low for `t` = 1..4, equal to
bit `k` of `b` for `t` = 4k+5..4k+8 with `k` = 0..7, and high for `t` =
37..40, whatever the ready line and `kbd_buf_in` are on ticks 2..40. -/
theorem uart_waveform (s : State) (ev0 : Nat × Nat) (rest : List (Nat × Nat))
    (hidle : s.kbd_state = 0) (hne : s.kbd_buf_out ≠ ev0.2) (hrdy : ev0.1 &&& KBD_BSYN ≠ 0)
    (hlen : rest.length = 39) :
    (∀ t, 1 ≤ t → t ≤ 4 → uart_tx (after_ticks s ev0 rest t) = false) ∧
    (∀ k < 8, ∀ t, 4 * k + 5 ≤ t → t ≤ 4 * k + 8 →
      uart_tx (after_ticks s ev0 rest t) = (s.kbd_buf s.kbd_buf_out).testBit k) ∧
    (∀ t, 37 ≤ t → t ≤ 40 → uart_tx (after_ticks s ev0 rest t) = true) := by
  refine ⟨?_, ?_, ?_⟩
  · intro t h1 h4
    rw [(byte_wave_parts s ev0 rest hidle hne hrdy hlen t h1 (by omega)).2.2.2,
      wave_start _ _ _ _ h4]
  · intro k hk t h5 h8
    rw [(byte_wave_parts s ev0 rest hidle hne hrdy hlen t (by omega) (by omega)).2.2.2,
      wave_data _ _ _ _ (by omega) (by omega)]
    have : (t - 5) / 4 = k := by omega
    simp only [this]
  · intro t h37 h40
    rw [(byte_wave_parts s ev0 rest hidle hne hrdy hlen t (by omega) h40).2.2.2,
      wave_stop _ _ _ _ (by omega)]

set_option maxRecDepth 100000 in
theorem uart_waveform_witness :
    uart_tx (after_ticks (feeds power_on [0x12, 0x1c]) (KBD_BSYN, 1)
      (List.replicate 39 (0, 1)) 5) = true ∧
    uart_tx (after_ticks (feeds power_on [0x12, 0x1c]) (KBD_BSYN, 1)
      (List.replicate 39 (0, 1)) 10) = false ∧
    uart_tx (after_ticks (feeds power_on [0x12, 0x1c]) (KBD_BSYN, 1)
      (List.replicate 39 (0, 1)) 40) = true :=
  ⟨((uart_waveform (feeds power_on [0x12, 0x1c]) (KBD_BSYN, 1) (List.replicate 39 (0, 1))
      (by decide) (by decide) (by decide) (by decide)).2.1 0 (by decide) 5 (by decide)
      (by decide)).trans (by decide),
   ((uart_waveform (feeds power_on [0x12, 0x1c]) (KBD_BSYN, 1) (List.replicate 39 (0, 1))
      (by decide) (by decide) (by decide) (by decide)).2.1 1 (by decide) 10 (by decide)
      (by decide)).trans (by decide),
   (uart_waveform (feeds power_on [0x12, 0x1c]) (KBD_BSYN, 1) (List.replicate 39 (0, 1))
      (by decide) (by decide) (by decide) (by decide)).2.2 40 (by decide) (by decide)⟩

/-- C12: with the clock line low at the start, for each `k` = 0..7 the tick
that runs with `kbd_state = 4k+5` raises `KBD_CLK` from low to high while
`KBD_DTA` holds bit `k` of the byte, before and after that tick; the tick
that runs with `kbd_state = 4k+7` returns `KBD_CLK` from high to low; and a
tick of the 40 that raises `KBD_CLK` runs with `kbd_state = 4k+5` for some
`k` below 8. -/
theorem legacy_data_bits (s : State) (ev0 : Nat × Nat) (rest : List (Nat × Nat))
    (hidle : s.kbd_state = 0) (hne : s.kbd_buf_out ≠ ev0.2) (hrdy : ev0.1 &&& KBD_BSYN ≠ 0)
    (hlen : rest.length = 39) (hclk : kbd_clk s = false) :
    (∀ k < 8,
      (after_ticks s ev0 rest (4 * k + 5)).kbd_state = 4 * k + 5 ∧
      kbd_clk (after_ticks s ev0 rest (4 * k + 5)) = false ∧
      kbd_clk (after_ticks s ev0 rest (4 * k + 6)) = true ∧
      kbd_dta (after_ticks s ev0 rest (4 * k + 5)) = (s.kbd_buf s.kbd_buf_out).testBit k ∧
      kbd_dta (after_ticks s ev0 rest (4 * k + 6)) = (s.kbd_buf s.kbd_buf_out).testBit k ∧
      (after_ticks s ev0 rest (4 * k + 7)).kbd_state = 4 * k + 7 ∧
      kbd_clk (after_ticks s ev0 rest (4 * k + 7)) = true ∧
      kbd_clk (after_ticks s ev0 rest (4 * k + 8)) = false) ∧
    (∀ n < 40, kbd_clk (after_ticks s ev0 rest n) = false →
      kbd_clk (after_ticks s ev0 rest (n + 1)) = true →
      ∃ k < 8, (after_ticks s ev0 rest n).kbd_state = 4 * k + 5) := by
  have hw := byte_wave_parts s ev0 rest hidle hne hrdy hlen
  constructor
  · intro k hk
    obtain ⟨a1, a2, a3, _⟩ := hw (4 * k + 5) (by omega) (by omega)
    obtain ⟨_, b2, b3, _⟩ := hw (4 * k + 6) (by omega) (by omega)
    obtain ⟨c1, c2, _, _⟩ := hw (4 * k + 7) (by omega) (by omega)
    obtain ⟨_, d2, _, _⟩ := hw (4 * k + 8) (by omega) (by omega)
    rw [wave_data _ _ _ _ (by omega) (by omega)] at a1 a2 a3 b2 b3 c1 c2 d2
    have e5 : (4 * k + 5 - 5) % 4 = 0 := by omega
    have e6 : (4 * k + 6 - 5) % 4 = 1 := by omega
    have e7 : (4 * k + 7 - 5) % 4 = 2 := by omega
    have e8 : (4 * k + 8 - 5) % 4 = 3 := by omega
    have q5 : (4 * k + 5 - 5) / 4 = k := by omega
    have q6 : (4 * k + 6 - 5) / 4 = k := by omega
    simp only [e5, q5] at a2 a3
    simp only [e6, q6] at b2 b3
    simp only [e7] at c2
    simp only [e8] at d2
    refine ⟨a1, ?_, ?_, ?_, ?_, c1, ?_, ?_⟩
    · rw [a2]
      split_ifs
      · exact hclk
      · simp
    · rw [b2, if_neg (by omega)]; simp
    · rw [a3]; simp
    · rw [b3]; simp
    · rw [c2, if_neg (by omega)]; simp
    · rw [d2, if_neg (by omega)]; simp
  · intro n hn hlow hhigh
    obtain ⟨_, b2, _, _⟩ := hw (n + 1) (by omega) (by omega)
    rw [b2] at hhigh
    by_cases h4 : n + 1 ≤ 4
    · rw [wave_start _ _ _ _ h4] at hhigh
      rw [hclk] at hhigh
      exact absurd hhigh (by simp)
    by_cases h36 : n + 1 ≤ 36
    swap
    · rw [wave_stop _ _ _ _ (by omega)] at hhigh
      exact absurd hhigh (by simp)
    rw [wave_data _ _ _ _ (by omega) h36] at hhigh
    simp only [] at hhigh
    by_cases h5 : n + 1 = 5
    · rw [if_pos h5, hclk] at hhigh
      exact absurd hhigh (by simp)
    rw [if_neg h5] at hhigh
    have hph : (n + 1 - 5) % 4 = 1 ∨ (n + 1 - 5) % 4 = 2 := of_decide_eq_true hhigh
    obtain ⟨a1, a2, _, _⟩ := hw n (by omega) (by omega)
    rw [wave_data _ _ _ _ (by omega) (by omega)] at a1 a2
    simp only [] at a1 a2
    rw [a2] at hlow
    have hph0 : (n - 5) % 4 = 0 := by
      by_cases h55 : n = 5
      · omega
      · rw [if_neg h55] at hlow
        have := of_decide_eq_false hlow
        omega
    exact ⟨(n - 5) / 4, by omega, by rw [a1]; omega⟩

set_option maxRecDepth 100000 in
theorem legacy_data_bits_witness :
    kbd_clk (after_ticks (feeds power_on [0x12, 0x1c]) (KBD_BSYN, 1)
      (List.replicate 39 (0, 1)) 5) = false ∧
    kbd_clk (after_ticks (feeds power_on [0x12, 0x1c]) (KBD_BSYN, 1)
      (List.replicate 39 (0, 1)) 6) = true ∧
    kbd_dta (after_ticks (feeds power_on [0x12, 0x1c]) (KBD_BSYN, 1)
      (List.replicate 39 (0, 1)) 6) = true :=
  ⟨((legacy_data_bits (feeds power_on [0x12, 0x1c]) (KBD_BSYN, 1) (List.replicate 39 (0, 1))
      (by decide) (by decide) (by decide) (by decide) (by decide)).1 0 (by decide)).2.1,
   ((legacy_data_bits (feeds power_on [0x12, 0x1c]) (KBD_BSYN, 1) (List.replicate 39 (0, 1))
      (by decide) (by decide) (by decide) (by decide) (by decide)).1 0 (by decide)).2.2.1,
   (((legacy_data_bits (feeds power_on [0x12, 0x1c]) (KBD_BSYN, 1) (List.replicate 39 (0, 1))
      (by decide) (by decide) (by decide) (by decide) (by decide)).1 0
      (by decide)).2.2.2.2.1).trans (by decide)⟩

set_option maxRecDepth 100000 in
/-- C17 (as stated, refuted): during the transmission of 0x41 from power-on,
with the ready line asserted throughout, `KBD_CLK` is low after tick 36 and
after each of the four ticks that run with `kbd_state` 36..39: it does not go
high during the end-of-data pulse. -/
theorem end_of_data_clock_never_high :
    (after_ticks (feeds power_on [0x12, 0x1c]) (KBD_BSYN, 1)
      (List.replicate 39 (KBD_BSYN, 1)) 36).kbd_state = 36 ∧
    kbd_clk (after_ticks (feeds power_on [0x12, 0x1c]) (KBD_BSYN, 1)
      (List.replicate 39 (KBD_BSYN, 1)) 36) = false ∧
    kbd_clk (after_ticks (feeds power_on [0x12, 0x1c]) (KBD_BSYN, 1)
      (List.replicate 39 (KBD_BSYN, 1)) 37) = false ∧
    kbd_clk (after_ticks (feeds power_on [0x12, 0x1c]) (KBD_BSYN, 1)
      (List.replicate 39 (KBD_BSYN, 1)) 38) = false ∧
    kbd_clk (after_ticks (feeds power_on [0x12, 0x1c]) (KBD_BSYN, 1)
      (List.replicate 39 (KBD_BSYN, 1)) 39) = false ∧
    kbd_clk (after_ticks (feeds power_on [0x12, 0x1c]) (KBD_BSYN, 1)
      (List.replicate 39 (KBD_BSYN, 1)) 40) = false := by
  decide

/-- C17 (amended): for every byte, the four ticks that run with `kbd_state`
36..39 drive `KBD_DTA` low (tick at 36) and re-assert it high (tick at 38),
while `KBD_CLK` stays low from before the first of them to after the last,
and `UART_TX` is high; after the last, `kbd_state` is 0. -/
theorem end_of_data_pulse (s : State) (ev0 : Nat × Nat) (rest : List (Nat × Nat))
    (hidle : s.kbd_state = 0) (hne : s.kbd_buf_out ≠ ev0.2) (hrdy : ev0.1 &&& KBD_BSYN ≠ 0)
    (hlen : rest.length = 39) :
    ((after_ticks s ev0 rest 36).kbd_state = 36 ∧ (after_ticks s ev0 rest 37).kbd_state = 37 ∧
      (after_ticks s ev0 rest 38).kbd_state = 38 ∧ (after_ticks s ev0 rest 39).kbd_state = 39 ∧
      (after_ticks s ev0 rest 40).kbd_state = 0) ∧
    (kbd_dta (after_ticks s ev0 rest 36) = true ∧ kbd_dta (after_ticks s ev0 rest 37) = false ∧
      kbd_dta (after_ticks s ev0 rest 38) = false ∧ kbd_dta (after_ticks s ev0 rest 39) = true ∧
      kbd_dta (after_ticks s ev0 rest 40) = true) ∧
    (∀ n, 36 ≤ n → n ≤ 40 → kbd_clk (after_ticks s ev0 rest n) = false) ∧
    (∀ n, 37 ≤ n → n ≤ 40 → uart_tx (after_ticks s ev0 rest n) = true) := by
  have hw := byte_wave_parts s ev0 rest hidle hne hrdy hlen
  have w36 := wave_data (s.kbd_buf s.kbd_buf_out) (kbd_clk s) (kbd_dta s) 36 (by omega)
    (by omega)
  have w37 := wave_stop (s.kbd_buf s.kbd_buf_out) (kbd_clk s) (kbd_dta s) 37 (by omega)
  have w38 := wave_stop (s.kbd_buf s.kbd_buf_out) (kbd_clk s) (kbd_dta s) 38 (by omega)
  have w39 := wave_stop (s.kbd_buf s.kbd_buf_out) (kbd_clk s) (kbd_dta s) 39 (by omega)
  have w40 := wave_stop (s.kbd_buf s.kbd_buf_out) (kbd_clk s) (kbd_dta s) 40 (by omega)
  obtain ⟨a1, a2, a3, _⟩ := hw 36 (by omega) (by omega)
  obtain ⟨b1, _, b3, _⟩ := hw 37 (by omega) (by omega)
  obtain ⟨c1, _, c3, _⟩ := hw 38 (by omega) (by omega)
  obtain ⟨d1, _, d3, _⟩ := hw 39 (by omega) (by omega)
  obtain ⟨e1, _, e3, _⟩ := hw 40 (by omega) (by omega)
  rw [w36] at a1 a2 a3
  rw [w37] at b1 b3
  rw [w38] at c1 c3
  rw [w39] at d1 d3
  rw [w40] at e1 e3
  refine ⟨⟨a1, b1, c1, d1, e1⟩, ⟨?_, ?_, ?_, ?_, ?_⟩, ?_, ?_⟩
  · rw [a3]; simp
  · rw [b3]; simp
  · rw [c3]; simp
  · rw [d3]; simp
  · rw [e3]; simp
  · intro n h36 h40
    by_cases h : n = 36
    · subst h; rw [a2]; simp
    · rw [(hw n (by omega) h40).2.1, wave_stop _ _ _ _ (by omega)]
  · intro n h37 h40
    rw [(hw n (by omega) h40).2.2.2, wave_stop _ _ _ _ (by omega)]

set_option maxRecDepth 100000 in
theorem end_of_data_pulse_witness :
    kbd_dta (after_ticks (feeds power_on [0x12, 0x1c]) (KBD_BSYN, 1)
      (List.replicate 39 (0, 1)) 37) = false ∧
    kbd_dta (after_ticks (feeds power_on [0x12, 0x1c]) (KBD_BSYN, 1)
      (List.replicate 39 (0, 1)) 39) = true ∧
    kbd_clk (after_ticks (feeds power_on [0x12, 0x1c]) (KBD_BSYN, 1)
      (List.replicate 39 (0, 1)) 38) = false :=
  ⟨(end_of_data_pulse (feeds power_on [0x12, 0x1c]) (KBD_BSYN, 1) (List.replicate 39 (0, 1))
      (by decide) (by decide) (by decide) (by decide)).2.1.2.1,
   (end_of_data_pulse (feeds power_on [0x12, 0x1c]) (KBD_BSYN, 1) (List.replicate 39 (0, 1))
      (by decide) (by decide) (by decide) (by decide)).2.1.2.2.2.1,
   (end_of_data_pulse (feeds power_on [0x12, 0x1c]) (KBD_BSYN, 1) (List.replicate 39 (0, 1))
      (by decide) (by decide) (by decide) (by decide)).2.2.1 38 (by decide) (by decide)⟩

/-- C18: starting from Idle with `KBD_DTA` high (and `KBD_CLK` at any level,
low included), a tick of the 40 of a byte that raises `KBD_DTA` from low to high runs with
`kbd_state mod 4 = 2`; when that `kbd_state` is below 36 `KBD_CLK` is high
before and after the tick (a data bit), and otherwise it is 38.  The tick
that runs with `kbd_state = 38` raises `KBD_DTA` from low to high with
`KBD_CLK` low before and after (end of data).  After tick 40 the lines are
`KBD_DTA` high, `KBD_CLK` low, `UART_TX` high. -/
theorem end_of_data_latched_once (s : State) (ev0 : Nat × Nat) (rest : List (Nat × Nat))
    (hidle : s.kbd_state = 0) (hne : s.kbd_buf_out ≠ ev0.2) (hrdy : ev0.1 &&& KBD_BSYN ≠ 0)
    (hlen : rest.length = 39) (hdta : kbd_dta s = true) :
    (∀ n < 40, kbd_dta (after_ticks s ev0 rest n) = false →
      kbd_dta (after_ticks s ev0 rest (n + 1)) = true →
      (after_ticks s ev0 rest n).kbd_state % 4 = 2 ∧
      ((after_ticks s ev0 rest n).kbd_state < 36 →
        kbd_clk (after_ticks s ev0 rest n) = true ∧
        kbd_clk (after_ticks s ev0 rest (n + 1)) = true) ∧
      (36 ≤ (after_ticks s ev0 rest n).kbd_state →
        (after_ticks s ev0 rest n).kbd_state = 38)) ∧
    ((after_ticks s ev0 rest 38).kbd_state = 38 ∧
      kbd_dta (after_ticks s ev0 rest 38) = false ∧
      kbd_dta (after_ticks s ev0 rest 39) = true ∧
      kbd_clk (after_ticks s ev0 rest 38) = false ∧
      kbd_clk (after_ticks s ev0 rest 39) = false) ∧
    (kbd_dta (after_ticks s ev0 rest 40) = true ∧ kbd_clk (after_ticks s ev0 rest 40) = false ∧
      uart_tx (after_ticks s ev0 rest 40) = true) := by
  have hw := byte_wave_parts s ev0 rest hidle hne hrdy hlen
  refine ⟨?_, ?_, ?_⟩
  · intro n hn hlow hhigh
    have h0 : after_ticks s ev0 rest 0 = s := rfl
    by_cases hn0 : n = 0
    · subst hn0
      rw [h0, hdta] at hlow
      exact absurd hlow (by simp)
    obtain ⟨a1, a2, a3, _⟩ := hw n (by omega) (by omega)
    obtain ⟨_, b2, b3, _⟩ := hw (n + 1) (by omega) (by omega)
    by_cases h4 : n ≤ 4
    · rw [a3, wave_start _ _ _ _ h4, hdta] at hlow
      exact absurd hlow (by simp)
    by_cases h36 : n ≤ 36
    · -- a data-bit group
      rw [wave_data _ _ _ _ (by omega) h36] at a1 a2 a3
      simp only [] at a1 a2 a3
      rw [a3] at hlow
      have hph : ¬ 2 ≤ (n - 5) % 4 := by
        intro h
        rw [if_pos h] at hlow
        exact absurd hlow (by simp)
      rw [if_neg hph] at hlow
      have hn36 : n + 1 ≤ 36 := by
        by_contra hc
        have : n = 36 := by omega
        subst this
        omega
      rw [wave_data _ _ _ _ (by omega) hn36] at b2 b3
      simp only [] at b2 b3
      rw [b3] at hhigh
      have hph1 : (n - 5) % 4 = 1 := by
        by_contra hc
        have h00 : (n - 5) % 4 = 0 := by omega
        have hq : (n + 1 - 5) / 4 = (n - 5) / 4 := by omega
        have hp : ¬ 2 ≤ (n + 1 - 5) % 4 := by omega
        rw [if_neg hp, hq, hlow] at hhigh
        exact absurd hhigh (by simp)
      refine ⟨by rw [a1]; omega, ?_, by rw [a1]; omega⟩
      intro _
      constructor
      · rw [a2, if_neg (by omega)]
        exact decide_eq_true (Or.inl hph1)
      · rw [b2, if_neg (by omega)]
        exact decide_eq_true (Or.inr (by omega))
    · -- the end-of-data group
      rw [wave_stop _ _ _ _ (by omega)] at a1 a3
      simp only [] at a1 a3
      rw [a3] at hlow
      have h39 : ¬ 39 ≤ n := of_decide_eq_false hlow
      rw [b3, wave_stop _ _ _ _ (by omega)] at hhigh
      have h38 : 39 ≤ n + 1 := of_decide_eq_true hhigh
      have : n = 38 := by omega
      subst this
      exact ⟨by rw [a1], fun h => by rw [a1] at h; omega, fun _ => by rw [a1]⟩
  · obtain ⟨c1, c2, c3, _⟩ := hw 38 (by omega) (by omega)
    obtain ⟨_, d2, d3, _⟩ := hw 39 (by omega) (by omega)
    rw [wave_stop _ _ _ _ (by omega)] at c1 c2 c3 d2 d3
    refine ⟨c1, ?_, ?_, c2, d2⟩
    · rw [c3]; simp
    · rw [d3]; simp
  · obtain ⟨_, e2, e3, e4⟩ := hw 40 (by omega) (by omega)
    rw [wave_stop _ _ _ _ (by omega)] at e2 e3 e4
    refine ⟨?_, e2, e4⟩
    rw [e3]; simp

set_option maxRecDepth 100000 in
theorem end_of_data_latched_once_witness :
    kbd_dta (after_ticks (feeds power_on [0x12, 0x1c]) (KBD_BSYN, 1)
      (List.replicate 39 (0, 1)) 38) = false ∧
    kbd_dta (after_ticks (feeds power_on [0x12, 0x1c]) (KBD_BSYN, 1)
      (List.replicate 39 (0, 1)) 39) = true ∧
    kbd_clk (after_ticks (feeds power_on [0x12, 0x1c]) (KBD_BSYN, 1)
      (List.replicate 39 (0, 1)) 39) = false :=
  ⟨(end_of_data_latched_once (feeds power_on [0x12, 0x1c]) (KBD_BSYN, 1)
      (List.replicate 39 (0, 1)) (by decide) (by decide) (by decide) (by decide)
      (by decide)).2.1.2.1,
   (end_of_data_latched_once (feeds power_on [0x12, 0x1c]) (KBD_BSYN, 1)
      (List.replicate 39 (0, 1)) (by decide) (by decide) (by decide) (by decide)
      (by decide)).2.1.2.2.1,
   (end_of_data_latched_once (feeds power_on [0x12, 0x1c]) (KBD_BSYN, 1)
      (List.replicate 39 (0, 1)) (by decide) (by decide) (by decide) (by decide)
      (by decide)).2.1.2.2.2.2⟩

/-! ## Transmit engine: idle gating -/

theorem Timer_A1_idle (t : State) (p : Nat) (h0 : t.kbd_state = 0)
    (hno : ¬ (t.kbd_buf_out ≠ t.kbd_buf_in ∧ p &&& KBD_BSYN ≠ 0)) :
    Timer_A1 t p = led_blink t := by
  unfold Timer_A1
  rw [if_pos h0, if_neg hno]

theorem ticks_idle (evs : List (Nat × Nat)) (t : State) (h0 : t.kbd_state = 0)
    (hno : ∀ ev ∈ evs, ¬ (t.kbd_buf_out ≠ ev.2 ∧ ev.1 &&& KBD_BSYN ≠ 0)) :
    (ticks t evs).kbd_state = 0 ∧ (ticks t evs).kbd_buf_out = t.kbd_buf_out ∧
    (ticks t evs).kbd_shr = t.kbd_shr ∧ (ticks t evs).P1OUT = t.P1OUT ∧
    (ticks t evs).kbd_buf = t.kbd_buf := by
  induction evs generalizing t with
  | nil => exact ⟨h0, rfl, rfl, rfl, rfl⟩
  | cons ev evs ih =>
    have hfold : ticks t (ev :: evs) = ticks (tick t ev) evs := rfl
    have hstay : tick t ev = led_blink { t with kbd_buf_in := ev.2 } :=
      Timer_A1_idle { t with kbd_buf_in := ev.2 } ev.1 h0 (hno ev (List.mem_cons_self ev evs))
    obtain ⟨a, b, c, d, _, f⟩ := led_blink_keeps { t with kbd_buf_in := ev.2 }
    rw [← hstay] at a b c d f
    obtain ⟨i1, i2, i3, i4, i5⟩ := ih (tick t ev) (a.trans h0)
      (fun e he => by rw [c]; exact hno e (List.mem_cons_of_mem ev he))
    rw [hfold, i1, i2, i3, i4, i5]
    exact ⟨rfl, c, b, f, d⟩

/-- C14: in Idle a tick starts a byte exactly when the ring buffer is not
empty and the ready line is asserted; it then loads `kbd_buf[kbd_buf_out]`
into the shift register, advances `kbd_buf_out` by one modulo 16, drives
`UART_TX` low, leaves `KBD_CLK` and `KBD_DTA` alone and sets `kbd_state` to 1.
Over any number of ticks on each of which the buffer is empty or the device
not ready, `kbd_state` stays 0 and `kbd_buf_out`, the shift register and the
output register `P1OUT`, so the three lines, keep their values. -/
theorem idle_gating (s : State) (hidle : s.kbd_state = 0) :
    (∀ p, (Timer_A1 s p).kbd_state ≠ 0 ↔
      (s.kbd_buf_out ≠ s.kbd_buf_in ∧ p &&& KBD_BSYN ≠ 0)) ∧
    (∀ p, s.kbd_buf_out ≠ s.kbd_buf_in → p &&& KBD_BSYN ≠ 0 →
      (Timer_A1 s p).kbd_state = 1 ∧ (Timer_A1 s p).kbd_shr = s.kbd_buf s.kbd_buf_out ∧
      (Timer_A1 s p).kbd_buf_out = (s.kbd_buf_out + 1) % 16 ∧
      uart_tx (Timer_A1 s p) = false ∧ kbd_clk (Timer_A1 s p) = kbd_clk s ∧
      kbd_dta (Timer_A1 s p) = kbd_dta s) ∧
    (∀ evs : List (Nat × Nat),
      (∀ ev ∈ evs, ¬ (s.kbd_buf_out ≠ ev.2 ∧ ev.1 &&& KBD_BSYN ≠ 0)) →
      (ticks s evs).kbd_state = 0 ∧ (ticks s evs).kbd_buf_out = s.kbd_buf_out ∧
      (ticks s evs).kbd_shr = s.kbd_shr ∧ (ticks s evs).P1OUT = s.P1OUT ∧
      kbd_clk (ticks s evs) = kbd_clk s ∧ kbd_dta (ticks s evs) = kbd_dta s ∧
      uart_tx (ticks s evs) = uart_tx s) := by
  refine ⟨?_, ?_, ?_⟩
  · intro p
    constructor
    · intro hne
      by_contra hno
      rw [Timer_A1_idle s p hidle hno, (led_blink_keeps s).1] at hne
      exact hne hidle
    · rintro ⟨h1, h2⟩
      rw [(Timer_A1_start s p hidle h1 h2).1]
      decide
  · intro p h1 h2
    obtain ⟨a, b, c, _⟩ := Timer_A1_start s p hidle h1 h2
    have hv := tx_view_start s p hidle h1 h2
    exact ⟨a, b, c, congrArg TxView.tx hv, congrArg TxView.clk hv, congrArg TxView.dta hv⟩
  · intro evs hno
    obtain ⟨a, b, c, d, _⟩ := ticks_idle evs s hidle hno
    refine ⟨a, b, c, d, ?_, ?_, ?_⟩
    · unfold kbd_clk; rw [d]
    · unfold kbd_dta; rw [d]
    · unfold uart_tx; rw [d]

set_option maxRecDepth 100000 in
theorem idle_gating_witness :
    (ticks (feeds power_on [0x12, 0x1c]) [(0, 1), (0, 1), (KBD_BSYN, 0)]).kbd_state = 0 ∧
    (Timer_A1 (feeds power_on [0x12, 0x1c]) KBD_BSYN).kbd_state = 1 :=
  ⟨((idle_gating (feeds power_on [0x12, 0x1c]) (by decide)).2.2
      [(0, 1), (0, 1), (KBD_BSYN, 0)] (by decide)).1,
   ((idle_gating (feeds power_on [0x12, 0x1c]) (by decide)).2.1 KBD_BSYN (by decide)
      (by decide)).1⟩

/-! ## The ring buffer as a FIFO queue -/

theorem slots_cons (buf : Nat → Nat) (out n : Nat) (hout : out < 16) :
    slots buf out (n + 1) = buf out :: slots buf ((out + 1) % 16) n := by
  unfold slots KBD_BUF_N
  rw [List.range_succ_eq_map, List.map_cons, List.map_map]
  have h0 : (out + 0) % 16 = out := by omega
  rw [h0]
  congr 1
  apply List.map_congr_left
  intro j _
  show buf ((out + (j + 1)) % 16) = buf (((out + 1) % 16 + j) % 16)
  congr 1
  omega

theorem kbd_queue_nil_iff (s : State) (hin : s.kbd_buf_in < 16) (hout : s.kbd_buf_out < 16) :
    kbd_queue s = [] ↔ s.kbd_buf_in = s.kbd_buf_out := by
  rw [← List.length_eq_zero, kbd_queue_length]
  unfold kbd_count KBD_BUF_N
  omega

theorem Port1_keeps_buffer (s : State) (x : Nat) :
    (Port1 s x).kbd_buf = s.kbd_buf ∧ (Port1 s x).kbd_buf_in = s.kbd_buf_in ∧
    (Port1 s x).kbd_buf_out = s.kbd_buf_out := by
  unfold Port1
  simp only []
  split_ifs <;> exact ⟨rfl, rfl, rfl⟩

theorem kbd_put_in_lt (t : State) (i c : Nat) (hin : t.kbd_buf_in < 16) :
    (kbd_put t i c).kbd_buf_in < 16 := by
  unfold kbd_put
  simp only [kbd_mask]
  split_ifs
  · exact Nat.mod_lt _ (by decide)
  · exact hin
  · exact Nat.mod_lt _ (by decide)
  · exact hin

theorem main_loop_in_lt (s : State) (hin : s.kbd_buf_in < 16) :
    (main_loop s).kbd_buf_in < 16 := by
  by_cases hr : s.ps2_hld_rdy ≠ 0
  · rw [main_loop_eq s hr]
    split_ifs
    · exact hin
    · rw [(ps2_release_mod_buf _ _).2.1]; exact hin
    · split
      · exact kbd_put_in_lt _ _ _ hin
      · rw [(ps2_press_mod_buf _ _).2.1]; exact hin
  · rw [main_loop_no_byte s (not_not.mp hr)]; exact hin

theorem Timer_A1_keeps_in (s : State) (p : Nat) :
    (Timer_A1 s p).kbd_buf_in = s.kbd_buf_in ∧ (Timer_A1 s p).kbd_buf = s.kbd_buf := by
  unfold Timer_A1
  obtain ⟨a2, a3, a4⟩ : (kbd_advance (kbd_phase s)).kbd_buf_out = s.kbd_buf_out ∧
      (kbd_advance (kbd_phase s)).kbd_buf = s.kbd_buf ∧
      (kbd_advance (kbd_phase s)).kbd_buf_in = s.kbd_buf_in := by
    obtain ⟨_, a2, a3, a4, _, _⟩ := kbd_advance_keeps (kbd_phase s)
    obtain ⟨_, b2, b3, b4⟩ := kbd_phase_keeps s
    exact ⟨a2.trans b2, a3.trans b3, a4.trans b4⟩
  split_ifs
  all_goals first
    | exact ⟨(led_blink_keeps _).2.2.2.2.1, (led_blink_keeps _).2.2.2.1⟩
    | exact ⟨(led_blink_keeps _).2.2.2.2.1.trans a4, (led_blink_keeps _).2.2.2.1.trans a3⟩

theorem Timer_A1_keeps_out (s : State) (p : Nat)
    (h : ¬ (s.kbd_state = 0 ∧ s.kbd_buf_out ≠ s.kbd_buf_in ∧ p &&& KBD_BSYN ≠ 0)) :
    (Timer_A1 s p).kbd_buf_out = s.kbd_buf_out := by
  unfold Timer_A1
  rw [(led_blink_keeps _).2.2.1]
  by_cases h0 : s.kbd_state = 0
  · rw [if_pos h0, if_neg (fun hc => h ⟨h0, hc⟩)]
  · rw [if_neg h0]
    split_ifs
    · rfl
    · exact (kbd_advance_keeps _).2.1.trans (kbd_phase_keeps s).2.1

theorem kbd_queue_pop (s t : State) (hin : s.kbd_buf_in < 16) (hout : s.kbd_buf_out < 16)
    (hne : s.kbd_buf_out ≠ s.kbd_buf_in) (e1 : t.kbd_buf_in = s.kbd_buf_in)
    (e2 : t.kbd_buf = s.kbd_buf) (e3 : t.kbd_buf_out = (s.kbd_buf_out + 1) % 16) :
    kbd_queue s = s.kbd_buf s.kbd_buf_out :: kbd_queue t := by
  have hc : kbd_count s = kbd_count t + 1 := by
    unfold kbd_count KBD_BUF_N
    rw [e1, e3]
    omega
  rw [kbd_queue_eq_slots, kbd_queue_eq_slots, hc, e2, e3]
  exact slots_cons _ _ _ hout

/-- A tick and the queue: `kbd_buf_in` and the storage are not written;
either `kbd_buf_out` and the queue stay, or the head of the queue has gone to
the shift register. -/
theorem Timer_A1_queue (s : State) (p : Nat) (hin : s.kbd_buf_in < 16)
    (hout : s.kbd_buf_out < 16) :
    (Timer_A1 s p).kbd_buf_in = s.kbd_buf_in ∧ (Timer_A1 s p).kbd_buf = s.kbd_buf ∧
    (Timer_A1 s p).kbd_buf_out < 16 ∧
    (((Timer_A1 s p).kbd_buf_out = s.kbd_buf_out ∧ kbd_queue (Timer_A1 s p) = kbd_queue s) ∨
     ((Timer_A1 s p).kbd_buf_out ≠ s.kbd_buf_out ∧
       kbd_queue s = (Timer_A1 s p).kbd_shr :: kbd_queue (Timer_A1 s p))) := by
  obtain ⟨e1, e2⟩ := Timer_A1_keeps_in s p
  refine ⟨e1, e2, ?_⟩
  by_cases h : s.kbd_state = 0 ∧ s.kbd_buf_out ≠ s.kbd_buf_in ∧ p &&& KBD_BSYN ≠ 0
  · obtain ⟨_, b, c, _⟩ := Timer_A1_start s p h.1 h.2.1 h.2.2
    refine ⟨by rw [c]; exact Nat.mod_lt _ (by decide), Or.inr ⟨by rw [c]; omega, ?_⟩⟩
    rw [b]
    exact kbd_queue_pop s _ hin hout h.2.1 e1 e2 c
  · have e3 := Timer_A1_keeps_out s p h
    exact ⟨by rw [e3]; exact hout, Or.inl ⟨e3, kbd_queue_congr _ _ e2 e1 e3⟩⟩

theorem step_index_lt (s : State) (e : Event) (hin : s.kbd_buf_in < 16)
    (hout : s.kbd_buf_out < 16) :
    (step s e).kbd_buf_in < 16 ∧ (step s e).kbd_buf_out < 16 := by
  cases e with
  | edge x =>
    obtain ⟨_, h2, h3⟩ := Port1_keeps_buffer s x
    exact ⟨by show (Port1 s x).kbd_buf_in < 16; rw [h2]; exact hin,
           by show (Port1 s x).kbd_buf_out < 16; rw [h3]; exact hout⟩
  | poll =>
    exact ⟨main_loop_in_lt s hin,
           by show (main_loop s).kbd_buf_out < 16; rw [(main_loop_cases s hin hout).1]; exact hout⟩
  | timer x =>
    obtain ⟨h1, _, h3, _⟩ := Timer_A1_queue s x hin hout
    exact ⟨by show (Timer_A1 s x).kbd_buf_in < 16; rw [h1]; exact hin, h3⟩

theorem run_cons (s : State) (e : Event) (es : List Event) :
    run s (e :: es) = run (step s e) es := rfl

theorem run_index_lt (es : List Event) : ∀ (s : State), s.kbd_buf_in < 16 →
    s.kbd_buf_out < 16 → (run s es).kbd_buf_in < 16 ∧ (run s es).kbd_buf_out < 16 := by
  induction es with
  | nil => intro s hin hout; exact ⟨hin, hout⟩
  | cons e es ih =>
    intro s hin hout
    rw [run_cons]
    exact ih _ (step_index_lt s e hin hout).1 (step_index_lt s e hin hout).2

theorem main_loop_prefix (s : State) (hin : s.kbd_buf_in < 16) (hout : s.kbd_buf_out < 16) :
    kbd_queue s <+: kbd_queue (main_loop s) := by
  rcases (main_loop_cases s hin hout).2 with h | ⟨i, e, _, _, _, _, h | h⟩
  · rw [h.1]
  · rw [h.2]; exact List.prefix_append _ _
  · rw [h.2]; exact List.prefix_append _ _

/-- Along any run the bytes already sent to the shift register followed by
the bytes still queued are the bytes queued at the start followed by the
bytes enqueued since. -/
theorem run_order (es : List Event) : ∀ (s : State), s.kbd_buf_in < 16 →
    s.kbd_buf_out < 16 →
    popped s es ++ kbd_queue (run s es) = kbd_queue s ++ pushed s es := by
  induction es with
  | nil => intro s _ _; simp [popped, pushed, run]
  | cons e es ih =>
    intro s hin hout
    have ih1 := ih _ (step_index_lt s e hin hout).1 (step_index_lt s e hin hout).2
    rw [run_cons]
    cases e with
    | edge x =>
      obtain ⟨h1, h2, h3⟩ := Port1_keeps_buffer s x
      have hq : kbd_queue (step s (Event.edge x)) = kbd_queue s := kbd_queue_congr _ _ h1 h2 h3
      rw [hq] at ih1
      show [] ++ popped _ es ++ _ = _ ++ ([] ++ pushed _ es)
      rw [List.nil_append, List.nil_append]
      exact ih1
    | poll =>
      obtain ⟨t, ht⟩ := main_loop_prefix s hin hout
      have hq : kbd_queue (step s Event.poll) = kbd_queue s ++ t := ht.symm
      have hd : (kbd_queue (main_loop s)).drop (kbd_queue s).length = t := by
        rw [← ht]; exact List.drop_left _ _
      rw [hq] at ih1
      show [] ++ popped _ es ++ _
        = _ ++ ((kbd_queue (main_loop s)).drop (kbd_queue s).length ++ pushed _ es)
      rw [List.nil_append, hd, ← List.append_assoc]
      exact ih1
    | timer x =>
      obtain ⟨_, _, _, h | h⟩ := Timer_A1_queue s x hin hout
      · have hq : kbd_queue (step s (Event.timer x)) = kbd_queue s := h.2
        rw [hq] at ih1
        show (if (Timer_A1 s x).kbd_buf_out ≠ s.kbd_buf_out then [(Timer_A1 s x).kbd_shr] else [])
          ++ popped _ es ++ _ = _ ++ ([] ++ pushed _ es)
        rw [if_neg (not_not.mpr h.1), List.nil_append, List.nil_append]
        exact ih1
      · show (if (Timer_A1 s x).kbd_buf_out ≠ s.kbd_buf_out then [(Timer_A1 s x).kbd_shr] else [])
          ++ popped _ es ++ _ = _ ++ ([] ++ pushed _ es)
        rw [if_pos h.1, List.nil_append, h.2, List.append_assoc, ih1]
        rfl

/-- A pass seen from the queue of the specification: nothing, one push or two
pushes, each of them successful. -/
theorem main_loop_pushes (s : State) (hin : s.kbd_buf_in < 16) (hout : s.kbd_buf_out < 16) :
    kbd_queue (main_loop s) = kbd_queue s ∨
    (∃ b, spec_try_push (kbd_queue s) b = some (kbd_queue (main_loop s))) ∨
    (∃ b c q, spec_try_push (kbd_queue s) b = some q ∧
      spec_try_push q c = some (kbd_queue (main_loop s))) := by
  have hlen : (kbd_queue (main_loop s)).length ≤ 15 := by
    rw [kbd_queue_length]
    have : kbd_count (main_loop s) < 16 := Nat.mod_lt _ (by decide)
    omega
  rcases (main_loop_cases s hin hout).2 with h | ⟨i, e, _, _, _, _, h | h⟩
  · exact Or.inl h.1
  · refine Or.inr (Or.inl ⟨ps2_select i e s.ps2_ctrl s.ps2_alt s.ps2_shft s.ps2_caps, ?_⟩)
    rw [h.2, List.length_append, List.length_singleton] at hlen
    unfold spec_try_push KBD_BUF_N
    rw [if_pos (by omega), h.2]
  · refine Or.inr (Or.inr ⟨ps2_select i e s.ps2_ctrl s.ps2_alt s.ps2_shft s.ps2_caps,
      0x30 + (i - F10_IDX),
      kbd_queue s ++ [ps2_select i e s.ps2_ctrl s.ps2_alt s.ps2_shft s.ps2_caps], ?_, ?_⟩)
    · rw [h.2, List.length_append] at hlen
      unfold spec_try_push KBD_BUF_N
      rw [if_pos (by simp at hlen; omega)]
    · rw [h.2, List.length_append] at hlen
      unfold spec_try_push KBD_BUF_N
      rw [if_pos (by simp at hlen ⊢; omega), h.2]
      simp

/-- C20: the ring buffer refines the bounded FIFO queue of the specification.
Reading a state as the list `kbd_queue`, in every state reached from power-on
by any sequence of receiver edges, loop iterations and timer ticks: both
indices are below 16 and the list holds at most 15 bytes; a Translator pass
keeps `kbd_buf_out` and either leaves the list alone or is one or two
successful `try_push` at its end; a Transmit Engine tick keeps `kbd_buf_in`
and the stored bytes and either leaves the list alone or is a `try_pop` whose
value goes to the shift register; a receiver edge leaves the list alone; the
list is empty exactly when `kbd_buf_in = kbd_buf_out`; and the bytes loaded
into the shift register so far, followed by the bytes still queued, are the
bytes enqueued so far, in the order they were enqueued. -/
theorem ring_buffer_refines_fifo (es : List Event) :
    (run power_on es).kbd_buf_in < 16 ∧ (run power_on es).kbd_buf_out < 16 ∧
    (kbd_queue (run power_on es)).length ≤ 15 ∧
    ((main_loop (run power_on es)).kbd_buf_out = (run power_on es).kbd_buf_out ∧
     (kbd_queue (main_loop (run power_on es)) = kbd_queue (run power_on es) ∨
      (∃ b, spec_try_push (kbd_queue (run power_on es)) b
          = some (kbd_queue (main_loop (run power_on es)))) ∨
      (∃ b c q, spec_try_push (kbd_queue (run power_on es)) b = some q ∧
          spec_try_push q c = some (kbd_queue (main_loop (run power_on es)))))) ∧
    (∀ p, (Timer_A1 (run power_on es) p).kbd_buf_in = (run power_on es).kbd_buf_in ∧
      (Timer_A1 (run power_on es) p).kbd_buf = (run power_on es).kbd_buf ∧
      (((Timer_A1 (run power_on es) p).kbd_buf_out = (run power_on es).kbd_buf_out ∧
        kbd_queue (Timer_A1 (run power_on es) p) = kbd_queue (run power_on es)) ∨
       spec_try_pop (kbd_queue (run power_on es))
         = some ((Timer_A1 (run power_on es) p).kbd_shr,
                 kbd_queue (Timer_A1 (run power_on es) p)))) ∧
    (∀ x, kbd_queue (Port1 (run power_on es) x) = kbd_queue (run power_on es)) ∧
    (kbd_queue (run power_on es) = [] ↔
      (run power_on es).kbd_buf_in = (run power_on es).kbd_buf_out) ∧
    popped power_on es ++ kbd_queue (run power_on es) = pushed power_on es := by
  obtain ⟨hin, hout⟩ := run_index_lt es power_on (by decide) (by decide)
  refine ⟨hin, hout, ?_, ⟨(main_loop_cases _ hin hout).1, main_loop_pushes _ hin hout⟩,
    ?_, ?_, kbd_queue_nil_iff _ hin hout, ?_⟩
  · rw [kbd_queue_length]
    have : kbd_count (run power_on es) < 16 := Nat.mod_lt _ (by decide)
    omega
  · intro p
    obtain ⟨h1, h2, _, h | h⟩ := Timer_A1_queue (run power_on es) p hin hout
    · exact ⟨h1, h2, Or.inl h⟩
    · refine ⟨h1, h2, Or.inr ?_⟩
      rw [h.2]
      rfl
  · intro x
    obtain ⟨h1, h2, h3⟩ := Port1_keeps_buffer (run power_on es) x
    exact kbd_queue_congr _ _ h1 h2 h3
  · have h := run_order es power_on (by decide) (by decide)
    rw [h]
    have h0 : kbd_queue power_on = [] := by decide
    rw [h0, List.nil_append]

set_option maxRecDepth 100000 in
/-- A concrete run: the frame of scan code 0x1c is received, one pass enqueues
the byte 0x61 and one tick with the ready line asserted takes it out. -/
theorem run_example :
    pushed power_on (((ps2_frame false 0x1c false true).map (fun l => Event.edge (ps2_pin l)))
      ++ [Event.poll, Event.timer KBD_BSYN]) = [0x61] ∧
    popped power_on (((ps2_frame false 0x1c false true).map (fun l => Event.edge (ps2_pin l)))
      ++ [Event.poll, Event.timer KBD_BSYN]) = [0x61] ∧
    kbd_queue (run power_on (((ps2_frame false 0x1c false true).map
      (fun l => Event.edge (ps2_pin l))) ++ [Event.poll])) = [0x61] ∧
    kbd_queue (run power_on (((ps2_frame false 0x1c false true).map
      (fun l => Event.edge (ps2_pin l))) ++ [Event.poll, Event.timer KBD_BSYN])) = [] := by
  decide

end TandyKey
